import Mathlib

/-!
The process and thread runtime of the mos kernel: signals (`src/kernel/ipc/signal.c`),
the address-space manager (`src/kernel/memory/mmap.c`) and process creation
(`src/kernel/proc/task.c`).

Shallow embedding of the code: signal sets are 32-bit words held in `Nat`, signal
numbers are C `int`s held in `Int`, the process, thread and VMA records live in
heaps addressed by natural numbers, the process hash map is an association list in
iteration order, and the VMA list keeps its links.
-/

namespace Mos

/-! ## Signal numbers and masks (`libc/signal.h`, `signal.c` lines 22-53) -/

def NSIG : Int := 32
def SIGHUP : Int := 1
def SIGINT : Int := 2
def SIGQUIT : Int := 3
def SIGILL : Int := 4
def SIGTRAP : Int := 5
def SIGABRT : Int := 6
def SIGBUS : Int := 7
def SIGFPE : Int := 8
def SIGKILL : Int := 9
def SIGUSR1 : Int := 10
def SIGSEGV : Int := 11
def SIGUSR2 : Int := 12
def SIGTERM : Int := 15
def SIGCHLD : Int := 17
def SIGCONT : Int := 18
def SIGSTOP : Int := 19
def SIGTSTP : Int := 20
def SIGTTIN : Int := 21
def SIGTTOU : Int := 22
def SIGURG : Int := 23
def SIGXCPU : Int := 24
def SIGXFSZ : Int := 25
def SIGWINCH : Int := 28
def SIGSYS : Int := 31
def SIGRTMIN : Int := 32

def SIG_BLOCK : Int := 0
def SIG_UNBLOCK : Int := 1
def SIG_SETMASK : Int := 2

/-- Handler selector `SIG_DFL` (the null handler address). -/
def SIG_DFL : Nat := 0
/-- Handler selector `SIG_IGN`. -/
def SIG_IGN : Nat := 1

/-- The type `sigset_t`: a 32-bit unsigned word. -/
abbrev sigset_t := Nat

/-- C `~x` on a 32-bit unsigned word. -/
def bnot32 (x : Nat) : Nat := 4294967295 ^^^ (x % 4294967296)

/-- The macro `M(sig)`, that is `1UL << (sig - 1)`, on a 32-bit `unsigned long`. -/
def M (sig : Int) : Nat := (1 <<< (sig - 1).toNat) % 4294967296

/-- The macro `T(sig, mask)`, that is `M(sig) & mask`. -/
def T (sig : Int) (mask : Nat) : Nat := M sig &&& mask

def SIG_KERNEL_ONLY_MASK : Nat := M SIGKILL ||| M SIGSTOP

def SIG_KERNEL_STOP_MASK : Nat := M SIGSTOP ||| M SIGTSTP ||| M SIGTTIN ||| M SIGTTOU

def SIG_KERNEL_COREDUMP_MASK : Nat :=
  M SIGQUIT ||| M SIGILL ||| M SIGTRAP ||| M SIGABRT |||
  M SIGFPE ||| M SIGSEGV ||| M SIGBUS ||| M SIGSYS |||
  M SIGXCPU ||| M SIGXFSZ

def SIG_KERNEL_IGNORE_MASK : Nat := M SIGCHLD ||| M SIGWINCH ||| M SIGURG

/-- The macro `sig_kernel_only(sig)`; `&&` short-circuits, so `T` is only
evaluated for `sig < SIGRTMIN`. -/
def sig_kernel_only (sig : Int) : Bool :=
  decide (sig < SIGRTMIN) && (T sig SIG_KERNEL_ONLY_MASK != 0)

def sig_kernel_coredump (sig : Int) : Bool :=
  decide (sig < SIGRTMIN) && (T sig SIG_KERNEL_COREDUMP_MASK != 0)

def sig_kernel_ignore (sig : Int) : Bool :=
  decide (sig < SIGRTMIN) && (T sig SIG_KERNEL_IGNORE_MASK != 0)

def sig_kernel_stop (sig : Int) : Bool :=
  decide (sig < SIGRTMIN) && (T sig SIG_KERNEL_STOP_MASK != 0)

/-- Scan of `ffz`: starting at bit `i`, skip at most `fuel` one bits. -/
def ffz_from (word : Nat) : Nat → Nat → Nat
  | 0, i => i
  | fuel + 1, i => if word.testBit i then ffz_from word fuel (i + 1) else i

/-- Modelled from the spec: `ffz` of `include/bitops.h`, which is not under src.
It is the index of the lowest zero bit of a 32-bit word (the x86 `bsf` of the
complement); on the all-ones word, where the instruction leaves its result
undefined, this model returns 32. -/
def ffz (word : Nat) : Nat := ffz_from word 32 0

/-- `next_signal` (`signal.c` lines 55-68). -/
def next_signal (pending blocked : sigset_t) : Int :=
  let mask := pending &&& bnot32 blocked
  let signum : Nat :=
    if mask &&& SIG_KERNEL_COREDUMP_MASK ≠ 0 then
      (ffz (bnot32 (mask &&& SIG_KERNEL_COREDUMP_MASK)) + 1) % 4294967296
    else if mask &&& bnot32 (M SIGCONT) ≠ 0 then
      (ffz (bnot32 (mask &&& bnot32 (M SIGCONT))) + 1) % 4294967296
    else if mask &&& M SIGCONT ≠ 0 then
      SIGCONT.toNat
    else 0
  (signum : Int)

/-! ## Vocabulary of the specification of `next_signal` -/

/-- Signal `s` (numbered from 1) is a member of the 32-bit set `m`. -/
def sig_member (m : Nat) (s : Int) : Prop :=
  1 ≤ s ∧ s ≤ 32 ∧ m.testBit (s - 1).toNat = true

/-- COREDUMP_SET as the specification lists it. -/
def COREDUMP_SET : List Int :=
  [SIGQUIT, SIGILL, SIGTRAP, SIGABRT, SIGFPE, SIGSEGV, SIGBUS, SIGSYS, SIGXCPU, SIGXFSZ]

/-- STOP_SET as the specification lists it. -/
def STOP_SET : List Int := [SIGSTOP, SIGTSTP, SIGTTIN, SIGTTOU]

/-- IGNORE_SET as the specification lists it. -/
def IGNORE_SET : List Int := [SIGCHLD, SIGWINCH, SIGURG]

/-- The value `n` is the lowest-numbered signal satisfying `P`. -/
def lowest_signal (P : Int → Prop) (n : Int) : Prop :=
  P n ∧ ∀ k, P k → n ≤ k

/-! ## Kernel data model (`task.h`, `idt.h`, `signal.h`) -/

/-- Modelled from the spec: the error numbers of `include/errno.h`, which is not
under src; invalid argument is 22. -/
def EINVAL : Int := 22

/-- Modelled from the spec: interrupted system call is error number 4. -/
def EINTR : Int := 4

/-- Modelled from the spec: `valid_signal` of the kernel's `signal.h`, which is not
under src: the signal number, read as an `unsigned long`, is at most NSIG. -/
def valid_signal (sig : Int) : Bool := decide (sig % 4294967296 ≤ NSIG)

/-- The C logical negation `!x` of an integer. -/
def lnot (x : Nat) : Nat := if x = 0 then 1 else 0

/-- Modelled from the spec: process flag `STOPPED = 1 << 0` (`task.h` is not under src). -/
def SIGNAL_STOPED : Nat := 1
/-- Modelled from the spec: process flag `CONTINUED = 1 << 1`. -/
def SIGNAL_CONTINUED : Nat := 2
/-- Modelled from the spec: process flag `TERMINATED = 1 << 2`. -/
def SIGNAL_TERMINATED : Nat := 4

/-- Modelled from the spec: `sigismember` of the kernel's `signal.h` (not under src):
bit `sig - 1` of the set. -/
def sigismember (set : sigset_t) (sig : Int) : Bool := set.testBit (sig - 1).toNat

/-- Modelled from the spec: `sigdelset` clears the bit of `sig`. -/
def sigdelset (set : sigset_t) (sig : Int) : sigset_t := set &&& bnot32 (M sig)

/-- Modelled from the spec: `sigdelsetmask` clears the bits of `mask`. -/
def sigdelsetmask (set : sigset_t) (mask : Nat) : sigset_t := set &&& bnot32 mask

/-- The signal descriptor `struct sigaction`. -/
structure sigaction where
  sa_handler : Nat
  sa_flags : Nat
  sa_mask : sigset_t
  deriving DecidableEq

/-- Modelled from the spec: `struct interrupt_registers` of `kernel/cpu/idt.h`, which
is not under src: the nineteen 32-bit words of the x86 interrupt frame. -/
structure interrupt_registers where
  gs : Nat
  fs : Nat
  es : Nat
  ds : Nat
  edi : Nat
  esi : Nat
  ebp : Nat
  esp : Nat
  ebx : Nat
  edx : Nat
  ecx : Nat
  eax : Nat
  int_no : Nat
  err_code : Nat
  eip : Nat
  cs : Nat
  eflags : Nat
  useresp : Nat
  ss : Nat
  deriving DecidableEq

/-- The record `struct signal_frame` (`signal.c` lines 13-20). -/
structure signal_frame where
  sigreturn : Nat
  signum : Int
  signaling : Bool
  blocked : sigset_t
  uregs : interrupt_registers
  deriving DecidableEq

/-- The size in bytes of `struct signal_frame`: four 32-bit words and the
nineteen words of the saved registers. -/
def sizeof_signal_frame : Nat := 92

inductive thread_state
  | THREAD_READY
  | THREAD_RUNNING
  | THREAD_WAITING
  | THREAD_TERMINATED
  deriving DecidableEq

/-- The fields of `struct thread` that the signal and task code use. Pointers are
heap addresses; `none` is the null pointer. -/
structure thread where
  tid : Nat
  parent : Option Nat
  state : thread_state
  policy : Nat
  time_slice : Nat
  prio : Int
  kernel_stack : Nat
  user_stack : Nat
  esp : Nat
  uregs : interrupt_registers
  pending : sigset_t
  blocked : sigset_t
  signaling : Bool
  deriving DecidableEq

/-- The fields of `struct process` that the signal and task code use. `sighand` is
the array of NSIG descriptors, `wait_chld` the threads queued on the wait queue. -/
structure process where
  pid : Int
  gid : Int
  sid : Int
  name : String
  parent : Option Nat
  thread : Option Nat
  children : List Nat
  sighand : List sigaction
  flags : Nat
  caused_signal : Int
  wait_chld : List Nat
  deriving DecidableEq

/-- The kernel state: the heap of process and thread records, the hash map
`mprocess` from pid to process (in iteration order), the globals of `task.c`, and
the user memory that holds signal frames. -/
structure KState where
  procs : Nat → Option process
  threads : Nat → Option thread
  mprocess : List (Int × Nat)
  current_process : Nat
  current_thread : Nat
  next_pid : Nat
  next_tid : Nat
  umem : Nat → Option signal_frame

/-- Ways in which the model stops without a result. -/
inductive kfault
  | out_of_fuel
  | bad_pointer
  | bad_index
  deriving DecidableEq

/-- Dereference a process pointer. -/
def load_process (s : KState) (a : Option Nat) : Except kfault process :=
  match a with
  | none => .error .bad_pointer
  | some p =>
    match s.procs p with
    | none => .error .bad_pointer
    | some r => .ok r

/-- Dereference a thread pointer. -/
def load_thread (s : KState) (a : Option Nat) : Except kfault thread :=
  match a with
  | none => .error .bad_pointer
  | some p =>
    match s.threads p with
    | none => .error .bad_pointer
    | some r => .ok r

def store_process (s : KState) (a : Nat) (p : process) : KState :=
  { s with procs := fun x => if x = a then some p else s.procs x }

def store_thread (s : KState) (a : Nat) (t : thread) : KState :=
  { s with threads := fun x => if x = a then some t else s.threads x }

/-- The slot `sighand[signum - 1]` of a process. -/
def sighand_slot (p : process) (signum : Int) : Except kfault sigaction :=
  if signum < 1 then .error .bad_index
  else
    match p.sighand[(signum - 1).toNat]? with
    | none => .error .bad_index
    | some a => .ok a

/-- `find_process_by_pid` (`task.c` lines 27-30): a lookup in the hash map. -/
def find_process_by_pid (s : KState) (pid : Int) : Option Nat :=
  (s.mprocess.find? (fun e => e.1 == pid)).map (fun e => e.2)

/-- Modelled from the spec: `update_thread(thread, new_state)` of the scheduler, which
is not under src; it moves the thread to the new state (the run queue is not modelled). -/
def update_thread (s : KState) (a : Nat) (st : thread_state) : Except kfault KState :=
  match s.threads a with
  | none => .error .bad_pointer
  | some t => .ok (store_thread s a { t with state := st })

/-- Modelled from the spec: `wake_up(wq)` of the scheduler, which is not under src:
a waker transitions the waiters of the queue to READY. -/
def wake_up : KState → List Nat → Except kfault KState
  | s, [] => .ok s
  | s, a :: rest =>
    match update_thread s a thread_state.THREAD_READY with
    | .error e => .error e
    | .ok s1 => wake_up s1 rest

/-! ## The signal system calls (`signal.c`) -/

/-- `sig_ignored` (`signal.c` lines 70-77). -/
def sig_ignored (s : KState) (tsk : thread) (sig : Int) : Except kfault Bool :=
  if sigismember tsk.blocked sig then .ok false
  else
    match load_process s tsk.parent with
    | .error e => .error e
    | .ok owner =>
      match sighand_slot owner sig with
      | .error e => .error e
      | .ok slot =>
        .ok (slot.sa_handler == SIG_IGN || (slot.sa_handler == SIG_DFL && sig_kernel_ignore sig))

/-- `do_sigprocmask` (`signal.c` lines 79-99). The result is the return value, the
new state, and the value stored through `oldset` when that pointer is not null. -/
def do_sigprocmask (s : KState) (how : Int) (set : Option sigset_t) (oldset : Bool) :
    Except kfault (Int × KState × Option sigset_t) :=
  match load_thread s (some s.current_thread) with
  | .error e => .error e
  | .ok cur =>
    let old := if oldset then some cur.blocked else none
    match set with
    | none => .ok (0, s, old)
    | some m =>
      if how = SIG_BLOCK then
        .ok (0, store_thread s s.current_thread
          { cur with blocked := (cur.blocked ||| m) &&& bnot32 SIG_KERNEL_ONLY_MASK }, old)
      else if how = SIG_UNBLOCK then
        .ok (0, store_thread s s.current_thread
          { cur with blocked := (cur.blocked &&& bnot32 m) &&& bnot32 SIG_KERNEL_ONLY_MASK }, old)
      else if how = SIG_SETMASK then
        .ok (0, store_thread s s.current_thread
          { cur with blocked := m &&& bnot32 SIG_KERNEL_ONLY_MASK }, old)
      else .ok (-EINVAL, s, old)

/-- `do_sigaction` (`signal.c` lines 101-113). The result is the return value, the
new state, and the descriptor stored through `old_action` when it is written. -/
def do_sigaction (s : KState) (signum : Int) (action : Option sigaction) (old_action : Bool) :
    Except kfault (Int × KState × Option sigaction) :=
  if !valid_signal signum || decide (signum < 1) || sig_kernel_only signum then
    .ok (-EINVAL, s, none)
  else
    match load_process s (some s.current_process) with
    | .error e => .error e
    | .ok cp =>
      match sighand_slot cp signum with
      | .error e => .error e
      | .ok slot =>
        let old := if old_action then some slot else none
        match action with
        | none => .ok (0, s, old)
        | some a =>
          .ok (0, store_process s s.current_process
            { cp with sighand := cp.sighand.set (signum - 1).toNat a }, old)

/-- The loop `for_each_process` of the broadcast forms of `do_kill`: `k` is the
recursive call `do_kill(proc->gid, signum)`, `sel` the test on `proc`. -/
def kill_each (k : KState → Int → Except kfault (Int × KState))
    (sel : KState → process → Except kfault Bool) :
    List (Int × Nat) → KState → Except kfault KState
  | [], s => .ok s
  | e :: rest, s =>
    match load_process s (some e.2) with
    | .error err => .error err
    | .ok proc =>
      match sel s proc with
      | .error err => .error err
      | .ok false => kill_each k sel rest s
      | .ok true =>
        match k s proc.gid with
        | .error err => .error err
        | .ok r => kill_each k sel rest r.2

/-- The stop and continue bookkeeping of `do_kill` (lines 133-137 and 141-145) up to
the recursive call: it works on `current_thread` and `current_process`, clears
`clear` from the pending set, sets the flag `flag_on` and then ands the flags with
`!flag_off`. The result is the new state and the pid of the parent of the current process. -/
def kill_bookkeeping (s : KState) (clear : Nat) (flag_on flag_off : Nat) : Except kfault (KState × Int) :=
  match load_thread s (some s.current_thread) with
  | .error e => .error e
  | .ok ct =>
    let s1 := store_thread s s.current_thread { ct with pending := sigdelsetmask ct.pending clear }
    match load_process s1 (some s1.current_process) with
    | .error e => .error e
    | .ok cp =>
      let s2 := store_process s1 s1.current_process
        { cp with flags := (cp.flags ||| flag_on) &&& lnot flag_off }
      match load_process s2 cp.parent with
      | .error e => .error e
      | .ok par => .ok (s2, par.pid)

/-- The call `wake_up(&current_process->parent->wait_chld)`. -/
def wake_parent (s : KState) : Except kfault KState :=
  match load_process s (some s.current_process) with
  | .error e => .error e
  | .ok cp =>
    match load_process s cp.parent with
    | .error e => .error e
    | .ok par => wake_up s par.wait_chld

/-- The end of the `pid > 0` branch of `do_kill` (lines 148-150). -/
def kill_post (s : KState) (tsk : Nat) (signum : Int) : Except kfault (Int × KState) :=
  match load_thread s (some tsk) with
  | .error e => .error e
  | .ok t =>
    let s1 := store_thread s tsk { t with pending := t.pending ||| M signum }
    if (signum = SIGCONT ∨ signum = SIGKILL) ∧ tsk ≠ s1.current_thread then
      match update_thread s1 tsk thread_state.THREAD_READY with
      | .error e => .error e
      | .ok s2 => .ok (0, s2)
    else .ok (0, s1)

/-- `do_kill` (`signal.c` lines 115-185). The first argument bounds the depth of the
recursive calls. -/
def do_kill : Nat → KState → Int → Int → Except kfault (Int × KState)
  | 0, _, _, _ => .error .out_of_fuel
  | fuel + 1, s, pid, signum =>
    if !valid_signal signum || decide (signum < 0) then .ok (-EINVAL, s)
    else if signum = 0 then .ok (0, s)
    else if pid > 0 then
      match load_process s (find_process_by_pid s pid) with
      | .error e => .error e
      | .ok proc =>
        match proc.thread with
        | none => .error .bad_pointer
        | some tsk =>
          match load_thread s (some tsk) with
          | .error e => .error e
          | .ok t =>
            match sig_ignored s t signum with
            | .error e => .error e
            | .ok true => .ok (0, s)
            | .ok false =>
              if signum = SIGCONT then
                match kill_bookkeeping s SIG_KERNEL_STOP_MASK SIGNAL_CONTINUED SIGNAL_STOPED with
                | .error e => .error e
                | .ok (s2, ppid) =>
                  match do_kill fuel s2 ppid SIGCHLD with
                  | .error e => .error e
                  | .ok r =>
                    match wake_parent r.2 with
                    | .error e => .error e
                    | .ok s4 => kill_post s4 tsk signum
              else if sig_kernel_stop signum then
                match kill_bookkeeping s (M SIGCONT) SIGNAL_STOPED SIGNAL_CONTINUED with
                | .error e => .error e
                | .ok (s2, ppid) =>
                  match do_kill fuel s2 ppid SIGCHLD with
                  | .error e => .error e
                  | .ok r =>
                    match wake_parent r.2 with
                    | .error e => .error e
                    | .ok s4 => kill_post s4 tsk signum
              else kill_post s tsk signum
    else if pid = 0 then
      match kill_each (fun st g => do_kill fuel st g signum)
          (fun st proc =>
            match load_process st (some st.current_process) with
            | .error e => .error e
            | .ok cp => .ok (proc.gid == cp.gid)) s.mprocess s with
      | .error e => .error e
      | .ok s1 => .ok (0, s1)
    else if pid = -1 then
      match kill_each (fun st g => do_kill fuel st g signum)
          (fun _ proc => .ok (decide (proc.pid > 1))) s.mprocess s with
      | .error e => .error e
      | .ok s1 => .ok (0, s1)
    else
      match kill_each (fun st g => do_kill fuel st g signum)
          (fun _ proc => .ok (proc.gid == -pid)) s.mprocess s with
      | .error e => .error e
      | .ok s1 => .ok (0, s1)

/-! ## Signal delivery (`signal.c` lines 187-251) -/

/-- How a run of `handle_signal` ends: it returns to its caller, it calls `do_exit`,
one of its assertions fails, or it runs into undefined behaviour (a null pointer,
or the shift and the array index at signal number 0). Each case carries the kernel
state and the returning register frame at that point. -/
inductive delivery
  | returned (s : KState) (regs : interrupt_registers)
  | exited (code : Int) (s : KState) (regs : interrupt_registers)
  | assert_failed (s : KState) (regs : interrupt_registers)
  | undefined (s : KState) (regs : interrupt_registers)

/-- The value `-EINTR` stored in the 32-bit register `eax`. -/
def neg_EINTR32 : Nat := ((-EINTR) % 4294967296).toNat

/-- `handle_signal` (`signal.c` lines 196-242). `sigreturn_fn` is the address of the
function `sigreturn`. Modelled from the spec: `do_exit` and `sigjump_usermode` are
declared but not defined under src; `do_exit` ends the run, and `sigjump_usermode`
transfers control to user mode and writes none of the modelled data. -/
def handle_signal (sigreturn_fn : Nat) (s : KState) (regs : interrupt_registers) : delivery :=
  match s.threads s.current_thread with
  | none => .undefined s regs
  | some ct =>
    let prev_signaling := ct.signaling
    if ct.pending = 0 then .returned s regs
    else
      let from_syscall := decide (regs.int_no = 0x7F)
      let regs1 := if from_syscall then { regs with eax := neg_EINTR32 } else regs
      let ct1 := { ct with signaling := true, uregs := regs1 }
      let s1 := store_thread s s.current_thread ct1
      let signum := next_signal ct1.pending ct1.blocked
      if signum = 0 then .undefined s1 regs1
      else
        let ct2 := { ct1 with pending := sigdelset ct1.pending signum }
        let s2 := store_thread s1 s1.current_thread ct2
        match sig_ignored s2 ct2 signum with
        | .error _ => .undefined s2 regs1
        | .ok true => .assert_failed s2 regs1
        | .ok false =>
          match load_process s2 (some s2.current_process) with
          | .error _ => .undefined s2 regs1
          | .ok cp =>
            match sighand_slot cp signum with
            | .error _ => .undefined s2 regs1
            | .ok slot =>
              if slot.sa_handler = SIG_DFL then
                if sig_kernel_coredump signum then
                  let s3 := store_process s2 s2.current_process
                    { cp with
                      caused_signal := signum
                      flags := (cp.flags ||| SIGNAL_TERMINATED) &&&
                        lnot (SIGNAL_CONTINUED ||| SIGNAL_STOPED) }
                  let s4 := store_thread s3 s3.current_thread
                    { ct2 with signaling := false, pending := 0 }
                  .exited signum s4 regs1
                else .assert_failed s2 regs1
              else if slot.sa_handler ≠ SIG_IGN then
                let regs2 := { regs1 with
                  useresp := (regs1.useresp + 4294967296 - sizeof_signal_frame) % 4294967296 }
                let frame : signal_frame :=
                  { sigreturn := sigreturn_fn
                    signum := signum
                    signaling := prev_signaling
                    blocked := ct2.blocked
                    uregs := regs2 }
                let s3 := { s2 with
                  umem := fun a => if a = regs2.useresp then some frame else s2.umem a }
                let regs3 := { regs2 with eip := slot.sa_handler % 4294967296 }
                let s4 := store_thread s3 s3.current_thread
                  { ct2 with blocked := ct2.blocked ||| (M signum ||| slot.sa_mask) }
                .returned s4 regs3
              else .returned s2 regs1

/-- The size in bytes of `struct interrupt_registers`. -/
def sizeof_interrupt_registers : Nat := 76

/-- `signal_handler` (`signal.c` lines 187-194); `regs_addr` is the address of the
returning frame on the kernel stack. -/
def signal_handler (sigreturn_fn : Nat) (s : KState) (regs_addr : Nat)
    (regs : interrupt_registers) : delivery :=
  match s.threads s.current_thread with
  | none => .undefined s regs
  | some ct =>
    if ct.pending = 0 ∨ ct.signaling = true ∨
        (regs_addr + sizeof_interrupt_registers) % 4294967296 ≠ ct.kernel_stack then
      .returned s regs
    else handle_signal sigreturn_fn s regs

/-- `sigreturn` (`signal.c` lines 244-251): the result is the new state and the new
contents of the frame `regs`. -/
def sigreturn (s : KState) (regs : interrupt_registers) :
    Except kfault (KState × interrupt_registers) :=
  match s.umem regs.useresp with
  | none => .error .bad_pointer
  | some frame =>
    match load_thread s (some s.current_thread) with
    | .error e => .error e
    | .ok ct =>
      .ok (store_thread s s.current_thread
        { ct with uregs := frame.uregs, signaling := frame.signaling, blocked := frame.blocked },
        frame.uregs)

/-! ## Concrete records used to exercise the model -/

/-- An all-zero register frame. -/
def zero_regs : interrupt_registers :=
  { gs := 0, fs := 0, es := 0, ds := 0, edi := 0, esi := 0, ebp := 0, esp := 0, ebx := 0,
    edx := 0, ecx := 0, eax := 0, int_no := 0, err_code := 0, eip := 0, cs := 0, eflags := 0,
    useresp := 0, ss := 0 }

/-- A zeroed thread record, as `kcalloc` returns it. -/
def blank_thread : thread :=
  { tid := 0, parent := none, state := thread_state.THREAD_READY, policy := 0, time_slice := 0,
    prio := 0, kernel_stack := 0, user_stack := 0, esp := 0, uregs := zero_regs, pending := 0,
    blocked := 0, signaling := false }

/-- A zeroed process record with an all-DEFAULT handler table. -/
def blank_process : process :=
  { pid := 0, gid := 0, sid := 0, name := "", parent := none, thread := none, children := [],
    sighand := List.replicate 32 { sa_handler := SIG_DFL, sa_flags := 0, sa_mask := 0 },
    flags := 0, caused_signal := 0, wait_chld := [] }

/-- A three-process state: init (pid 1, at address 1) is the parent of a shell
(pid 2, at address 2), which is the current process and the parent of a child
(pid 3, at address 3, in the group of the shell). Thread `i` belongs to process `i`. -/
def demo_state : KState :=
  { procs := fun a =>
      if a = 1 then some { blank_process with pid := 1, gid := 1, thread := some 1 }
      else if a = 2 then
        some { blank_process with pid := 2, gid := 2, parent := some 1, thread := some 2 }
      else if a = 3 then
        some { blank_process with pid := 3, gid := 2, parent := some 2, thread := some 3 }
      else none
    threads := fun a =>
      if a = 1 then some { blank_thread with tid := 1, parent := some 1 }
      else if a = 2 then
        some { blank_thread with tid := 2, parent := some 2, state := thread_state.THREAD_RUNNING }
      else if a = 3 then
        some { blank_thread with tid := 3, parent := some 3,
                                 state := thread_state.THREAD_WAITING }
      else none
    mprocess := [(1, 1), (2, 2), (3, 3)]
    current_process := 2
    current_thread := 2
    next_pid := 4
    next_tid := 4
    umem := fun _ => none }

/-! ## Observations on results -/

/-- The state a run of `do_kill` ends in, if it ends. -/
def state_of (r : Except kfault (Int × KState)) : Option KState :=
  match r with
  | .ok x => some x.2
  | .error _ => none

/-- The value a run of `do_kill` returns, if it ends. -/
def return_of (r : Except kfault (Int × KState)) : Option Int :=
  match r with
  | .ok x => some x.1
  | .error _ => none

/-- The flags of the process at address `a`. -/
def flags_at (s : Option KState) (a : Nat) : Option Nat :=
  s.bind (fun st => (st.procs a).map (fun p => p.flags))

/-- The signal recorded as the cause of death of the process at address `a`. -/
def caused_signal_at (s : Option KState) (a : Nat) : Option Int :=
  s.bind (fun st => (st.procs a).map (fun p => p.caused_signal))

/-- The pending mask of the thread at address `a`. -/
def pending_at (s : Option KState) (a : Nat) : Option sigset_t :=
  s.bind (fun st => (st.threads a).map (fun t => t.pending))

/-- The scheduling state of the thread at address `a`. -/
def thread_state_at (s : Option KState) (a : Nat) : Option thread_state :=
  s.bind (fun st => (st.threads a).map (fun t => t.state))

/-- A second `do_kill` issued in the state the first one left. -/
def then_kill (r : Except kfault (Int × KState)) (fuel : Nat) (pid sig : Int) :
    Except kfault (Int × KState) :=
  match r with
  | .ok x => do_kill fuel x.2 pid sig
  | .error e => .error e

/-- The kernel state at the end of a run of `handle_signal`. -/
def delivery.state : delivery → KState
  | .returned s _ => s
  | .exited _ s _ => s
  | .assert_failed s _ => s
  | .undefined s _ => s

/-- The returning register frame at the end of a run of `handle_signal`. -/
def delivery.regs : delivery → interrupt_registers
  | .returned _ r => r
  | .exited _ _ r => r
  | .assert_failed _ r => r
  | .undefined _ r => r

/-- The code passed to `do_exit`, when the run ends there. -/
def delivery.exit_code : delivery → Option Int
  | .exited c _ _ => some c
  | _ => none

/-- Delivery followed at once by `sigreturn` on the frame that delivery left, the
handler having changed nothing. -/
def deliver_then_sigreturn (sigreturn_fn : Nat) (s : KState) (regs : interrupt_registers) :
    Option (KState × interrupt_registers) :=
  match handle_signal sigreturn_fn s regs with
  | .returned s1 regs1 =>
    match sigreturn s1 regs1 with
    | .ok r => some r
    | .error _ => none
  | _ => none

/-- The demo state with SIGSEGV pending on the current thread and the flags of the
current process set to `fl`. -/
def segv_state (fl : Nat) : KState :=
  store_process
    (store_thread demo_state 2
      { blank_thread with tid := 2, parent := some 2, state := thread_state.THREAD_RUNNING,
                          pending := M SIGSEGV })
    2 { blank_process with pid := 2, gid := 2, parent := some 1, thread := some 2, flags := fl }

/-- The demo state with a user handler at address `h` with mask `mask` installed for
SIGUSR1 in the current process, SIGUSR1 and SIGTERM pending on the current thread,
and SIGHUP and SIGTERM blocked. -/
def usr1_state (h mask : Nat) : KState :=
  store_process
    (store_thread demo_state 2
      { blank_thread with
        tid := 2
        parent := some 2
        state := thread_state.THREAD_RUNNING
        pending := M SIGUSR1 ||| M SIGTERM
        blocked := M SIGHUP ||| M SIGTERM })
    2
    { blank_process with
      pid := 2
      gid := 2
      parent := some 1
      thread := some 2
      sighand := blank_process.sighand.set 9 (sigaction.mk h 0 mask) }

/-- A returning frame of a system call (`int 0x7F`) with `eax = 5`, user stack
pointer 8192 and interrupted instruction at 300. -/
def syscall_regs : interrupt_registers :=
  { zero_regs with useresp := 8192, int_no := 127, eax := 5, eip := 300 }

/-! ## The pieces of the state that the user-handler branch of `handle_signal` builds -/

/-- The frame `regs` after lines 204-208: `eax = -EINTR` when the trap is a system call. -/
def entry_regs (regs : interrupt_registers) : interrupt_registers :=
  if regs.int_no = 0x7F then { regs with eax := neg_EINTR32 } else regs

/-- The frame `regs` after line 228, as it is saved in the signal frame. -/
def saved_regs (regs : interrupt_registers) : interrupt_registers :=
  { entry_regs regs with
    useresp := (regs.useresp + 4294967296 - sizeof_signal_frame) % 4294967296 }

/-- The signal frame written by lines 229-234. -/
def pushed_frame (fn : Nat) (ct : thread) (regs : interrupt_registers) : signal_frame :=
  { sigreturn := fn
    signum := next_signal ct.pending ct.blocked
    signaling := ct.signaling
    blocked := ct.blocked
    uregs := saved_regs regs }

/-- The current thread at the end of the user-handler branch. -/
def handler_thread (ct : thread) (regs : interrupt_registers) (slot : sigaction) : thread :=
  { ct with
    signaling := true
    uregs := entry_regs regs
    pending := sigdelset ct.pending (next_signal ct.pending ct.blocked)
    blocked := ct.blocked ||| (M (next_signal ct.pending ct.blocked) ||| slot.sa_mask) }

/-- The kernel state at the end of the user-handler branch. -/
def handler_state (fn : Nat) (s : KState) (ct : thread) (regs : interrupt_registers)
    (slot : sigaction) : KState :=
  { s with
    threads := fun x => if x = s.current_thread then some (handler_thread ct regs slot)
      else s.threads x
    umem := fun a => if a = (saved_regs regs).useresp then some (pushed_frame fn ct regs)
      else s.umem a }

/-! ## The branches of `handle_signal`, one by one

The same code as in `handle_signal`, cut at the points where its branches start, so
that each branch can be reasoned about on its own. -/

/-- The default-action branch (`signal.c` lines 217-225). -/
def deliver_default (s2 : KState) (ct2 : thread) (cp : process) (regs1 : interrupt_registers)
    (signum : Int) : delivery :=
  if sig_kernel_coredump signum then
    let s3 := store_process s2 s2.current_process
      { cp with
        caused_signal := signum
        flags := (cp.flags ||| SIGNAL_TERMINATED) &&&
          lnot (SIGNAL_CONTINUED ||| SIGNAL_STOPED) }
    let s4 := store_thread s3 s3.current_thread
      { ct2 with signaling := false, pending := 0 }
    .exited signum s4 regs1
  else .assert_failed s2 regs1

/-- The user-handler branch (`signal.c` lines 227-240). -/
def deliver_user (sigreturn_fn : Nat) (s2 : KState) (ct2 : thread)
    (regs1 : interrupt_registers) (prev_signaling : Bool) (signum : Int) (slot : sigaction) :
    delivery :=
  let regs2 := { regs1 with
    useresp := (regs1.useresp + 4294967296 - sizeof_signal_frame) % 4294967296 }
  let frame : signal_frame :=
    { sigreturn := sigreturn_fn
      signum := signum
      signaling := prev_signaling
      blocked := ct2.blocked
      uregs := regs2 }
  let s3 := { s2 with
    umem := fun a => if a = regs2.useresp then some frame else s2.umem a }
  let regs3 := { regs2 with eip := slot.sa_handler % 4294967296 }
  let s4 := store_thread s3 s3.current_thread
    { ct2 with blocked := ct2.blocked ||| (M signum ||| slot.sa_mask) }
  .returned s4 regs3

/-- The part of `handle_signal` after the selected signal was removed from the
pending set (`signal.c` lines 215-241). -/
def deliver_action (sigreturn_fn : Nat) (s2 : KState) (ct2 : thread)
    (regs1 : interrupt_registers) (prev_signaling : Bool) (signum : Int) : delivery :=
  match sig_ignored s2 ct2 signum with
  | .error _ => .undefined s2 regs1
  | .ok true => .assert_failed s2 regs1
  | .ok false =>
    match load_process s2 (some s2.current_process) with
    | .error _ => .undefined s2 regs1
    | .ok cp =>
      match sighand_slot cp signum with
      | .error _ => .undefined s2 regs1
      | .ok slot =>
        if slot.sa_handler = SIG_DFL then deliver_default s2 ct2 cp regs1 signum
        else if slot.sa_handler ≠ SIG_IGN then
          deliver_user sigreturn_fn s2 ct2 regs1 prev_signaling signum slot
        else .returned s2 regs1

/-- The run of `handle_signal` in terms of its branches. -/
def handle_signal_staged (sigreturn_fn : Nat) (s : KState) (regs : interrupt_registers) :
    delivery :=
  match s.threads s.current_thread with
  | none => .undefined s regs
  | some ct =>
    if ct.pending = 0 then .returned s regs
    else
      let from_syscall := decide (regs.int_no = 0x7F)
      let regs1 := if from_syscall then { regs with eax := neg_EINTR32 } else regs
      let ct1 := { ct with signaling := true, uregs := regs1 }
      let s1 := store_thread s s.current_thread ct1
      let signum := next_signal ct1.pending ct1.blocked
      if signum = 0 then .undefined s1 regs1
      else
        let ct2 := { ct1 with pending := sigdelset ct1.pending signum }
        deliver_action sigreturn_fn (store_thread s1 s1.current_thread ct2) ct2
          regs1 ct.signaling signum

/-! ## The address-space manager (`kernel/memory/mmap.c`)

The VMA list is the intrusive, circular, doubly linked list of `list.h`: every VMA
record carries the links `vm_sibling.next` and `vm_sibling.prev`, and the list head
is embedded in the `mm`. The links are modelled as they are, so that a call that
damages the list shows in the model. -/

/-- Modelled from the spec: the page and frame size `PMM_FRAME_SIZE` (`pmm.h` is not
under src). -/
def PMM_FRAME_SIZE : Nat := 4096

/-- Modelled from the spec: `PAGE_ALIGN(x)`, that is `(x + PAGE_SIZE - 1) & PAGE_MASK`
on 32-bit words (`vmm.h` is not under src). -/
def PAGE_ALIGN (x : Nat) : Nat :=
  ((x + (PMM_FRAME_SIZE - 1)) % 4294967296) / PMM_FRAME_SIZE * PMM_FRAME_SIZE

/-- Modelled from the spec: `ALIGN_DOWN(x, a)` rounds down to a multiple of `a`. -/
def ALIGN_DOWN (x a : Nat) : Nat := x / a * a

/-- A `struct list_head *` that belongs to the VMA list: null, the head embedded in the
`mm`, or the `vm_sibling` node of the VMA record at an address. -/
inductive lptr
  | null
  | head
  | node (a : Nat)
  deriving DecidableEq

/-- The record `struct vm_area_struct`; `next` and `prev` are the links of `vm_sibling`. -/
structure vm_area_struct where
  vm_start : Nat
  vm_end : Nat
  vm_flags : Nat
  vm_file : Option Nat
  next : lptr
  prev : lptr
  deriving DecidableEq

/-- The fields of `struct mm_struct` that `mmap.c` uses; `mmap_next` and `mmap_prev`
are the links of the list head `mmap`. -/
structure mm_struct where
  start_brk : Nat
  brk : Nat
  end_brk : Nat
  free_area_cache : Nat
  mmap_next : lptr
  mmap_prev : lptr
  deriving DecidableEq

/-- The memory state of the current process: its `mm`, the heap of VMA records, the
address that the next `kcalloc` of a VMA record returns, the file table, the log of
`vmm_map_address` calls on its page directory (newest first), and the next free
physical frame. -/
structure VMState where
  mm : mm_struct
  vmas : Nat → Option vm_area_struct
  next_vma : Nat
  files : Int → Option Nat
  page_map : List (Nat × Nat)
  next_frame : Nat

/-- Ways in which a run of the memory code stops without a result. -/
inductive mfault
  | out_of_fuel
  | bad_pointer
  | assert_failed
  deriving DecidableEq

/-- A zeroed VMA record, as `kcalloc` returns it. -/
def blank_vma : vm_area_struct :=
  { vm_start := 0, vm_end := 0, vm_flags := 0, vm_file := none, next := lptr.null,
    prev := lptr.null }

def store_vma (s : VMState) (a : Nat) (v : vm_area_struct) : VMState :=
  { s with vmas := fun x => if x = a then some v else s.vmas x }

/-- The link `p->next`. -/
def lnext (s : VMState) : lptr → Except mfault lptr
  | .null => .error .bad_pointer
  | .head => .ok s.mm.mmap_next
  | .node a =>
    match s.vmas a with
    | none => .error .bad_pointer
    | some v => .ok v.next

/-- The link `p->prev`. -/
def lprev (s : VMState) : lptr → Except mfault lptr
  | .null => .error .bad_pointer
  | .head => .ok s.mm.mmap_prev
  | .node a =>
    match s.vmas a with
    | none => .error .bad_pointer
    | some v => .ok v.prev

/-- The store `p->next = q`. -/
def set_next (s : VMState) (p q : lptr) : Except mfault VMState :=
  match p with
  | .null => .error .bad_pointer
  | .head => .ok { s with mm := { s.mm with mmap_next := q } }
  | .node a =>
    match s.vmas a with
    | none => .error .bad_pointer
    | some v => .ok (store_vma s a { v with next := q })

/-- The store `p->prev = q`. -/
def set_prev (s : VMState) (p q : lptr) : Except mfault VMState :=
  match p with
  | .null => .error .bad_pointer
  | .head => .ok { s with mm := { s.mm with mmap_prev := q } }
  | .node a =>
    match s.vmas a with
    | none => .error .bad_pointer
    | some v => .ok (store_vma s a { v with prev := q })

/-- Modelled from the spec: `list_add(new, at)` of `list.h` (not under src), the
insertion of `new` right after `at`: `next = at->next; next->prev = new;
new->next = next; new->prev = at; at->next = new`. -/
def list_add (s : VMState) (new at_ : lptr) : Except mfault VMState :=
  match lnext s at_ with
  | .error e => .error e
  | .ok next =>
    match set_prev s next new with
    | .error e => .error e
    | .ok s1 =>
      match set_next s1 new next with
      | .error e => .error e
      | .ok s2 =>
        match set_prev s2 new at_ with
        | .error e => .error e
        | .ok s3 => set_next s3 at_ new

/-- Modelled from the spec: `list_del(entry)` of `list.h`: `next->prev = prev;
prev->next = next` for the two neighbours of `entry`. -/
def list_del (s : VMState) (entry : lptr) : Except mfault VMState :=
  match lprev s entry with
  | .error e => .error e
  | .ok prev =>
    match lnext s entry with
    | .error e => .error e
    | .ok next =>
      match set_prev s next prev with
      | .error e => .error e
      | .ok s1 => set_next s1 prev next

/-- The loop of `get_unmapped_area` (`mmap.c` lines 29-53) from the list position
`pos` on. The result is the new state and `found_addr`. The link `next` of `iter` is
only followed where the C conditions, which short-circuit, read `next->vm_start`:
when `addr >= iter->vm_end` and `iter` is not the last entry. -/
def place_vma : Nat → VMState → Nat → Nat → Nat → lptr → Except mfault (VMState × Nat)
  | 0, _, _, _, _, _ => .error .out_of_fuel
  | fuel + 1, s, vma, addr, len, pos =>
    match pos with
    | .null => .error .bad_pointer
    | .head => .ok (s, addr)
    | .node i =>
      match s.vmas i with
      | none => .error .bad_pointer
      | some iter =>
        if (addr + len) % 4294967296 ≤ iter.vm_start then
          match list_add s (.node i) .head with
          | .error e => .error e
          | .ok s1 => .ok (s1, addr)
        else if addr ≥ iter.vm_end then
          if iter.next = .head then
            match list_add s (.node vma) (.node i) with
            | .error e => .error e
            | .ok s1 => .ok (s1, addr)
          else
            match iter.next with
            | .node j =>
              match s.vmas j with
              | none => .error .bad_pointer
              | some nx =>
                if (addr + len) % 4294967296 ≤ nx.vm_start then
                  match list_add s (.node vma) (.node i) with
                  | .error e => .error e
                  | .ok s1 => .ok (s1, addr)
                else if addr < nx.vm_start ∧
                    (nx.vm_start + 4294967296 - iter.vm_end) % 4294967296 ≥ len then
                  match list_add s (.node vma) (.node i) with
                  | .error e => .error e
                  | .ok s1 => .ok (s1, (nx.vm_start + 4294967296 - len) % 4294967296)
                else place_vma fuel s vma addr len iter.next
            | _ => .error .bad_pointer
        else place_vma fuel s vma addr len iter.next

/-- `get_unmapped_area` (`mmap.c` lines 12-64). The result is the new state and the
address of the VMA record it returns. -/
def get_unmapped_area (fuel : Nat) (s : VMState) (addr len : Nat) :
    Except mfault (VMState × Nat) :=
  let vma := s.next_vma
  let s0 := { store_vma s vma blank_vma with next_vma := s.next_vma + 1 }
  let addr1 :=
    if addr = 0 ∨ addr < s0.mm.end_brk then max s0.mm.free_area_cache s0.mm.end_brk else addr
  if addr1 ≠ PAGE_ALIGN addr1 then .error .assert_failed
  else
    let len1 := PAGE_ALIGN len
    let placed :=
      if s0.mm.mmap_next = .head then
        match list_add s0 (.node vma) .head with
        | .error e => .error e
        | .ok s1 => .ok (s1, addr1)
      else place_vma fuel s0 vma addr1 len1 s0.mm.mmap_next
    match placed with
    | .error e => .error e
    | .ok (s1, found_addr) =>
      if found_addr ≠ 0 then
        match s1.vmas vma with
        | none => .error .bad_pointer
        | some v =>
          let s2 := store_vma s1 vma
            { v with vm_start := found_addr, vm_end := (found_addr + len1) % 4294967296 }
          .ok ({ s2 with mm := { s2.mm with
            free_area_cache := (found_addr + len1) % 4294967296 } }, vma)
      else .ok (s1, vma)

/-- The loop of `find_vma` from the list position `pos` on. -/
def find_vma_from : Nat → VMState → Nat → lptr → Except mfault (Option Nat)
  | 0, _, _, _ => .error .out_of_fuel
  | fuel + 1, s, addr, pos =>
    match pos with
    | .null => .error .bad_pointer
    | .head => .ok none
    | .node i =>
      match s.vmas i with
      | none => .error .bad_pointer
      | some iter =>
        if iter.vm_start ≤ addr ∧ addr < iter.vm_end then .ok (some i)
        else find_vma_from fuel s addr iter.next

/-- `find_vma` (`mmap.c` lines 66-76): the first VMA of the list that contains `addr`. -/
def find_vma (fuel : Nat) (s : VMState) (addr : Nat) : Except mfault (Option Nat) :=
  find_vma_from fuel s addr s.mm.mmap_next

/-- `expand_area` (`mmap.c` lines 78-101) on the VMA record at `vma`. -/
def expand_area (fuel : Nat) (s : VMState) (vma : Nat) (address : Nat) (fixed : Bool) :
    Except mfault (Int × VMState) :=
  let address1 := PAGE_ALIGN address
  match s.vmas vma with
  | none => .error .bad_pointer
  | some v =>
    if address1 ≤ v.vm_end then .ok (0, s)
    else if v.next = .head then .ok (0, store_vma s vma { v with vm_end := address1 })
    else
      match v.next with
      | .node j =>
        match s.vmas j with
        | none => .error .bad_pointer
        | some nx =>
          if address1 ≤ nx.vm_start then
            .ok (0, store_vma s vma { v with vm_end := address1 })
          else if fixed then .error .assert_failed
          else
            match list_del s (.node vma) with
            | .error e => .error e
            | .ok s1 =>
              match get_unmapped_area fuel s1 0
                  ((address1 + 4294967296 - v.vm_start) % 4294967296) with
              | .error e => .error e
              | .ok (s2, vma_expand) =>
                match s2.vmas vma_expand with
                | none => .error .bad_pointer
                | some ve => .ok (0, store_vma s2 vma ve)
      | _ => .error .bad_pointer

/-- `do_munmap` (`mmap.c` lines 104-117). -/
def do_munmap (fuel : Nat) (s : VMState) (addr len : Nat) : Except mfault (Int × VMState) :=
  match find_vma fuel s addr with
  | .error e => .error e
  | .ok none => .ok (0, s)
  | .ok (some vma) =>
    match s.vmas vma with
    | none => .error .bad_pointer
    | some v =>
      if v.vm_start < addr then .ok (0, s)
      else
        let len1 := PAGE_ALIGN len
        if (v.vm_end + 4294967296 - v.vm_start) % 4294967296 ≥ len1 then
          .ok (0, store_vma s vma { v with vm_end := addr })
        else
          match list_del s (.node vma) with
          | .error e => .error e
          | .ok s1 => .ok (0, s1)

/-- The loop of `do_mmap` (lines 138-142): one fresh frame from `pmm_alloc_block` for
every page from `vaddr` up to `vend`. Modelled from the spec: the frame allocator is
not under src; it hands out the frames from `next_frame` on, one after the other. -/
def map_fresh_pages : Nat → VMState → Nat → Nat → Except mfault VMState
  | 0, _, _, _ => .error .out_of_fuel
  | fuel + 1, s, vaddr, vend =>
    if vaddr < vend then
      map_fresh_pages fuel
        { s with
          page_map := (vaddr, s.next_frame % 4294967296) :: s.page_map
          next_frame := s.next_frame + PMM_FRAME_SIZE }
        ((vaddr + PMM_FRAME_SIZE) % 4294967296) vend
    else .ok s

/-- `do_mmap` (`mmap.c` lines 119-145). Modelled from the spec: the `mmap` operation
of a file (`file->f_op->mmap`) lives in the file system, which is not under src; it
is taken to leave the modelled state as it is. -/
def do_mmap (fuel : Nat) (s : VMState) (addr len prot flag : Nat) (fd : Int) (off : Nat) :
    Except mfault (Nat × VMState) :=
  let file := if fd ≥ 0 then s.files fd else none
  let aligned_addr := ALIGN_DOWN addr PMM_FRAME_SIZE
  match find_vma fuel s aligned_addr with
  | .error e => .error e
  | .ok found =>
    let chosen : Except mfault (VMState × Nat) :=
      match found with
      | none => get_unmapped_area fuel s aligned_addr len
      | some vma =>
        match s.vmas vma with
        | none => .error .bad_pointer
        | some v =>
          if v.vm_end < (addr + len) % 4294967296 then
            match expand_area fuel s vma ((addr + len) % 4294967296) true with
            | .error e => .error e
            | .ok r => .ok (r.2, vma)
          else .ok (s, vma)
    match chosen with
    | .error e => .error e
    | .ok (s1, vma) =>
      match s1.vmas vma with
      | none => .error .bad_pointer
      | some v =>
        match file with
        | some f => .ok (if addr ≠ 0 then addr else v.vm_start,
            store_vma s1 vma { v with vm_file := some f })
        | none =>
          match map_fresh_pages fuel s1 v.vm_start v.vm_end with
          | .error e => .error e
          | .ok s2 => .ok (if addr ≠ 0 then addr else v.vm_start, s2)

/-- The mapping loop of `do_brk` (lines 173-174): consecutive frames from `paddr` on. -/
def map_block_pages : Nat → VMState → Nat → Nat → Nat → Except mfault VMState
  | 0, _, _, _, _ => .error .out_of_fuel
  | fuel + 1, s, vaddr, vend, paddr =>
    if vaddr < vend then
      map_block_pages fuel { s with page_map := (vaddr, paddr) :: s.page_map }
        ((vaddr + PMM_FRAME_SIZE) % 4294967296) vend ((paddr + PMM_FRAME_SIZE) % 4294967296)
    else .ok s

/-- The unmapping loop of `do_brk` (lines 177-178). -/
def unmap_pages : Nat → VMState → Nat → Nat → Except mfault VMState
  | 0, _, _, _ => .error .out_of_fuel
  | fuel + 1, s, vaddr, vend =>
    if vaddr < vend then
      unmap_pages fuel { s with page_map := s.page_map.filter (fun e => e.1 ≠ vaddr) }
        ((vaddr + PMM_FRAME_SIZE) % 4294967296) vend
    else .ok s

/-- `do_brk` (`mmap.c` lines 148-183). The copy `new_vma` lives at the address that
`kcalloc` returns. Modelled from the spec: `pmm_alloc_blocks(n)` hands out `n`
consecutive frames from `next_frame` on. -/
def do_brk (fuel : Nat) (s : VMState) (addr len : Nat) : Except mfault (Nat × VMState) :=
  match find_vma fuel s addr with
  | .error e => .error e
  | .ok found =>
    let new_brk := PAGE_ALIGN ((addr + len) % 4294967296)
    let s1 := { s with mm := { s.mm with brk := new_brk } }
    match found with
    | none => .ok (0, s1)
    | some vma =>
      match s1.vmas vma with
      | none => .error .bad_pointer
      | some v =>
        if v.vm_end ≥ new_brk then .ok (0, s1)
        else
          let new_vma := s1.next_vma
          let s2 := { store_vma s1 new_vma v with next_vma := s1.next_vma + 1 }
          let grown : Except mfault VMState :=
            if new_brk > s2.mm.brk then
              match expand_area fuel s2 new_vma new_brk true with
              | .error e => .error e
              | .ok r => .ok r.2
            else .ok (store_vma s2 new_vma { v with vm_end := new_brk })
          match grown with
          | .error e => .error e
          | .ok s3 =>
            match s3.vmas new_vma with
            | none => .error .bad_pointer
            | some nv =>
              let mapped : Except mfault VMState :=
                match v.vm_file with
                | some _ => .ok s3
                | none =>
                  if nv.vm_end > v.vm_end then
                    let nframes := ((nv.vm_end + 4294967296 - v.vm_end) % 4294967296) / PMM_FRAME_SIZE
                    map_block_pages fuel
                      { s3 with next_frame := s3.next_frame + nframes * PMM_FRAME_SIZE }
                      v.vm_end nv.vm_end (s3.next_frame % 4294967296)
                  else if nv.vm_end < v.vm_end then unmap_pages fuel s3 nv.vm_end v.vm_end
                  else .ok s3
              match mapped with
              | .error e => .error e
              | .ok s4 => .ok (0, store_vma s4 vma nv)

/-! ## Observations on the memory state -/

deriving instance DecidableEq for Except

/-- The ranges `(vm_start, vm_end)` of the VMA records reached from the list position
`pos` by following `next` until the head comes back. -/
def vma_ranges_from : Nat → VMState → lptr → Except mfault (List (Nat × Nat))
  | 0, _, _ => .error .out_of_fuel
  | fuel + 1, s, pos =>
    match pos with
    | .null => .error .bad_pointer
    | .head => .ok []
    | .node i =>
      match s.vmas i with
      | none => .error .bad_pointer
      | some v =>
        match vma_ranges_from fuel s v.next with
        | .error e => .error e
        | .ok l => .ok ((v.vm_start, v.vm_end) :: l)

/-- The VMA list of the `mm` as ranges, in list order. -/
def vma_ranges (fuel : Nat) (s : VMState) : Except mfault (List (Nat × Nat)) :=
  vma_ranges_from fuel s s.mm.mmap_next

/-- The VMA-list invariant on a list of ranges: page-aligned bounds, strictly
ascending `vm_start`, and `vm_end` of a VMA at most `vm_start` of its successor. -/
def ranges_sorted : List (Nat × Nat) → Bool
  | [] => true
  | [r] => decide (r.1 % PMM_FRAME_SIZE = 0 ∧ r.2 % PMM_FRAME_SIZE = 0)
  | r1 :: r2 :: rest =>
    decide (r1.1 % PMM_FRAME_SIZE = 0 ∧ r1.2 % PMM_FRAME_SIZE = 0) &&
      decide (r1.1 < r2.1) && decide (r1.2 ≤ r2.1) && ranges_sorted (r2 :: rest)

/-- The range `(vm_start, vm_end)` of the VMA record at address `a`. -/
def vma_range (s : VMState) (a : Nat) : Option (Nat × Nat) :=
  (s.vmas a).map (fun v => (v.vm_start, v.vm_end))

/-- The memory state of a fresh process: a zeroed `mm` with an empty VMA list, no VMA
records, no open files and no mapped pages. Frames are handed out from `0x100000`. -/
def fresh_vm : VMState :=
  { mm := { start_brk := 0, brk := 0, end_brk := 0, free_area_cache := 0,
            mmap_next := lptr.head, mmap_prev := lptr.head }
    vmas := fun _ => none
    next_vma := 0
    files := fun _ => none
    page_map := []
    next_frame := 1048576 }

/-- The memory state of a process whose heap starts at `0x10000`: as `fresh_vm`, with
`start_brk = brk = end_brk = 0x10000`. -/
def user_vm : VMState :=
  { fresh_vm with mm := { fresh_vm.mm with start_brk := 65536, brk := 65536, end_brk := 65536 } }

/-- The state after a run of `do_mmap`, `do_brk` or `do_munmap`, if it ends. -/
def vm_after {α : Type} (r : Except mfault (α × VMState)) : Option VMState :=
  match r with
  | .ok x => some x.2
  | .error _ => none

/-- The value a run of `do_mmap`, `do_brk` or `do_munmap` returns, if it ends. -/
def vm_return {α : Type} (r : Except mfault (α × VMState)) : Option α :=
  match r with
  | .ok x => some x.1
  | .error _ => none

/-- The state after a run of `get_unmapped_area`, if it ends. -/
def area_state (r : Except mfault (VMState × Nat)) : Option VMState :=
  match r with
  | .ok x => some x.1
  | .error _ => none

/-- The range of the VMA record that a run of `get_unmapped_area` returns. -/
def area_range (r : Except mfault (VMState × Nat)) : Option (Nat × Nat) :=
  match r with
  | .ok x => vma_range x.1 x.2
  | .error _ => none

/-- The links `(next, prev)` of the VMA record that `get_unmapped_area` returns. -/
def area_links (r : Except mfault (VMState × Nat)) : Option (lptr × lptr) :=
  match r with
  | .ok x => (x.1.vmas x.2).map (fun v => (v.next, v.prev))
  | .error _ => none

/-- The VMA list, as ranges, of a state that a run ended in. -/
def ranges_in (fuel : Nat) (s : Option VMState) : Option (Except mfault (List (Nat × Nat))) :=
  s.map (vma_ranges fuel)

/-- The first link of the list head and the link `next` of the record at `i`. -/
def links_in (s : Option VMState) (i : Nat) : Option (lptr × Option lptr) :=
  s.map (fun st => (st.mm.mmap_next, (st.vmas i).map (fun v => v.next)))

/-- An anonymous `do_mmap` issued in the state a first run left. -/
def then_mmap {α : Type} (r : Except mfault (α × VMState)) (fuel addr len : Nat) :
    Except mfault (Nat × VMState) :=
  match r with
  | .ok x => do_mmap fuel x.2 addr len 0 0 (-1) 0
  | .error e => .error e

/-- A `do_munmap` issued in the state a first run left. -/
def then_munmap {α : Type} (r : Except mfault (α × VMState)) (fuel addr len : Nat) :
    Except mfault (Int × VMState) :=
  match r with
  | .ok x => do_munmap fuel x.2 addr len
  | .error e => .error e

/-- A `do_brk` issued in the state a first run left. -/
def then_brk {α : Type} (r : Except mfault (α × VMState)) (fuel addr len : Nat) :
    Except mfault (Nat × VMState) :=
  match r with
  | .ok x => do_brk fuel x.2 addr len
  | .error e => .error e

/-- A `get_unmapped_area` issued in the state a first run left. -/
def then_area {α : Type} (r : Except mfault (α × VMState)) (fuel addr len : Nat) :
    Except mfault (VMState × Nat) :=
  match r with
  | .ok x => get_unmapped_area fuel x.2 addr len
  | .error e => .error e

/-- A `find_vma` issued in the state a first run left; the result is the range of the
VMA found. -/
def then_find {α : Type} (r : Except mfault (α × VMState)) (fuel addr : Nat) :
    Except mfault (Option (Nat × Nat)) :=
  match r with
  | .ok x =>
    match find_vma fuel x.2 addr with
    | .ok (some i) => .ok (vma_range x.2 i)
    | .ok none => .ok none
    | .error e => .error e
  | .error e => .error e

/-! ## Process creation (`kernel/proc/task.c`) -/

/-- Modelled from the spec: the size in bytes of `struct trap_frame` (`task.h` is not
under src): the thirteen words that `task.c` writes into it. -/
def sizeof_trap_frame : Nat := 52

/-- The conversion of a 32-bit word to `pid_t`, which is `int32_t`. -/
def to_int32 (n : Nat) : Int :=
  if n % 4294967296 < 2147483648 then Int.ofNat (n % 4294967296)
  else Int.ofNat (n % 4294967296) - 4294967296

/-- `process_fork` (`task.c` lines 260-320). The results of the three `kcalloc` calls
are parameters: `p` is the address of the new process record, `t` the address of the
new thread record and `kstack` the top of the new kernel stack. The result is the
returned process pointer and the new state. Modelled from the spec: `strdup`,
`clone_mm_struct`, `clone_file_descriptor_table`, `vmm_fork` and the trap frame on the
kernel stack concern data outside the modelled state; `list_add_tail` on
`parent->children` appends to the list of children. -/
def process_fork (s : KState) (parent p t kstack : Nat) : Except kfault (Nat × KState) :=
  let s0 := store_process s p blank_process
  match s0.procs parent with
  | none => .error .bad_pointer
  | some par =>
    let child : process :=
      { blank_process with
        pid := to_int32 s0.next_pid
        gid := par.pid
        sid := par.sid
        name := par.name
        parent := some parent
        sighand := par.sighand
        children := [] }
    let s1 := { store_process s0 p child with next_pid := (s0.next_pid + 1) % 4294967296 }
    match s1.procs parent with
    | none => .error .bad_pointer
    | some par1 =>
      let s2 := store_process s1 parent { par1 with children := par1.children ++ [p] }
      match par1.thread with
      | none => .error .bad_pointer
      | some pt =>
        let s3 := store_thread s2 t blank_thread
        match s3.threads pt with
        | none => .error .bad_pointer
        | some parent_thread =>
          let th : thread :=
            { blank_thread with
              tid := s3.next_tid
              state := thread_state.THREAD_READY
              policy := parent_thread.policy
              time_slice := 0
              parent := some p
              kernel_stack := kstack
              user_stack := parent_thread.user_stack
              esp := (kstack + 4294967296 - sizeof_trap_frame) % 4294967296
              prio := parent_thread.prio
              uregs := { parent_thread.uregs with eax := 0 } }
          let s4 := { store_thread s3 t th with next_tid := (s3.next_tid + 1) % 4294967296 }
          match s4.procs parent with
          | none => .error .bad_pointer
          | some par2 => .ok (p, store_process s4 parent { par2 with thread := some t })

/-! ## Observations on a fork and on the delivery gate -/

/-- The record of the process that a run of `process_fork` returns. -/
def forked_process (r : Except kfault (Nat × KState)) : Option process :=
  match r with
  | .ok x => x.2.procs x.1
  | .error _ => none

/-- The process record at address `a` after a run of `process_fork`. -/
def process_after (r : Except kfault (Nat × KState)) (a : Nat) : Option process :=
  match r with
  | .ok x => x.2.procs a
  | .error _ => none

/-- The thread record at address `a` after a run of `process_fork`. -/
def thread_after (r : Except kfault (Nat × KState)) (a : Nat) : Option thread :=
  match r with
  | .ok x => x.2.threads a
  | .error _ => none

/-- A running thread of the process at address 3 with the registers of a system call
with `eax = 5` saved. -/
def fork_thread : thread :=
  { blank_thread with tid := 3, parent := some 3, state := thread_state.THREAD_RUNNING,
                      uregs := syscall_regs }

/-- The demo state with `fork_thread` as the thread of the process at address 3
(pid 3, in group 2). -/
def fork_state : KState := store_thread demo_state 3 fork_thread

/-- The demo state with SIGTERM pending and blocked on the current thread, whose
kernel stack top is at 4172, right above a returning frame at 4096. -/
def blocked_state : KState :=
  store_thread demo_state 2
    { blank_thread with tid := 2, parent := some 2, state := thread_state.THREAD_RUNNING,
                        kernel_stack := 4172, pending := M SIGTERM, blocked := M SIGTERM }

/-- The masks `(pending, blocked)`, the flag `signaling` and the saved registers of
the thread at address `a`. -/
def signal_fields_at (s : KState) (a : Nat) :
    Option (sigset_t × sigset_t × Bool × interrupt_registers) :=
  (s.threads a).map (fun t => (t.pending, t.blocked, t.signaling, t.uregs))

/-! ## Well-formed VMA lists -/

/-- The records at the addresses `l`, in this order, are what following the links
`next` from the list position `pos` visits before it is back at the head. -/
def vma_chain (s : VMState) : lptr → List Nat → Bool
  | pos, [] => decide (pos = lptr.head)
  | pos, a :: l =>
    decide (pos = lptr.node a) &&
      match s.vmas a with
      | some v => vma_chain s v.next l
      | none => false

/-- The VMA record at address `a` contains the address `addr`. -/
def vma_contains (s : VMState) (addr : Nat) (a : Nat) : Bool :=
  match s.vmas a with
  | some v => decide (v.vm_start ≤ addr ∧ addr < v.vm_end)
  | none => false

/-- The range of the VMA record at address `a`, for a record that exists. -/
def range_at (s : VMState) (a : Nat) : Nat × Nat :=
  match s.vmas a with
  | some v => (v.vm_start, v.vm_end)
  | none => (0, 0)

/-- The pages that the mapping loop of `do_brk` maps: `n` pages from `vaddr` on, to
consecutive frames from `paddr` on, in the order of the calls. -/
def page_run (vaddr paddr n : Nat) : List (Nat × Nat) :=
  (List.range n).map
    (fun k => (vaddr + PMM_FRAME_SIZE * k, (paddr + PMM_FRAME_SIZE * k) % 4294967296))

/-- The heap VMA `[0x8000, 0x10000)` of `heap_vm`. -/
def heap_vma : vm_area_struct :=
  { vm_start := 32768, vm_end := 65536, vm_flags := 0, vm_file := none, next := lptr.head,
    prev := lptr.head }

/-- The memory state of a process with two VMAs, the heap `[0x8000, 0x10000)` in the
record at address 0 and a mapping `[0x20000, 0x21000)` in the record at address 1,
with `end_brk = 0x10000`: the placement base `0x10000` lies in the gap between them. -/
def gap_vm : VMState :=
  { mm := { start_brk := 32768, brk := 65536, end_brk := 65536, free_area_cache := 0,
            mmap_next := lptr.node 0, mmap_prev := lptr.node 1 }
    vmas := fun a =>
      if a = 0 then some { heap_vma with next := lptr.node 1 }
      else if a = 1 then
        some { vm_start := 131072, vm_end := 135168, vm_flags := 0, vm_file := none,
               next := lptr.head, prev := lptr.node 0 }
      else none
    next_vma := 2
    files := fun _ => none
    page_map := []
    next_frame := 1048576 }

/-! ## Observations on a delivery that follows system calls -/

/-- The ways in which a run of `handle_signal` ends. -/
inductive outcome
  | returned
  | exited
  | assert_failed
  | undefined
  deriving DecidableEq

/-- The way a run of `handle_signal` ended. -/
def delivery.outcome : delivery → outcome
  | .returned _ _ => outcome.returned
  | .exited _ _ _ => outcome.exited
  | .assert_failed _ _ => outcome.assert_failed
  | .undefined _ _ => outcome.undefined

/-- A `do_sigaction` that installs `a` for `signum`, issued in the state a `do_kill` left. -/
def then_sigaction (r : Except kfault (Int × KState)) (signum : Int) (a : sigaction) :
    Except kfault (Int × KState) :=
  match r with
  | .ok x =>
    match do_sigaction x.2 signum (some a) false with
    | .ok y => .ok (y.1, y.2.1)
    | .error e => .error e
  | .error e => .error e

/-- A run of `handle_signal` on the frame `regs` in the state the system calls left. -/
def then_deliver (r : Except kfault (Int × KState)) (sigreturn_fn : Nat)
    (regs : interrupt_registers) : Option delivery :=
  match r with
  | .ok x => some (handle_signal sigreturn_fn x.2 regs)
  | .error _ => none

/-- The handler installed for `sig` in the process at address `a`. -/
def handler_at (s : Option KState) (a : Nat) (sig : Int) : Option Nat :=
  s.bind (fun st => (st.procs a).bind (fun p =>
    match sighand_slot p sig with
    | .ok slot => some slot.sa_handler
    | .error _ => none))

/-- The signal that `next_signal` selects for the thread at address `a`. -/
def selected_at (s : Option KState) (a : Nat) : Option Int :=
  s.bind (fun st => (st.threads a).map (fun t => next_signal t.pending t.blocked))

/-- The value of `sig_ignored` for the thread at address `a` and the signal `sig`. -/
def ignored_at (s : Option KState) (a : Nat) (sig : Int) : Option Bool :=
  s.bind (fun st => (st.threads a).bind (fun t =>
    match sig_ignored st t sig with
    | .ok b => some b
    | .error _ => none))

/-! ## Bit-level lemmas -/


theorem testBit_bnot32 (x i : Nat) :
    (bnot32 x).testBit i = (decide (i < 32) && !x.testBit i) := by
  unfold bnot32
  have h : (4294967295 : Nat) = 2 ^ 32 - 1 := by norm_num
  rw [Nat.testBit_xor, h, Nat.testBit_two_pow_sub_one]
  have h2 : (4294967296 : Nat) = 2 ^ 32 := by norm_num
  rw [h2, Nat.testBit_mod_two_pow]
  by_cases hi : i < 32 <;> simp [hi]

theorem ffz_from_ge (w : Nat) : ∀ fuel i, i ≤ ffz_from w fuel i := by
  intro fuel
  induction fuel with
  | zero => intro i; simp [ffz_from]
  | succ n ih =>
    intro i
    simp only [ffz_from]
    split
    · exact Nat.le_trans (Nat.le_succ i) (ih (i + 1))
    · exact Nat.le_refl i

theorem ffz_from_le (w : Nat) : ∀ fuel i, ffz_from w fuel i ≤ i + fuel := by
  intro fuel
  induction fuel with
  | zero => intro i; simp [ffz_from]
  | succ n ih =>
    intro i
    simp only [ffz_from]
    split
    · have := ih (i + 1); omega
    · omega

theorem ffz_from_skipped (w : Nat) :
    ∀ fuel i j, i ≤ j → j < ffz_from w fuel i → w.testBit j = true := by
  intro fuel
  induction fuel with
  | zero => intro i j h1 h2; simp [ffz_from] at h2; omega
  | succ n ih =>
    intro i j h1 h2
    simp only [ffz_from] at h2
    split at h2
    · rename_i hb
      by_cases hij : i = j
      · subst hij; exact hb
      · exact ih (i + 1) j (by omega) h2
    · omega

theorem ffz_from_zero_bit (w : Nat) :
    ∀ fuel i, ffz_from w fuel i < i + fuel → w.testBit (ffz_from w fuel i) = false := by
  intro fuel
  induction fuel with
  | zero => intro i h; simp [ffz_from] at h
  | succ n ih =>
    intro i h
    simp only [ffz_from] at h ⊢
    split
    · rename_i hb
      rw [if_pos hb] at h
      exact ih (i + 1) (by omega)
    · rename_i hb
      simpa using hb

/-- The lowest set bit of a non-empty 32-bit word `y` is `ffz (~y)`. -/
theorem ffz_bnot32_lowest (y : Nat) (hy : y < 4294967296) (h0 : y ≠ 0) :
    ffz (bnot32 y) < 32 ∧ y.testBit (ffz (bnot32 y)) = true ∧
      ∀ j, j < ffz (bnot32 y) → y.testBit j = false := by
  have hex : ∃ j, j < 32 ∧ y.testBit j = true := by
    obtain ⟨j, hj⟩ := Nat.ne_zero_implies_bit_true h0
    refine ⟨j, ?_, hj⟩
    by_contra hge
    have : y < 2 ^ j := Nat.lt_of_lt_of_le hy (by
      have : (4294967296 : Nat) = 2 ^ 32 := by norm_num
      rw [this]; exact Nat.pow_le_pow_right (by norm_num) (by omega))
    rw [Nat.testBit_lt_two_pow this] at hj
    exact absurd hj (by simp)
  obtain ⟨j, hj32, hj⟩ := hex
  have hlt : ffz (bnot32 y) ≤ j := by
    by_contra hgt
    have := ffz_from_skipped (bnot32 y) 32 0 j (Nat.zero_le _) (by unfold ffz at hgt; omega)
    rw [testBit_bnot32] at this
    simp [hj] at this
  have hk32 : ffz (bnot32 y) < 32 := by omega
  have hz := ffz_from_zero_bit (bnot32 y) 32 0 (by unfold ffz at hk32; omega)
  refine ⟨hk32, ?_, ?_⟩
  · have hz2 : (bnot32 y).testBit (ffz (bnot32 y)) = false := hz
    rw [testBit_bnot32] at hz2
    simpa [hk32] using hz2
  · intro i hi
    have := ffz_from_skipped (bnot32 y) 32 0 i (Nat.zero_le _) hi
    rw [testBit_bnot32] at this
    simp at this
    exact this.2


theorem bnot32_lt (x : Nat) : bnot32 x < 4294967296 := by
  unfold bnot32
  have h2 : (4294967296 : Nat) = 2 ^ 32 := by norm_num
  rw [h2]
  exact Nat.xor_lt_two_pow (by norm_num) (Nat.mod_lt _ (by norm_num))

theorem and_lt_of_right (a b : Nat) (hb : b < 4294967296) : a &&& b < 4294967296 :=
  Nat.lt_of_le_of_lt Nat.and_le_right hb

theorem and_lt_of_left (a b : Nat) (ha : a < 4294967296) : a &&& b < 4294967296 :=
  Nat.lt_of_le_of_lt Nat.and_le_left ha

/-- A 32-bit word is non-zero exactly when it has a member signal. -/
theorem ne_zero_iff_sig_member (y : Nat) (hy : y < 4294967296) :
    y ≠ 0 ↔ ∃ s, sig_member y s := by
  constructor
  · intro h0
    obtain ⟨hk, hb, _⟩ := ffz_bnot32_lowest y hy h0
    refine ⟨(ffz (bnot32 y) : Int) + 1, by omega, by omega, ?_⟩
    simpa using hb
  · rintro ⟨s, _, _, hb⟩ h0
    subst h0
    simp at hb

/-- The number `ffz (~y) + 1` is the lowest-numbered member of the non-empty set `y`. -/
theorem lowest_of_ffz (y : Nat) (hy : y < 4294967296) (h0 : y ≠ 0) :
    lowest_signal (sig_member y) (((ffz (bnot32 y) + 1) % 4294967296 : Nat) : Int) := by
  obtain ⟨hk, hb, hlow⟩ := ffz_bnot32_lowest y hy h0
  have hmod : (ffz (bnot32 y) + 1) % 4294967296 = ffz (bnot32 y) + 1 :=
    Nat.mod_eq_of_lt (by omega)
  rw [hmod]
  refine ⟨⟨by omega, by omega, ?_⟩, ?_⟩
  · simpa using hb
  · rintro s ⟨h1, h2, h3⟩
    by_contra hlt
    have hj : (s - 1).toNat < ffz (bnot32 y) := by omega
    rw [hlow _ hj] at h3
    exact absurd h3 (by simp)

theorem core_bit (s : Int) (h1 : 1 ≤ s) (h2 : s ≤ 32) :
    SIG_KERNEL_COREDUMP_MASK.testBit (s - 1).toNat = true ↔ s ∈ COREDUMP_SET := by
  interval_cases s <;> decide

theorem cont_bit (s : Int) (h1 : 1 ≤ s) (h2 : s ≤ 32) :
    (bnot32 (M SIGCONT)).testBit (s - 1).toNat = true ↔ s ≠ SIGCONT := by
  interval_cases s <;> decide

theorem only_cont_bit (s : Int) (h1 : 1 ≤ s) (h2 : s ≤ 32) :
    (M SIGCONT).testBit (s - 1).toNat = true ↔ s = SIGCONT := by
  interval_cases s <;> decide

theorem sig_member_and_core (m : Nat) (s : Int) :
    sig_member (m &&& SIG_KERNEL_COREDUMP_MASK) s ↔ (sig_member m s ∧ s ∈ COREDUMP_SET) := by
  unfold sig_member
  rw [Nat.testBit_and]
  constructor
  · rintro ⟨h1, h2, h3⟩
    simp only [Bool.and_eq_true] at h3
    exact ⟨⟨h1, h2, h3.1⟩, (core_bit s h1 h2).1 h3.2⟩
  · rintro ⟨⟨h1, h2, h3⟩, h4⟩
    refine ⟨h1, h2, ?_⟩
    simp only [Bool.and_eq_true]
    exact ⟨h3, (core_bit s h1 h2).2 h4⟩

theorem sig_member_and_not_cont (m : Nat) (s : Int) :
    sig_member (m &&& bnot32 (M SIGCONT)) s ↔ (sig_member m s ∧ s ≠ SIGCONT) := by
  unfold sig_member
  rw [Nat.testBit_and]
  constructor
  · rintro ⟨h1, h2, h3⟩
    simp only [Bool.and_eq_true] at h3
    exact ⟨⟨h1, h2, h3.1⟩, (cont_bit s h1 h2).1 h3.2⟩
  · rintro ⟨⟨h1, h2, h3⟩, h4⟩
    refine ⟨h1, h2, ?_⟩
    simp only [Bool.and_eq_true]
    exact ⟨h3, (cont_bit s h1 h2).2 h4⟩

theorem sig_member_and_cont (m : Nat) (s : Int) :
    sig_member (m &&& M SIGCONT) s ↔ (sig_member m s ∧ s = SIGCONT) := by
  unfold sig_member
  rw [Nat.testBit_and]
  constructor
  · rintro ⟨h1, h2, h3⟩
    simp only [Bool.and_eq_true] at h3
    exact ⟨⟨h1, h2, h3.1⟩, (only_cont_bit s h1 h2).1 h3.2⟩
  · rintro ⟨⟨h1, h2, h3⟩, h4⟩
    refine ⟨h1, h2, ?_⟩
    simp only [Bool.and_eq_true]
    exact ⟨h3, (only_cont_bit s h1 h2).2 h4⟩

theorem lowest_signal_congr (P Q : Int → Prop) (h : ∀ s, P s ↔ Q s) (n : Int) :
    lowest_signal P n → lowest_signal Q n := by
  rintro ⟨h1, h2⟩
  exact ⟨(h n).1 h1, fun k hk => h2 k ((h k).2 hk)⟩

/-- The value `next_signal` computes in each of its four branches, for
`m = pending & ~blocked`. -/
theorem next_signal_branches (pending blocked m : Nat)
    (hmdef : pending &&& bnot32 blocked = m) :
    (m &&& SIG_KERNEL_COREDUMP_MASK ≠ 0 →
      lowest_signal (fun s => sig_member m s ∧ s ∈ COREDUMP_SET) (next_signal pending blocked)) ∧
    (¬ (m &&& SIG_KERNEL_COREDUMP_MASK ≠ 0) → m &&& bnot32 (M SIGCONT) ≠ 0 →
      lowest_signal (fun s => sig_member m s ∧ s ≠ SIGCONT) (next_signal pending blocked)) ∧
    (¬ (m &&& SIG_KERNEL_COREDUMP_MASK ≠ 0) → ¬ (m &&& bnot32 (M SIGCONT) ≠ 0) →
      m &&& M SIGCONT ≠ 0 → next_signal pending blocked = SIGCONT) ∧
    (¬ (m &&& SIG_KERNEL_COREDUMP_MASK ≠ 0) → ¬ (m &&& bnot32 (M SIGCONT) ≠ 0) →
      ¬ (m &&& M SIGCONT ≠ 0) → next_signal pending blocked = 0) := by
  have hm : m < 4294967296 := by
    rw [← hmdef]; exact and_lt_of_right _ _ (bnot32_lt _)
  refine ⟨?_, ?_, ?_, ?_⟩
  · intro h
    have hA : next_signal pending blocked =
        (((ffz (bnot32 (m &&& SIG_KERNEL_COREDUMP_MASK)) + 1) % 4294967296 : Nat) : Int) := by
      simp only [next_signal, hmdef, if_pos h]
    rw [hA]
    exact lowest_signal_congr _ _ (fun s => sig_member_and_core m s) _
      (lowest_of_ffz _ (and_lt_of_left _ _ hm) h)
  · intro h1 h2
    have hB : next_signal pending blocked =
        (((ffz (bnot32 (m &&& bnot32 (M SIGCONT))) + 1) % 4294967296 : Nat) : Int) := by
      simp only [next_signal, hmdef, if_neg h1, if_pos h2]
    rw [hB]
    exact lowest_signal_congr _ _ (fun s => sig_member_and_not_cont m s) _
      (lowest_of_ffz _ (and_lt_of_left _ _ hm) h2)
  · intro h1 h2 h3
    simp only [next_signal, hmdef, if_neg h1, if_neg h2, if_pos h3]
    decide
  · intro h1 h2 h3
    simp only [next_signal, hmdef, if_neg h1, if_neg h2, if_neg h3]
    rfl

/-- The three tests of `next_signal` in terms of membership. -/
theorem next_signal_tests (m : Nat) (hm : m < 4294967296) :
    ((m &&& SIG_KERNEL_COREDUMP_MASK ≠ 0) ↔ ∃ s, sig_member m s ∧ s ∈ COREDUMP_SET) ∧
    ((m &&& bnot32 (M SIGCONT) ≠ 0) ↔ ∃ s, sig_member m s ∧ s ≠ SIGCONT) ∧
    ((m &&& M SIGCONT ≠ 0) ↔ sig_member m SIGCONT) := by
  refine ⟨?_, ?_, ?_⟩
  · rw [ne_zero_iff_sig_member _ (and_lt_of_left _ _ hm)]
    exact exists_congr (fun s => sig_member_and_core m s)
  · rw [ne_zero_iff_sig_member _ (and_lt_of_left _ _ hm)]
    exact exists_congr (fun s => sig_member_and_not_cont m s)
  · rw [ne_zero_iff_sig_member _ (and_lt_of_left _ _ hm)]
    constructor
    · rintro ⟨s, hs⟩
      have := (sig_member_and_cont m s).1 hs
      rw [← this.2]; exact this.1
    · intro h
      exact ⟨SIGCONT, (sig_member_and_cont m SIGCONT).2 ⟨h, rfl⟩⟩

/-- A non-empty deliverable set makes `next_signal` return one of its members. -/
theorem next_signal_member (pending blocked : Nat) (h0 : pending &&& bnot32 blocked ≠ 0) :
    sig_member (pending &&& bnot32 blocked) (next_signal pending blocked) := by
  have hm : pending &&& bnot32 blocked < 4294967296 := and_lt_of_right _ _ (bnot32_lt _)
  obtain ⟨tierA, tierB, hC, _⟩ := next_signal_branches pending blocked _ rfl
  obtain ⟨_, hnc, hc⟩ := next_signal_tests _ hm
  by_cases h1 : (pending &&& bnot32 blocked) &&& SIG_KERNEL_COREDUMP_MASK ≠ 0
  · exact (tierA h1).1.1
  · by_cases h2 : (pending &&& bnot32 blocked) &&& bnot32 (M SIGCONT) ≠ 0
    · exact (tierB h1 h2).1.1
    · by_cases h3 : (pending &&& bnot32 blocked) &&& M SIGCONT ≠ 0
      · rw [hC h1 h2 h3]; exact hc.1 h3
      · exfalso
        obtain ⟨s, hs⟩ := (ne_zero_iff_sig_member _ hm).1 h0
        by_cases hs18 : s = SIGCONT
        · exact h3 (hc.2 (hs18 ▸ hs))
        · exact h2 (hnc.2 ⟨s, hs, hs18⟩)

/-- An empty deliverable set makes `next_signal` return 0. -/
theorem next_signal_of_empty (pending blocked : Nat) (h0 : pending &&& bnot32 blocked = 0) :
    next_signal pending blocked = 0 := by
  obtain ⟨_, _, _, hD⟩ := next_signal_branches pending blocked 0 h0
  exact hD (by simp) (by simp) (by simp)

/-- C1. For every pending and blocked set, with `m = pending & ~blocked`, `next_signal`
returns the lowest-numbered member of `m` that is in COREDUMP_SET if there is one,
otherwise the lowest-numbered member of `m` other than SIGCONT if there is one,
otherwise SIGCONT if it is in `m`, otherwise 0; the result is 0 exactly when `m` is
empty, and a non-zero result `n` lies in 1..32 and has bit `n - 1` set in `m`. -/
theorem next_signal_tiers (pending blocked : Nat) :
    ((∃ s, sig_member (pending &&& bnot32 blocked) s ∧ s ∈ COREDUMP_SET) →
      lowest_signal (fun s => sig_member (pending &&& bnot32 blocked) s ∧ s ∈ COREDUMP_SET)
        (next_signal pending blocked)) ∧
    ((¬ ∃ s, sig_member (pending &&& bnot32 blocked) s ∧ s ∈ COREDUMP_SET) →
      (∃ s, sig_member (pending &&& bnot32 blocked) s ∧ s ≠ SIGCONT) →
      lowest_signal (fun s => sig_member (pending &&& bnot32 blocked) s ∧ s ≠ SIGCONT)
        (next_signal pending blocked)) ∧
    ((¬ ∃ s, sig_member (pending &&& bnot32 blocked) s ∧ s ∈ COREDUMP_SET) →
      (¬ ∃ s, sig_member (pending &&& bnot32 blocked) s ∧ s ≠ SIGCONT) →
      sig_member (pending &&& bnot32 blocked) SIGCONT →
      next_signal pending blocked = SIGCONT) ∧
    ((¬ ∃ s, sig_member (pending &&& bnot32 blocked) s) → next_signal pending blocked = 0) ∧
    (next_signal pending blocked = 0 ↔ pending &&& bnot32 blocked = 0) ∧
    (next_signal pending blocked ≠ 0 →
      sig_member (pending &&& bnot32 blocked) (next_signal pending blocked)) := by
  have hm : pending &&& bnot32 blocked < 4294967296 := and_lt_of_right _ _ (bnot32_lt _)
  obtain ⟨tierA, tierB, hC, _⟩ := next_signal_branches pending blocked _ rfl
  obtain ⟨hcore, hnc, hc⟩ := next_signal_tests _ hm
  have hany := ne_zero_iff_sig_member _ hm
  have hzero := next_signal_of_empty pending blocked
  have hmem := next_signal_member pending blocked
  refine ⟨fun h => tierA (hcore.2 h), fun h1 h2 => tierB (fun h => h1 (hcore.1 h)) (hnc.2 h2),
    fun h1 h2 h3 => hC (fun h => h1 (hcore.1 h)) (fun h => h2 (hnc.1 h)) (hc.2 h3),
    fun h => hzero (by by_contra h0; exact h (hany.1 h0)), ⟨?_, hzero⟩, ?_⟩
  · intro hr
    by_contra h0
    have := hmem h0
    rw [hr] at this
    exact absurd this.1 (by norm_num)
  · intro hr
    exact hmem (fun h0 => hr (hzero h0))

/-! ## `do_sigprocmask` -/

theorem testBit_of_lt32 (x i : Nat) (hx : x < 4294967296) (hi : 32 ≤ i) :
    x.testBit i = false := by
  apply Nat.testBit_lt_two_pow
  have h2 : (4294967296 : Nat) = 2 ^ 32 := by norm_num
  rw [h2] at hx
  exact Nat.lt_of_lt_of_le hx (Nat.pow_le_pow_right (by norm_num) hi)

theorem testBit_bnot32_kernel_only (i : Nat) :
    (bnot32 SIG_KERNEL_ONLY_MASK).testBit i = (decide (i < 32) && decide (i ≠ 8) && decide (i ≠ 18)) := by
  rw [testBit_bnot32]
  have h : SIG_KERNEL_ONLY_MASK = 2 ^ 8 ||| 2 ^ 18 := by decide
  rw [h, Nat.testBit_or, Nat.testBit_two_pow, Nat.testBit_two_pow]
  by_cases h1 : i < 32 <;> by_cases h2 : i = 8 <;> by_cases h3 : i = 18 <;>
    simp [h1, h2, h3]
  all_goals omega

/-- Clearing `SIG_KERNEL_ONLY_MASK` from a 32-bit word removes exactly bits 8 and 18. -/
theorem testBit_and_bnot32_kernel_only (x i : Nat) (hx : x < 4294967296) :
    (x &&& bnot32 SIG_KERNEL_ONLY_MASK).testBit i =
      (x.testBit i && decide (i ≠ 8) && decide (i ≠ 18)) := by
  rw [Nat.testBit_and, testBit_bnot32_kernel_only]
  by_cases h1 : i < 32
  · simp [h1, Bool.and_assoc]
  · rw [testBit_of_lt32 x i hx (by omega)]
    simp

/-- C2. For every current blocked mask `old` (also one that holds the SIGKILL or
SIGSTOP bit), every non-null set `m` and every `how` among SIG_BLOCK, SIG_UNBLOCK and
SIG_SETMASK, `do_sigprocmask` returns 0 and leaves `blocked` equal to `old | m`,
`old & ~m` or `m` respectively with bits 8 and 18 (SIGKILL, SIGSTOP) cleared, so
neither KERNEL_ONLY signal is a member of `blocked` afterwards. -/
theorem do_sigprocmask_kernel_only (s : KState) (cur : thread) (how : Int) (m : Nat)
    (oldset : Bool)
    (hcur : s.threads s.current_thread = some cur)
    (hold : cur.blocked < 4294967296) (hm : m < 4294967296)
    (hhow : how = SIG_BLOCK ∨ how = SIG_UNBLOCK ∨ how = SIG_SETMASK) :
    ∃ s1 cur1, do_sigprocmask s how (some m) oldset
        = .ok (0, s1, if oldset then some cur.blocked else none) ∧
      s1.threads s.current_thread = some cur1 ∧
      (how = SIG_BLOCK → ∀ i, cur1.blocked.testBit i =
        ((cur.blocked.testBit i || m.testBit i) && decide (i ≠ 8) && decide (i ≠ 18))) ∧
      (how = SIG_UNBLOCK → ∀ i, cur1.blocked.testBit i =
        ((cur.blocked.testBit i && !m.testBit i) && decide (i ≠ 8) && decide (i ≠ 18))) ∧
      (how = SIG_SETMASK → ∀ i, cur1.blocked.testBit i =
        (m.testBit i && decide (i ≠ 8) && decide (i ≠ 18))) ∧
      sigismember cur1.blocked SIGKILL = false ∧ sigismember cur1.blocked SIGSTOP = false := by
  have hbits : ∀ x : Nat, x < 4294967296 →
      sigismember (x &&& bnot32 SIG_KERNEL_ONLY_MASK) SIGKILL = false ∧
      sigismember (x &&& bnot32 SIG_KERNEL_ONLY_MASK) SIGSTOP = false := by
    intro x hx
    constructor
    · unfold sigismember
      have : (SIGKILL - 1).toNat = 8 := by decide
      rw [this, testBit_and_bnot32_kernel_only x 8 hx]; simp
    · unfold sigismember
      have : (SIGSTOP - 1).toNat = 18 := by decide
      rw [this, testBit_and_bnot32_kernel_only x 18 hx]; simp
  have hor : cur.blocked ||| m < 4294967296 := by
    have h2 : (4294967296 : Nat) = 2 ^ 32 := by norm_num
    rw [h2] at hold hm ⊢
    exact Nat.or_lt_two_pow hold hm
  have hand : cur.blocked &&& bnot32 m < 4294967296 := and_lt_of_left _ _ hold
  rcases hhow with h | h | h
  · subst h
    refine ⟨store_thread s s.current_thread
        { cur with blocked := (cur.blocked ||| m) &&& bnot32 SIG_KERNEL_ONLY_MASK },
      { cur with blocked := (cur.blocked ||| m) &&& bnot32 SIG_KERNEL_ONLY_MASK },
      ?_, ?_, ?_, ?_, ?_, ?_, ?_⟩
    · simp only [do_sigprocmask, load_thread, hcur]
      rfl
    · simp [store_thread]
    · intro _ i
      rw [testBit_and_bnot32_kernel_only _ i hor, Nat.testBit_or]
    · intro h; exact absurd h (by decide)
    · intro h; exact absurd h (by decide)
    · exact (hbits _ hor).1
    · exact (hbits _ hor).2
  · subst h
    refine ⟨store_thread s s.current_thread
        { cur with blocked := (cur.blocked &&& bnot32 m) &&& bnot32 SIG_KERNEL_ONLY_MASK },
      { cur with blocked := (cur.blocked &&& bnot32 m) &&& bnot32 SIG_KERNEL_ONLY_MASK },
      ?_, ?_, ?_, ?_, ?_, ?_, ?_⟩
    · simp only [do_sigprocmask, load_thread, hcur]
      rfl
    · simp [store_thread]
    · intro h; exact absurd h (by decide)
    · intro _ i
      rw [testBit_and_bnot32_kernel_only _ i hand, Nat.testBit_and, testBit_bnot32]
      by_cases h1 : i < 32
      · simp [h1]
      · rw [testBit_of_lt32 _ i hold (by omega)]; simp
    · intro h; exact absurd h (by decide)
    · exact (hbits _ hand).1
    · exact (hbits _ hand).2
  · subst h
    refine ⟨store_thread s s.current_thread
        { cur with blocked := m &&& bnot32 SIG_KERNEL_ONLY_MASK },
      { cur with blocked := m &&& bnot32 SIG_KERNEL_ONLY_MASK },
      ?_, ?_, ?_, ?_, ?_, ?_, ?_⟩
    · simp only [do_sigprocmask, load_thread, hcur]
      rfl
    · simp [store_thread]
    · intro h; exact absurd h (by decide)
    · intro h; exact absurd h (by decide)
    · intro _ i
      rw [testBit_and_bnot32_kernel_only _ i hm]
    · exact (hbits _ hm).1
    · exact (hbits _ hm).2


/-- Witness for C2: blocking {SIGKILL, SIGUSR1} on a thread whose mask already holds
the SIGSTOP bit. -/
theorem do_sigprocmask_kernel_only_witness :
    ∃ s1 cur1,
      do_sigprocmask (store_thread demo_state 2 { blank_thread with blocked := M SIGSTOP })
        SIG_BLOCK (some (M SIGKILL ||| M SIGUSR1)) true = .ok (0, s1, some (M SIGSTOP)) ∧
      s1.threads 2 = some cur1 ∧
      sigismember cur1.blocked SIGKILL = false ∧ sigismember cur1.blocked SIGSTOP = false := by
  obtain ⟨s1, cur1, h1, h2, _, _, _, h6, h7⟩ :=
    do_sigprocmask_kernel_only (store_thread demo_state 2 { blank_thread with blocked := M SIGSTOP })
      { blank_thread with blocked := M SIGSTOP } SIG_BLOCK (M SIGKILL ||| M SIGUSR1) true
      (by rfl) (by decide) (by decide) (Or.inl rfl)
  exact ⟨s1, cur1, h1, h2, h6, h7⟩

/-! ## `do_sigaction` -/

theorem valid_signal_iff (signum : Int) (hlo : -2147483648 ≤ signum) (hhi : signum < 2147483648) :
    valid_signal signum = true ↔ (0 ≤ signum ∧ signum ≤ 32) := by
  unfold valid_signal NSIG
  rw [decide_eq_true_eq]
  omega

theorem sig_kernel_only_iff (signum : Int) (h1 : 1 ≤ signum) (h2 : signum ≤ 32) :
    sig_kernel_only signum = true ↔ (signum = SIGKILL ∨ signum = SIGSTOP) := by
  interval_cases signum <;> decide

/-- The test at the head of `do_sigaction`. -/
theorem do_sigaction_reject_iff (signum : Int) (hlo : -2147483648 ≤ signum)
    (hhi : signum < 2147483648) :
    (!valid_signal signum || decide (signum < 1) || sig_kernel_only signum) = true ↔
      (signum < 1 ∨ 32 < signum ∨ signum = SIGKILL ∨ signum = SIGSTOP) := by
  by_cases hr : 1 ≤ signum ∧ signum ≤ 32
  · have hv : valid_signal signum = true := (valid_signal_iff signum hlo hhi).2 ⟨by omega, hr.2⟩
    have hk := sig_kernel_only_iff signum hr.1 hr.2
    have hnlt : ¬ signum < 1 := by omega
    simp only [hv, Bool.not_true, Bool.false_or, decide_eq_true_eq, Bool.or_eq_true, hk]
    constructor
    · rintro (h | h)
      · exact absurd h hnlt
      · exact Or.inr (Or.inr h)
    · rintro (h | h | h)
      · exact absurd h hnlt
      · omega
      · exact Or.inr h
  · have hout : signum < 1 ∨ 32 < signum := by omega
    constructor
    · intro _
      rcases hout with h | h
      · exact Or.inl h
      · exact Or.inr (Or.inl h)
    · intro _
      rcases hout with h | h
      · simp [h]
      · have hv : valid_signal signum = false := by
          cases hvv : valid_signal signum
          · rfl
          · have := (valid_signal_iff signum hlo hhi).1 hvv
            omega
        simp [hv]

/-- C3. For every handler table of the current process, `do_sigaction` returns
`-EINVAL` exactly when `signum` is outside 1..32 or is SIGKILL or SIGSTOP, and then the
state (with the handler table) is unchanged and nothing is stored through
`old_action`; otherwise it returns 0, `old_action` (if given) receives the descriptor
stored for `signum`, the slot of `signum` becomes `action` (if given, else it keeps
its descriptor), and every other slot is unchanged. -/
theorem do_sigaction_contract (s : KState) (cp : process) (signum : Int)
    (action : Option sigaction) (old_action : Bool)
    (hcp : s.procs s.current_process = some cp) (hlen : cp.sighand.length = 32)
    (hlo : -2147483648 ≤ signum) (hhi : signum < 2147483648) :
    ((signum < 1 ∨ 32 < signum ∨ signum = SIGKILL ∨ signum = SIGSTOP) →
      do_sigaction s signum action old_action = .ok (-EINVAL, s, none)) ∧
    (¬ (signum < 1 ∨ 32 < signum ∨ signum = SIGKILL ∨ signum = SIGSTOP) →
      ∃ s1 cp1 slot,
        cp.sighand[(signum - 1).toNat]? = some slot ∧
        do_sigaction s signum action old_action
          = .ok (0, s1, if old_action then some slot else none) ∧
        s1.procs s.current_process = some cp1 ∧
        cp1.sighand[(signum - 1).toNat]? = some (action.getD slot) ∧
        (∀ i, i ≠ (signum - 1).toNat → cp1.sighand[i]? = cp.sighand[i]?) ∧
        cp1.sighand.length = 32) := by
  constructor
  · intro h
    have := (do_sigaction_reject_iff signum hlo hhi).2 h
    simp only [do_sigaction, this, if_true]
  · intro h
    have hrej : (!valid_signal signum || decide (signum < 1) || sig_kernel_only signum) = false := by
      cases hc : (!valid_signal signum || decide (signum < 1) || sig_kernel_only signum)
      · rfl
      · exact absurd ((do_sigaction_reject_iff signum hlo hhi).1 hc) h
    have hrange : 1 ≤ signum ∧ signum ≤ 32 := by omega
    have hidx : (signum - 1).toNat < cp.sighand.length := by omega
    have hslot : cp.sighand[(signum - 1).toNat]? = some (cp.sighand[(signum - 1).toNat]) :=
      List.getElem?_eq_getElem hidx
    have hss : sighand_slot cp signum = .ok (cp.sighand[(signum - 1).toNat]) := by
      unfold sighand_slot
      rw [if_neg (by omega), hslot]
    cases action with
    | none =>
      refine ⟨s, cp, cp.sighand[(signum - 1).toNat], hslot, ?_, hcp, ?_, fun _ _ => rfl, hlen⟩
      · simp only [do_sigaction, hrej, load_process, hcp, hss]
        rfl
      · simp [hslot]
    | some a =>
      refine ⟨store_process s s.current_process
          { cp with sighand := cp.sighand.set (signum - 1).toNat a },
        { cp with sighand := cp.sighand.set (signum - 1).toNat a },
        cp.sighand[(signum - 1).toNat], hslot, ?_, ?_, ?_, ?_, ?_⟩
      · simp only [do_sigaction, hrej, load_process, hcp, hss]
        rfl
      · simp [store_process]
      · show (cp.sighand.set (signum - 1).toNat a)[(signum - 1).toNat]? = some a
        generalize (signum - 1).toNat = k at hidx
        simp [List.getElem?_set, hidx]
      · intro i hi
        show (cp.sighand.set (signum - 1).toNat a)[i]? = cp.sighand[i]?
        generalize (signum - 1).toNat = k at hi
        simp [List.getElem?_set, Ne.symm hi]
      · simp [hlen]

/-- Witness for C3: installing a handler for SIGUSR1 in the demo state. -/
theorem do_sigaction_contract_witness :
    ∃ s1 cp1 slot,
      blank_process.sighand[(SIGUSR1 - 1).toNat]? = some slot ∧
      do_sigaction demo_state SIGUSR1 (some { sa_handler := 4096, sa_flags := 0, sa_mask := 0 })
        true = .ok (0, s1, some slot) ∧
      s1.procs 2 = some cp1 ∧
      cp1.sighand[(SIGUSR1 - 1).toNat]?
        = some { sa_handler := 4096, sa_flags := 0, sa_mask := 0 } := by
  obtain ⟨s1, cp1, slot, h1, h2, h3, h4, _, _⟩ :=
    (do_sigaction_contract demo_state
      { blank_process with pid := 2, gid := 2, parent := some 1, thread := some 2 } SIGUSR1
      (some { sa_handler := 4096, sa_flags := 0, sa_mask := 0 }) true
      (by rfl) (by rfl) (by decide) (by decide)).2 (by decide)
  exact ⟨s1, cp1, slot, h1, h2, h3, h4⟩


/-! ## `do_kill`, single target -/

theorem sig_kernel_ignore_iff (sig : Int) (h1 : 1 ≤ sig) (h2 : sig ≤ 32) :
    sig_kernel_ignore sig = true ↔ sig ∈ IGNORE_SET := by
  interval_cases sig <;> decide

theorem sig_kernel_stop_iff (sig : Int) (h1 : 1 ≤ sig) (h2 : sig ≤ 32) :
    sig_kernel_stop sig = true ↔ sig ∈ STOP_SET := by
  interval_cases sig <;> decide

theorem sig_kernel_coredump_iff (sig : Int) (h1 : 1 ≤ sig) (h2 : sig ≤ 32) :
    sig_kernel_coredump sig = true ↔ sig ∈ COREDUMP_SET := by
  interval_cases sig <;> decide

theorem testBit_M (sig : Int) (h1 : 1 ≤ sig) (h2 : sig ≤ 32) (i : Nat) :
    (M sig).testBit i = decide (i = (sig - 1).toNat) := by
  unfold M
  have hk : (sig - 1).toNat < 32 := by omega
  generalize (sig - 1).toNat = k at hk
  have h2p : (4294967296 : Nat) = 2 ^ 32 := by norm_num
  rw [Nat.one_shiftLeft, h2p, Nat.testBit_mod_two_pow, Nat.testBit_two_pow]
  by_cases hik : i = k
  · subst hik; simp [hk]
  · have : ¬ k = i := fun h => hik h.symm
    simp [hik, this]

theorem sighand_slot_eq (p : process) (sig : Int) (slot : sigaction) (h1 : 1 ≤ sig)
    (hslot : p.sighand[(sig - 1).toNat]? = some slot) : sighand_slot p sig = .ok slot := by
  unfold sighand_slot
  rw [if_neg (by omega), hslot]

/-- The value of `sig_ignored` on a thread whose owner and handler slot exist. -/
theorem sig_ignored_eq (s : KState) (t : thread) (sig : Int) (oa : Nat) (owner : process)
    (slot : sigaction) (h1 : 1 ≤ sig)
    (hown : t.parent = some oa) (howner : s.procs oa = some owner)
    (hslot : owner.sighand[(sig - 1).toNat]? = some slot) :
    sig_ignored s t sig = .ok (!sigismember t.blocked sig &&
      (slot.sa_handler == SIG_IGN || (slot.sa_handler == SIG_DFL && sig_kernel_ignore sig))) := by
  unfold sig_ignored
  by_cases hb : sigismember t.blocked sig = true
  · simp [hb]
  · have hb2 : sigismember t.blocked sig = false := by
      cases h : sigismember t.blocked sig
      · rfl
      · exact absurd h hb
    simp only [hb2, load_process, hown, howner, sighand_slot_eq owner sig slot h1 hslot]
    simp

theorem store_thread_twice (s : KState) (a : Nat) (t1 t2 : thread) :
    store_thread (store_thread s a t1) a t2 = store_thread s a t2 := by
  unfold store_thread
  simp only
  congr 1
  funext x
  by_cases h : x = a <;> simp [h]

/-- The end of the single-target branch stores the new pending mask and, for SIGCONT
and SIGKILL sent to another thread, the state READY. -/
theorem kill_post_eq (s : KState) (tsk : Nat) (sig : Int) (t : thread)
    (ht : s.threads tsk = some t) :
    kill_post s tsk sig = .ok (0, store_thread s tsk
      { t with
        pending := t.pending ||| M sig
        state := if (sig = SIGCONT ∨ sig = SIGKILL) ∧ tsk ≠ s.current_thread
          then thread_state.THREAD_READY else t.state }) := by
  unfold kill_post
  simp only [load_thread, ht]
  by_cases hc : (sig = SIGCONT ∨ sig = SIGKILL) ∧ tsk ≠ s.current_thread
  · have hc2 : (sig = SIGCONT ∨ sig = SIGKILL) ∧
        tsk ≠ (store_thread s tsk { t with pending := t.pending ||| M sig }).current_thread := hc
    rw [if_pos hc2, if_pos hc]
    simp only [update_thread, store_thread, if_true]
    congr 3
    funext x
    by_cases h : x = tsk <;> simp [h]
  · have hc2 : ¬ ((sig = SIGCONT ∨ sig = SIGKILL) ∧
        tsk ≠ (store_thread s tsk { t with pending := t.pending ||| M sig }).current_thread) := hc
    rw [if_neg hc2, if_neg hc]

/-- C4. For every state, every target pid > 0 found in the process table whose thread
exists, and every signal in 1..32 that is neither SIGCONT nor in STOP_SET: if the
signal is ignored for the target (not in the thread's blocked mask, and the handler
of the thread's owning process is IGN, or DFL with the signal in {CHLD, WINCH, URG})
then `do_kill` returns 0 and leaves the whole state, so every pending mask, unchanged;
otherwise it returns 0, the target thread's pending mask is its old value with the
bit of the signal added, and every other thread is unchanged. -/
theorem do_kill_single_target (s : KState) (pid sig : Int) (pa ta oa : Nat) (proc owner : process)
    (t : thread) (slot : sigaction) (fuel : Nat)
    (hpid : 0 < pid) (h1 : 1 ≤ sig) (h2 : sig ≤ 32)
    (hcont : sig ≠ SIGCONT) (hstop : sig ∉ STOP_SET)
    (hfind : find_process_by_pid s pid = some pa) (hproc : s.procs pa = some proc)
    (hthr : proc.thread = some ta) (ht : s.threads ta = some t)
    (hown : t.parent = some oa) (howner : s.procs oa = some owner)
    (hslot : owner.sighand[(sig - 1).toNat]? = some slot) :
    ((sigismember t.blocked sig = false ∧
        (slot.sa_handler = SIG_IGN ∨ (slot.sa_handler = SIG_DFL ∧ sig ∈ IGNORE_SET))) →
      do_kill (fuel + 1) s pid sig = .ok (0, s)) ∧
    (¬ (sigismember t.blocked sig = false ∧
        (slot.sa_handler = SIG_IGN ∨ (slot.sa_handler = SIG_DFL ∧ sig ∈ IGNORE_SET))) →
      ∃ s1 t1, do_kill (fuel + 1) s pid sig = .ok (0, s1) ∧
        s1.threads ta = some t1 ∧
        t1.pending = t.pending ||| M sig ∧
        (∀ i, t1.pending.testBit i = (t.pending.testBit i || decide (i = (sig - 1).toNat))) ∧
        (∀ a, a ≠ ta → s1.threads a = s.threads a)) := by
  have hv : valid_signal sig = true := by
    unfold valid_signal NSIG
    rw [decide_eq_true_eq]
    omega
  have hguard : (!valid_signal sig || decide (sig < 0)) = false := by
    have : ¬ sig < 0 := by omega
    simp [hv, this]
  have hne0 : sig ≠ 0 := by omega
  have hstopb : sig_kernel_stop sig = false := by
    cases h : sig_kernel_stop sig
    · rfl
    · exact absurd ((sig_kernel_stop_iff sig h1 h2).1 h) hstop
  have hign := sig_ignored_eq s t sig oa owner slot h1 hown howner hslot
  have hunfold : do_kill (fuel + 1) s pid sig =
      (if (!sigismember t.blocked sig &&
          (slot.sa_handler == SIG_IGN || (slot.sa_handler == SIG_DFL && sig_kernel_ignore sig)))
          = true
        then .ok (0, s) else kill_post s ta sig) := by
    simp only [do_kill, hguard, hne0, hpid, hfind, load_process, hproc, hthr, load_thread, ht,
      hign, hcont, hstopb]
    cases (!sigismember t.blocked sig &&
      (slot.sa_handler == SIG_IGN || (slot.sa_handler == SIG_DFL && sig_kernel_ignore sig))) <;>
      simp
  have hiff : ((!sigismember t.blocked sig &&
        (slot.sa_handler == SIG_IGN || (slot.sa_handler == SIG_DFL && sig_kernel_ignore sig)))
        = true) ↔
      (sigismember t.blocked sig = false ∧
        (slot.sa_handler = SIG_IGN ∨ (slot.sa_handler = SIG_DFL ∧ sig ∈ IGNORE_SET))) := by
    simp only [Bool.and_eq_true, Bool.or_eq_true, Bool.not_eq_true', beq_iff_eq,
      sig_kernel_ignore_iff sig h1 h2]
  constructor
  · intro h
    rw [hunfold, if_pos (hiff.2 h)]
  · intro h
    rw [hunfold, if_neg (fun hc => h (hiff.1 hc))]
    rw [kill_post_eq s ta sig t ht]
    refine ⟨_, { t with
        pending := t.pending ||| M sig
        state := if (sig = SIGCONT ∨ sig = SIGKILL) ∧ ta ≠ s.current_thread
          then thread_state.THREAD_READY else t.state }, rfl, ?_, rfl, ?_, ?_⟩
    · simp [store_thread]
    · intro i
      show (t.pending ||| M sig).testBit i = _
      rw [Nat.testBit_or, testBit_M sig h1 h2]
    · intro a ha
      simp [store_thread, ha]

/-- Witness for C4: the shell sends SIGTERM to its child in the demo state. -/
theorem do_kill_single_target_witness :
    ∃ s1 t1, do_kill 1 demo_state 3 SIGTERM = .ok (0, s1) ∧
      s1.threads 3 = some t1 ∧ t1.pending = 0 ||| M SIGTERM := by
  obtain ⟨s1, t1, h1, h2, h3, _, _⟩ :=
    (do_kill_single_target demo_state 3 SIGTERM 3 3 3
      { blank_process with pid := 3, gid := 2, parent := some 2, thread := some 3 }
      { blank_process with pid := 3, gid := 2, parent := some 2, thread := some 3 }
      { blank_thread with tid := 3, parent := some 3, state := thread_state.THREAD_WAITING }
      { sa_handler := SIG_DFL, sa_flags := 0, sa_mask := 0 } 0
      (by decide) (by decide) (by decide) (by decide) (by decide)
      (by rfl) (by rfl) (by rfl) (by rfl) (by rfl) (by rfl) (by rfl)).2 (by decide)
  exact ⟨s1, t1, h1, h2, h3⟩


/-! ## `do_kill`: stop and continue, broadcast -/

/-- C5 (the code at the failing input). In the demo state the shell (process 2, the
current process) sends SIGSTOP and then SIGCONT to its child (process 3). Both calls
return 0, but the flag bookkeeping is applied to the sender and wiped by `&= !FLAG`:
after SIGSTOP the child's flags are 0 (STOPPED is not set) and so are the sender's;
after SIGCONT the child's flags are still 0 (CONTINUED is not set) and the child
thread's pending mask still holds SIGSTOP next to SIGCONT. Only the child thread's
state READY is as specified. -/
theorem do_kill_stop_cont_hits_sender :
    return_of (do_kill 2 demo_state 3 SIGSTOP) = some 0 ∧
    flags_at (state_of (do_kill 2 demo_state 3 SIGSTOP)) 3 = some 0 ∧
    flags_at (state_of (do_kill 2 demo_state 3 SIGSTOP)) 2 = some 0 ∧
    pending_at (state_of (do_kill 2 demo_state 3 SIGSTOP)) 3 = some (M SIGSTOP) ∧
    return_of (then_kill (do_kill 2 demo_state 3 SIGSTOP) 2 3 SIGCONT) = some 0 ∧
    flags_at (state_of (then_kill (do_kill 2 demo_state 3 SIGSTOP) 2 3 SIGCONT)) 3 = some 0 ∧
    pending_at (state_of (then_kill (do_kill 2 demo_state 3 SIGSTOP) 2 3 SIGCONT)) 3
      = some (M SIGSTOP ||| M SIGCONT) ∧
    thread_state_at (state_of (then_kill (do_kill 2 demo_state 3 SIGSTOP) 2 3 SIGCONT)) 3
      = some thread_state.THREAD_READY := by
  decide

/-- C6 (the code at the failing input). In the demo state processes 2 and 3 form group
2, the group of the caller, and both have pid > 1; nobody ignores SIGTERM. Each
broadcast form calls `do_kill(proc->gid, sig)`, so the signal goes to the process
whose pid is the group id: process 2 gains SIGTERM and process 3, a named
recipient in all three forms, gains nothing. -/
theorem do_kill_broadcast_misses_member :
    return_of (do_kill 2 demo_state 0 SIGTERM) = some 0 ∧
    pending_at (state_of (do_kill 2 demo_state 0 SIGTERM)) 2 = some (M SIGTERM) ∧
    pending_at (state_of (do_kill 2 demo_state 0 SIGTERM)) 3 = some 0 ∧
    return_of (do_kill 2 demo_state (-1) SIGTERM) = some 0 ∧
    pending_at (state_of (do_kill 2 demo_state (-1) SIGTERM)) 2 = some (M SIGTERM) ∧
    pending_at (state_of (do_kill 2 demo_state (-1) SIGTERM)) 3 = some 0 ∧
    return_of (do_kill 2 demo_state (-2) SIGTERM) = some 0 ∧
    pending_at (state_of (do_kill 2 demo_state (-2) SIGTERM)) 2 = some (M SIGTERM) ∧
    pending_at (state_of (do_kill 2 demo_state (-2) SIGTERM)) 3 = some 0 := by
  decide

/-! ## Delivery -/

/-- C7 (the code at the failing input). SIGSEGV with the default action is pending on
the current thread, and the process flags have any prior value `fl`. Delivery
reaches `do_exit` with code 11, `caused_signal` 11 and an empty pending mask, but the
flags are 0: `flags &= !(CONTINUED | STOPED)` ands with 0 and so clears TERMINATED
together with every other flag. -/
theorem handle_signal_coredump_clears_terminated (fl : Nat) :
    (handle_signal 7 (segv_state fl) zero_regs).exit_code = some SIGSEGV ∧
    caused_signal_at (some (handle_signal 7 (segv_state fl) zero_regs).state) 2 = some SIGSEGV ∧
    pending_at (some (handle_signal 7 (segv_state fl) zero_regs).state) 2 = some 0 ∧
    flags_at (some (handle_signal 7 (segv_state fl) zero_regs).state) 2 = some 0 := by
  have hflags : flags_at (some (handle_signal 7 (segv_state fl) zero_regs).state) 2
      = some ((fl ||| SIGNAL_TERMINATED) &&& lnot (SIGNAL_CONTINUED ||| SIGNAL_STOPED)) := rfl
  refine ⟨rfl, rfl, rfl, ?_⟩
  rw [hflags]
  have : lnot (SIGNAL_CONTINUED ||| SIGNAL_STOPED) = 0 := by decide
  rw [this, Nat.and_zero]

theorem pending_ne_zero_of_selected (pending blocked : Nat)
    (h : next_signal pending blocked ≠ 0) : pending ≠ 0 := by
  intro h0
  apply h
  apply next_signal_of_empty
  rw [h0]
  simp

/-- A selected signal lies in 1..32, is pending and is not blocked. -/
theorem selected_signal_facts (pending blocked : Nat)
    (h : next_signal pending blocked ≠ 0) :
    1 ≤ next_signal pending blocked ∧ next_signal pending blocked ≤ 32 ∧
    pending.testBit (next_signal pending blocked - 1).toNat = true ∧
    sigismember blocked (next_signal pending blocked) = false := by
  have h0 : pending &&& bnot32 blocked ≠ 0 := fun h0 => h (next_signal_of_empty _ _ h0)
  obtain ⟨h1, h2, h3⟩ := next_signal_member pending blocked h0
  rw [Nat.testBit_and, testBit_bnot32, Bool.and_eq_true, Bool.and_eq_true] at h3
  refine ⟨h1, h2, h3.1, ?_⟩
  unfold sigismember
  cases hb : blocked.testBit (next_signal pending blocked - 1).toNat
  · rfl
  · rw [hb] at h3
    exact absurd h3.2.2 (by simp)

/-- A signal with a user handler is not ignored. -/
theorem sig_ignored_user (s : KState) (t : thread) (sig : Int) (oa : Nat) (owner : process)
    (slot : sigaction) (h1 : 1 ≤ sig)
    (hown : t.parent = some oa) (howner : s.procs oa = some owner)
    (hslot : owner.sighand[(sig - 1).toNat]? = some slot)
    (hdfl : slot.sa_handler ≠ SIG_DFL) (hign : slot.sa_handler ≠ SIG_IGN) :
    sig_ignored s t sig = .ok false := by
  rw [sig_ignored_eq s t sig oa owner slot h1 hown howner hslot]
  simp [hdfl, hign]

/-- The monolithic `handle_signal` and its cut into branches are the same function. -/
theorem handle_signal_eq_staged (fn : Nat) (s : KState) (regs : interrupt_registers) :
    handle_signal fn s regs = handle_signal_staged fn s regs := rfl

theorem entry_regs_eq (regs : interrupt_registers) :
    (if decide (regs.int_no = 127) = true then { regs with eax := neg_EINTR32 } else regs)
      = entry_regs regs := by
  unfold entry_regs
  by_cases h : regs.int_no = 127 <;> simp [h]

/-- With a user handler installed, `deliver_action` takes the user-handler branch. -/
theorem deliver_action_user (fn : Nat) (S : KState) (T : thread) (R : interrupt_registers)
    (ps : Bool) (sig : Int) (cp : process) (slot : sigaction) (h1 : 1 ≤ sig)
    (hpar : T.parent = some S.current_process) (hcp : S.procs S.current_process = some cp)
    (hslot : cp.sighand[(sig - 1).toNat]? = some slot)
    (hdfl : slot.sa_handler ≠ SIG_DFL) (hign : slot.sa_handler ≠ SIG_IGN) :
    deliver_action fn S T R ps sig = deliver_user fn S T R ps sig slot := by
  unfold deliver_action
  rw [sig_ignored_user S T sig S.current_process cp slot h1 hpar hcp hslot hdfl hign]
  simp only [load_process, hcp, sighand_slot_eq cp sig slot h1 hslot, hdfl, hign, if_false,
    ne_eq, not_false_eq_true, if_true]

theorem entry_regs_useresp (regs : interrupt_registers) :
    (entry_regs regs).useresp = regs.useresp := by
  unfold entry_regs
  split <;> rfl

/-- Two kernel states with equal fields are equal. -/
theorem KState_ext (a b : KState) (h1 : a.procs = b.procs) (h2 : a.threads = b.threads)
    (h3 : a.mprocess = b.mprocess) (h4 : a.current_process = b.current_process)
    (h5 : a.current_thread = b.current_thread) (h6 : a.next_pid = b.next_pid)
    (h7 : a.next_tid = b.next_tid) (h8 : a.umem = b.umem) : a = b := by
  cases a
  cases b
  simp only [KState.mk.injEq]
  exact ⟨h1, h2, h3, h4, h5, h6, h7, h8⟩

theorem store_thread_current_thread (s : KState) (a : Nat) (t : thread) :
    (store_thread s a t).current_thread = s.current_thread := rfl

/-- The result of the user-handler branch, field by field. -/
theorem deliver_user_eq (fn : Nat) (S : KState) (T : thread) (R : interrupt_registers)
    (ps : Bool) (sig : Int) (slot : sigaction) :
    deliver_user fn S T R ps sig slot =
      .returned
        { S with
          threads := fun x =>
            if x = S.current_thread then
              some { T with blocked := T.blocked ||| (M sig ||| slot.sa_mask) }
            else S.threads x
          umem := fun a =>
            if a = (R.useresp + 4294967296 - sizeof_signal_frame) % 4294967296 then
              some
                { sigreturn := fn
                  signum := sig
                  signaling := ps
                  blocked := T.blocked
                  uregs := { R with
                    useresp := (R.useresp + 4294967296 - sizeof_signal_frame) % 4294967296 } }
            else S.umem a }
        { R with
          useresp := (R.useresp + 4294967296 - sizeof_signal_frame) % 4294967296
          eip := slot.sa_handler % 4294967296 } := rfl

/-- The run of `handle_signal` when the selected signal has a user handler. -/
theorem handle_signal_user_eq (fn : Nat) (s : KState) (regs : interrupt_registers)
    (ct : thread) (cp : process) (slot : sigaction)
    (hct : s.threads s.current_thread = some ct)
    (hpar : ct.parent = some s.current_process)
    (hcp : s.procs s.current_process = some cp)
    (hsel : next_signal ct.pending ct.blocked ≠ 0)
    (hslot : cp.sighand[(next_signal ct.pending ct.blocked - 1).toNat]? = some slot)
    (hdfl : slot.sa_handler ≠ SIG_DFL) (hign : slot.sa_handler ≠ SIG_IGN) :
    handle_signal fn s regs =
      .returned (handler_state fn s ct regs slot)
        { saved_regs regs with eip := slot.sa_handler % 4294967296 } := by
  obtain ⟨h1, _, _, _⟩ := selected_signal_facts ct.pending ct.blocked hsel
  have hpend := pending_ne_zero_of_selected _ _ hsel
  rw [handle_signal_eq_staged]
  unfold handle_signal_staged
  simp only [hct, hpend, if_false, hsel, entry_regs_eq, store_thread_current_thread,
    store_thread_twice]
  have key : ∀ S T R ps, T.parent = some S.current_process →
      S.procs S.current_process = some cp →
      deliver_action fn S T R ps (next_signal ct.pending ct.blocked) =
        deliver_user fn S T R ps (next_signal ct.pending ct.blocked) slot :=
    fun S T R ps hp hc => deliver_action_user fn S T R ps _ cp slot h1 hp hc hslot hdfl hign
  rw [key]
  · rw [deliver_user_eq]
    unfold handler_state pushed_frame saved_regs handler_thread
    rw [entry_regs_useresp]
    generalize (regs.useresp + 4294967296 - sizeof_signal_frame) % 4294967296 = sp
    refine congrArg₂ delivery.returned ?_ rfl
    refine KState_ext _ _ rfl ?_ rfl rfl rfl rfl rfl ?_
    · funext x
      by_cases hx : x = s.current_thread
      · rw [hx]
        exact (if_pos rfl).trans (if_pos rfl).symm
      · exact (if_neg hx).trans ((if_neg hx).trans (if_neg hx).symm)
    · funext a
      rfl
  · exact hpar
  · exact hcp

theorem testBit_sigdelset (p : Nat) (sig : Int) (h1 : 1 ≤ sig) (h2 : sig ≤ 32)
    (hp : p < 4294967296) (i : Nat) :
    (sigdelset p sig).testBit i = (p.testBit i && decide (i ≠ (sig - 1).toNat)) := by
  unfold sigdelset
  rw [Nat.testBit_and, testBit_bnot32, testBit_M sig h1 h2]
  by_cases hi : i < 32
  · simp [hi]
  · rw [testBit_of_lt32 p i hp (by omega)]
    simp

theorem handler_state_umem (fn : Nat) (s : KState) (ct : thread)
    (regs : interrupt_registers) (slot : sigaction) :
    (handler_state fn s ct regs slot).umem (saved_regs regs).useresp
      = some (pushed_frame fn ct regs) := by
  unfold handler_state
  generalize (saved_regs regs).useresp = sp
  exact if_pos rfl

theorem handler_state_thread (fn : Nat) (s : KState) (ct : thread)
    (regs : interrupt_registers) (slot : sigaction) :
    (handler_state fn s ct regs slot).threads s.current_thread
      = some (handler_thread ct regs slot) := by
  unfold handler_state
  exact if_pos rfl

/-- C8. For every state in which delivery selects a signal `sig` (the non-zero value
of `next_signal` on the current thread) whose action in the current process is a
user handler `h` with mask `sa_mask`, `handle_signal` returns with: the frame's eip
equal to `h`; its user stack pointer lowered by the size of the signal frame (modulo
2^32); the signal frame stored at the new stack pointer holding `sig`, the signaling
flag and the blocked mask as they were before delivery, and the address of
`sigreturn`; the thread's blocked mask equal to the old one with `sig` and `sa_mask`
added; `sig` removed from pending and no other pending bit changed; and signaling
true. -/
theorem handle_signal_user_handler (fn : Nat) (s : KState) (regs : interrupt_registers)
    (ct : thread) (cp : process) (slot : sigaction) (sig : Int)
    (hct : s.threads s.current_thread = some ct)
    (hpar : ct.parent = some s.current_process)
    (hcp : s.procs s.current_process = some cp)
    (hsig : next_signal ct.pending ct.blocked = sig) (hsel : sig ≠ 0)
    (hslot : cp.sighand[(sig - 1).toNat]? = some slot)
    (hdfl : slot.sa_handler ≠ SIG_DFL) (hign : slot.sa_handler ≠ SIG_IGN)
    (hh : slot.sa_handler < 4294967296) (hp : ct.pending < 4294967296) :
    ∃ s1 regs1 t1 frame,
      handle_signal fn s regs = .returned s1 regs1 ∧
      regs1.eip = slot.sa_handler ∧
      regs1.useresp = (regs.useresp + 4294967296 - sizeof_signal_frame) % 4294967296 ∧
      (sizeof_signal_frame ≤ regs.useresp → regs.useresp < 4294967296 →
        regs1.useresp = regs.useresp - sizeof_signal_frame) ∧
      s1.umem regs1.useresp = some frame ∧
      frame.signum = sig ∧ frame.signaling = ct.signaling ∧ frame.blocked = ct.blocked ∧
      frame.sigreturn = fn ∧
      s1.threads s.current_thread = some t1 ∧
      (∀ i, t1.blocked.testBit i =
        (ct.blocked.testBit i || decide (i = (sig - 1).toNat) || slot.sa_mask.testBit i)) ∧
      (∀ i, t1.pending.testBit i = (ct.pending.testBit i && decide (i ≠ (sig - 1).toNat))) ∧
      t1.signaling = true := by
  subst hsig
  obtain ⟨h1, h2, _, _⟩ := selected_signal_facts ct.pending ct.blocked hsel
  refine ⟨handler_state fn s ct regs slot,
    { saved_regs regs with eip := slot.sa_handler % 4294967296 },
    handler_thread ct regs slot, pushed_frame fn ct regs,
    handle_signal_user_eq fn s regs ct cp slot hct hpar hcp hsel hslot hdfl hign,
    ?_, ?_, ?_, ?_, ?_, ?_, ?_, ?_, ?_, ?_, ?_, ?_⟩
  · exact Nat.mod_eq_of_lt hh
  · rfl
  · intro hge hlt
    show (regs.useresp + 4294967296 - sizeof_signal_frame) % 4294967296 = _
    unfold sizeof_signal_frame at hge ⊢
    omega
  · show (handler_state fn s ct regs slot).umem (saved_regs regs).useresp = _
    simp [handler_state]
  · rfl
  · rfl
  · rfl
  · rfl
  · simp [handler_state]
  · intro i
    show (ct.blocked ||| (M (next_signal ct.pending ct.blocked) ||| slot.sa_mask)).testBit i = _
    rw [Nat.testBit_or, Nat.testBit_or, testBit_M _ h1 h2, Bool.or_assoc]
  · intro i
    exact testBit_sigdelset ct.pending _ h1 h2 hp i
  · rfl

/-- Witness for C8: SIGUSR1 with a handler at 4096 and mask {SIGINT} is delivered on
return from a system call. -/
theorem handle_signal_user_handler_witness :
    ∃ s1 regs1 t1 frame,
      handle_signal 7 (usr1_state 4096 (M SIGINT)) syscall_regs = .returned s1 regs1 ∧
      regs1.eip = 4096 ∧ regs1.useresp = 8192 - sizeof_signal_frame ∧
      s1.umem regs1.useresp = some frame ∧
      frame.signum = SIGUSR1 ∧ frame.signaling = false ∧
      frame.blocked = M SIGHUP ||| M SIGTERM ∧ frame.sigreturn = 7 ∧
      s1.threads 2 = some t1 ∧ t1.signaling = true := by
  obtain ⟨s1, regs1, t1, frame, h1, h2, _, h4, h5, h6, h7, h8, h9, h10, _, _, h13⟩ :=
    handle_signal_user_handler 7 (usr1_state 4096 (M SIGINT)) syscall_regs
      { blank_thread with
        tid := 2
        parent := some 2
        state := thread_state.THREAD_RUNNING
        pending := M SIGUSR1 ||| M SIGTERM
        blocked := M SIGHUP ||| M SIGTERM }
      { blank_process with
        pid := 2
        gid := 2
        parent := some 1
        thread := some 2
        sighand := blank_process.sighand.set 9 (sigaction.mk 4096 0 (M SIGINT)) }
      (sigaction.mk 4096 0 (M SIGINT)) SIGUSR1
      (by rfl) (by rfl) (by rfl) (by decide) (by decide) (by rfl) (by decide) (by decide)
      (by decide) (by decide)
  exact ⟨s1, regs1, t1, frame, h1, h2, h4 (by decide) (by decide), h5, h6, h7, h8, h9, h10, h13⟩


/-! ## `sigreturn` after delivery -/

/-- The run of `sigreturn` on a frame pointer that holds a signal frame. -/
theorem sigreturn_eq (sH : KState) (regsH : interrupt_registers) (tH : thread)
    (frame : signal_frame) (hframe : sH.umem regsH.useresp = some frame)
    (htH : sH.threads sH.current_thread = some tH) :
    sigreturn sH regsH = .ok (store_thread sH sH.current_thread
      { tH with uregs := frame.uregs, signaling := frame.signaling, blocked := frame.blocked },
      frame.uregs) := by
  unfold sigreturn
  simp only [hframe, load_thread, htH]

theorem entry_regs_eip (regs : interrupt_registers) : (entry_regs regs).eip = regs.eip := by
  unfold entry_regs
  split <;> rfl

theorem with_useresp_eip (r : interrupt_registers) (sp : Nat) :
    ({ r with useresp := sp } : interrupt_registers).eip = r.eip := rfl

theorem saved_regs_unfold (regs : interrupt_registers) :
    saved_regs regs = { entry_regs regs with
      useresp := (regs.useresp + 4294967296 - sizeof_signal_frame) % 4294967296 } := rfl

theorem pushed_frame_uregs (fn : Nat) (ct : thread) (regs : interrupt_registers) :
    (pushed_frame fn ct regs).uregs = saved_regs regs := rfl

theorem pushed_frame_eip (fn : Nat) (ct : thread) (regs : interrupt_registers) :
    (pushed_frame fn ct regs).uregs.eip = regs.eip := by
  rw [pushed_frame_uregs, saved_regs_unfold]
  exact (with_useresp_eip (entry_regs regs)
    ((regs.useresp + 4294967296 - sizeof_signal_frame) % 4294967296)).trans
      (entry_regs_eip regs)

/-- C9. For every state and interrupted frame `regs` for which delivery installs a
user handler, `handle_signal` returns, and `sigreturn` run afterwards on the signal
frame it wrote (in any later state of the same thread whose user memory still holds
that frame, with the stack pointer at the frame) restores the thread's blocked mask
and signaling flag to their values before delivery and sets the returning eip to the
eip of the interrupted frame. -/
theorem sigreturn_restores_mask_and_eip (fn : Nat) (s : KState) (regs : interrupt_registers)
    (ct : thread) (cp : process) (slot : sigaction)
    (hct : s.threads s.current_thread = some ct)
    (hpar : ct.parent = some s.current_process)
    (hcp : s.procs s.current_process = some cp)
    (hsel : next_signal ct.pending ct.blocked ≠ 0)
    (hslot : cp.sighand[(next_signal ct.pending ct.blocked - 1).toNat]? = some slot)
    (hdfl : slot.sa_handler ≠ SIG_DFL) (hign : slot.sa_handler ≠ SIG_IGN) :
    ∃ s1 regs1 t1,
      handle_signal fn s regs = .returned s1 regs1 ∧
      s1.current_thread = s.current_thread ∧ s1.threads s.current_thread = some t1 ∧
      ∀ (sH : KState) (regsH : interrupt_registers) (tH : thread),
        sH.umem regs1.useresp = s1.umem regs1.useresp → regsH.useresp = regs1.useresp →
        sH.current_thread = s.current_thread → sH.threads s.current_thread = some tH →
        ∃ s2 regs2 t2, sigreturn sH regsH = .ok (s2, regs2) ∧
          s2.threads s.current_thread = some t2 ∧
          t2.blocked = ct.blocked ∧ t2.signaling = ct.signaling ∧ regs2.eip = regs.eip := by
  refine ⟨handler_state fn s ct regs slot,
    { saved_regs regs with eip := slot.sa_handler % 4294967296 },
    handler_thread ct regs slot,
    handle_signal_user_eq fn s regs ct cp slot hct hpar hcp hsel hslot hdfl hign, rfl, ?_, ?_⟩
  · exact handler_state_thread fn s ct regs slot
  · intro sH regsH tH hmem hsp hcur htH
    have hframe : sH.umem regsH.useresp = some (pushed_frame fn ct regs) :=
      (congrArg sH.umem hsp).trans (hmem.trans (handler_state_umem fn s ct regs slot))
    rw [← hcur] at htH
    refine ⟨_, _,
      { tH with
        uregs := (pushed_frame fn ct regs).uregs
        signaling := (pushed_frame fn ct regs).signaling
        blocked := (pushed_frame fn ct regs).blocked },
      sigreturn_eq sH regsH tH _ hframe htH, ?_, rfl, rfl, ?_⟩
    · rw [← hcur]
      unfold store_thread
      exact if_pos rfl
    · exact pushed_frame_eip fn ct regs

/-- Witness for C9: delivery of SIGUSR1 on return from a system call, then `sigreturn`. -/
theorem sigreturn_restores_mask_and_eip_witness :
    ∃ s1 regs1 s2 regs2 t2,
      handle_signal 7 (usr1_state 4096 (M SIGINT)) syscall_regs = .returned s1 regs1 ∧
      sigreturn s1 regs1 = .ok (s2, regs2) ∧ s2.threads 2 = some t2 ∧
      t2.blocked = M SIGHUP ||| M SIGTERM ∧ t2.signaling = false ∧ regs2.eip = 300 := by
  obtain ⟨s1, regs1, t1, h1, h2, h3, h4⟩ :=
    sigreturn_restores_mask_and_eip 7 (usr1_state 4096 (M SIGINT)) syscall_regs
      { blank_thread with
        tid := 2
        parent := some 2
        state := thread_state.THREAD_RUNNING
        pending := M SIGUSR1 ||| M SIGTERM
        blocked := M SIGHUP ||| M SIGTERM }
      { blank_process with
        pid := 2
        gid := 2
        parent := some 1
        thread := some 2
        sighand := blank_process.sighand.set 9 (sigaction.mk 4096 0 (M SIGINT)) }
      (sigaction.mk 4096 0 (M SIGINT))
      (by rfl) (by rfl) (by rfl) (by decide) (by rfl) (by decide) (by decide)
  obtain ⟨s2, regs2, t2, h5, h6, h7, h8, h9⟩ := h4 s1 regs1 t1 rfl rfl h2 h3
  exact ⟨s1, regs1, s2, regs2, t2, h1, h5, h6, h7, h8, h9⟩

/-- C10 (counterexample). A system call (`int 0x7F`, `eax = 5`) is interrupted by
SIGUSR1 with a user handler; after delivery and `sigreturn` the run ends with a frame
that differs from the interrupted one: `eax` is `-EINTR` (4294967292), not 5. -/
theorem sigreturn_not_exact_inverse :
    (deliver_then_sigreturn 7 (usr1_state 4096 0) syscall_regs).map
        (fun r => decide (r.2 = syscall_regs)) = some false ∧
    (deliver_then_sigreturn 7 (usr1_state 4096 0) syscall_regs).map (fun r => r.2.eax)
      = some 4294967292 ∧
    syscall_regs.eax = 5 := by
  decide

theorem useresp_twice (r : interrupt_registers) (sp u : Nat) :
    ({ ({ r with useresp := sp } : interrupt_registers) with useresp := u }
      : interrupt_registers) = { r with useresp := u } := rfl

/-- The registers saved in the signal frame are those of the interrupted frame, up to
the lowered stack pointer and the `-EINTR` stored in `eax` for a system call. -/
theorem pushed_frame_restored (fn : Nat) (ct : thread) (regs : interrupt_registers) :
    { (pushed_frame fn ct regs).uregs with useresp := regs.useresp } =
      { regs with eax := if regs.int_no = 0x7F then neg_EINTR32 else regs.eax } := by
  rw [pushed_frame_uregs, saved_regs_unfold]
  refine (useresp_twice (entry_regs regs)
    ((regs.useresp + 4294967296 - sizeof_signal_frame) % 4294967296) regs.useresp).trans ?_
  unfold entry_regs
  by_cases hsys : regs.int_no = 127
  · rw [if_pos hsys, if_pos hsys]
  · rw [if_neg hsys, if_neg hsys]

/-- C10 (amended). For every interrupted frame `regs` for which `handle_signal`
installs a user handler, after `handle_signal` and then `sigreturn` on the frame it
wrote, every field of the returning register frame other than `useresp` and `eax`
equals the corresponding field of `regs` as it was when delivery began; `eax` equals
that of `regs` when the trap is not a system call, and is `-EINTR` when it is
(`int_no = 0x7F`). -/
theorem sigreturn_restores_registers (fn : Nat) (s : KState) (regs : interrupt_registers)
    (ct : thread) (cp : process) (slot : sigaction)
    (hct : s.threads s.current_thread = some ct)
    (hpar : ct.parent = some s.current_process)
    (hcp : s.procs s.current_process = some cp)
    (hsel : next_signal ct.pending ct.blocked ≠ 0)
    (hslot : cp.sighand[(next_signal ct.pending ct.blocked - 1).toNat]? = some slot)
    (hdfl : slot.sa_handler ≠ SIG_DFL) (hign : slot.sa_handler ≠ SIG_IGN) :
    ∃ s1 regs1 t1,
      handle_signal fn s regs = .returned s1 regs1 ∧
      s1.current_thread = s.current_thread ∧ s1.threads s.current_thread = some t1 ∧
      ∀ (sH : KState) (regsH : interrupt_registers) (tH : thread),
        sH.umem regs1.useresp = s1.umem regs1.useresp → regsH.useresp = regs1.useresp →
        sH.current_thread = s.current_thread → sH.threads s.current_thread = some tH →
        ∃ s2 regs2, sigreturn sH regsH = .ok (s2, regs2) ∧
          { regs2 with useresp := regs.useresp } =
            { regs with eax := if regs.int_no = 0x7F then neg_EINTR32 else regs.eax } := by
  refine ⟨handler_state fn s ct regs slot,
    { saved_regs regs with eip := slot.sa_handler % 4294967296 },
    handler_thread ct regs slot,
    handle_signal_user_eq fn s regs ct cp slot hct hpar hcp hsel hslot hdfl hign, rfl, ?_, ?_⟩
  · exact handler_state_thread fn s ct regs slot
  · intro sH regsH tH hmem hsp hcur htH
    have hframe : sH.umem regsH.useresp = some (pushed_frame fn ct regs) :=
      (congrArg sH.umem hsp).trans (hmem.trans (handler_state_umem fn s ct regs slot))
    rw [← hcur] at htH
    exact ⟨_, _, sigreturn_eq sH regsH tH _ hframe htH, pushed_frame_restored fn ct regs⟩

/-- Witness for C10 (amended): delivery of SIGUSR1 on return from a system call, then
`sigreturn`. -/
theorem sigreturn_restores_registers_witness :
    ∃ s1 regs1 s2 regs2,
      handle_signal 7 (usr1_state 4096 (M SIGINT)) syscall_regs = .returned s1 regs1 ∧
      sigreturn s1 regs1 = .ok (s2, regs2) ∧
      { regs2 with useresp := 8192 } = { syscall_regs with eax := neg_EINTR32 } := by
  obtain ⟨s1, regs1, t1, h1, h2, h3, h4⟩ :=
    sigreturn_restores_registers 7 (usr1_state 4096 (M SIGINT)) syscall_regs
      { blank_thread with
        tid := 2
        parent := some 2
        state := thread_state.THREAD_RUNNING
        pending := M SIGUSR1 ||| M SIGTERM
        blocked := M SIGHUP ||| M SIGTERM }
      { blank_process with
        pid := 2
        gid := 2
        parent := some 1
        thread := some 2
        sighand := blank_process.sighand.set 9 (sigaction.mk 4096 0 (M SIGINT)) }
      (sigaction.mk 4096 0 (M SIGINT))
      (by rfl) (by rfl) (by rfl) (by decide) (by rfl) (by decide) (by decide)
  obtain ⟨s2, regs2, h5, h6⟩ := h4 s1 regs1 t1 rfl rfl h2 h3
  exact ⟨s1, regs1, s2, regs2, h1, h5, h6⟩


/-! ## The address-space manager: runs on concrete address spaces -/

theorem vma_ranges_from_self_loop (s : VMState) (i : Nat) (v : vm_area_struct)
    (hv : s.vmas i = some v) (hn : v.next = lptr.node i) :
    ∀ fuel, vma_ranges_from fuel s (lptr.node i) = .error mfault.out_of_fuel := by
  intro fuel
  induction fuel with
  | zero => rfl
  | succ n ih =>
    unfold vma_ranges_from
    simp only [hv, hn, ih]

/-- A list whose first record links to itself is never traversed to its end. -/
theorem ranges_in_self_loop (os : Option VMState) (i : Nat)
    (h : links_in os i = some (lptr.node i, some (lptr.node i))) :
    ∀ fuel, ranges_in fuel os = some (.error mfault.out_of_fuel) := by
  intro fuel
  cases os with
  | none => simp [links_in] at h
  | some st =>
    simp only [links_in, Option.map_some', Option.some.injEq, Prod.mk.injEq] at h
    obtain ⟨h1, h2⟩ := h
    cases hv : st.vmas i with
    | none => rw [hv] at h2; simp at h2
    | some v =>
      rw [hv] at h2
      simp only [Option.map_some', Option.some.injEq] at h2
      simp only [ranges_in, Option.map_some', vma_ranges, h1]
      rw [vma_ranges_from_self_loop st i v hv h2 fuel]

/-- C11 (the code at two failing inputs). First input: the list is `[0x5000, 0x6000)`,
built by `do_mmap(0x5000, 0x1000)` on a fresh `mm`, and satisfies the invariant; the
anonymous call `do_mmap(0x1000, 0x1000)` returns `0x1000` and leaves a list whose
first record links to itself, so that no traversal of it ends: it is no list any
more. Second input: the list is `[0x10000, 0x11000)`, `[0x12000, 0x13000)` and
satisfies the invariant; `do_brk(0x10000, 0x3000)` returns 0 and leaves
`[0x10000, 0x13000)`, `[0x12000, 0x13000)`, where the first VMA overlaps the second. -/
theorem vma_invariant_not_preserved :
    ranges_in 10 (vm_after (do_mmap 10 fresh_vm 0x5000 0x1000 0 0 (-1) 0))
      = some (.ok [(0x5000, 0x6000)]) ∧
    ranges_sorted [(0x5000, 0x6000)] = true ∧
    vm_return (then_mmap (do_mmap 10 fresh_vm 0x5000 0x1000 0 0 (-1) 0) 10 0x1000 0x1000)
      = some 0x1000 ∧
    (∀ fuel, ranges_in fuel
      (vm_after (then_mmap (do_mmap 10 fresh_vm 0x5000 0x1000 0 0 (-1) 0) 10 0x1000 0x1000))
        = some (.error mfault.out_of_fuel)) ∧
    ranges_in 10 (vm_after
      (then_mmap (do_mmap 10 fresh_vm 0x10000 0x1000 0 0 (-1) 0) 10 0x12000 0x1000))
      = some (.ok [(0x10000, 0x11000), (0x12000, 0x13000)]) ∧
    ranges_sorted [(0x10000, 0x11000), (0x12000, 0x13000)] = true ∧
    vm_return (then_brk
      (then_mmap (do_mmap 10 fresh_vm 0x10000 0x1000 0 0 (-1) 0) 10 0x12000 0x1000)
      10 0x10000 0x3000) = some 0 ∧
    ranges_in 10 (vm_after (then_brk
      (then_mmap (do_mmap 10 fresh_vm 0x10000 0x1000 0 0 (-1) 0) 10 0x12000 0x1000)
      10 0x10000 0x3000)) = some (.ok [(0x10000, 0x13000), (0x12000, 0x13000)]) ∧
    ranges_sorted [(0x10000, 0x13000), (0x12000, 0x13000)] = false := by
  refine ⟨by decide, by decide, by decide, ?_, by decide, by decide, by decide, by decide,
    by decide⟩
  exact ranges_in_self_loop _ 0 (by decide)

/-- C12 (the code at the failing input). The list is `[0x5000, 0x6000)`, built by
`do_mmap(0x5000, 0x1000)` on a fresh `mm`. `get_unmapped_area(0x1000, 0x1000)` takes
the first branch of the loop, which calls `list_add` on the node of the VMA it is
looking at and not on the new one: the VMA it returns has the range
`[0x1000, 0x2000)` but both its links are null, so it is not in the list, and the
old record now links to itself, so that no traversal of the list ends. -/
theorem get_unmapped_area_first_branch_corrupts :
    ranges_in 10 (vm_after (do_mmap 10 fresh_vm 0x5000 0x1000 0 0 (-1) 0))
      = some (.ok [(0x5000, 0x6000)]) ∧
    area_range (then_area (do_mmap 10 fresh_vm 0x5000 0x1000 0 0 (-1) 0) 10 0x1000 0x1000)
      = some (0x1000, 0x2000) ∧
    area_links (then_area (do_mmap 10 fresh_vm 0x5000 0x1000 0 0 (-1) 0) 10 0x1000 0x1000)
      = some (lptr.null, lptr.null) ∧
    links_in (area_state
      (then_area (do_mmap 10 fresh_vm 0x5000 0x1000 0 0 (-1) 0) 10 0x1000 0x1000)) 0
      = some (lptr.node 0, some (lptr.node 0)) ∧
    (∀ fuel, ranges_in fuel (area_state
      (then_area (do_mmap 10 fresh_vm 0x5000 0x1000 0 0 (-1) 0) 10 0x1000 0x1000))
        = some (.error mfault.out_of_fuel)) := by
  refine ⟨by decide, by decide, by decide, by decide, ?_⟩
  exact ranges_in_self_loop _ 0 (by decide)

/-- C15 (the code at two failing inputs). First input: an empty list and
`end_brk = 0x10000`; the anonymous call `do_mmap(0x4000, 0x1000)` creates the VMA
`[0x10000, 0x11000)` and maps its page, but returns `0x4000`, which lies in no VMA.
Second input: the list is `[0x1000, 0x2000)`, `[0x8000, 0x9000)`; the anonymous call
`do_mmap(0x3000, 0x6000)` creates the VMA `[0x2000, 0x8000)` and returns `0x3000`, so
that the VMA does not cover `[0x3000, 0x9000)`. -/
theorem do_mmap_returns_the_request :
    vm_return (do_mmap 10 user_vm 0x4000 0x1000 0 0 (-1) 0) = some 0x4000 ∧
    ranges_in 10 (vm_after (do_mmap 10 user_vm 0x4000 0x1000 0 0 (-1) 0))
      = some (.ok [(0x10000, 0x11000)]) ∧
    (vm_after (do_mmap 10 user_vm 0x4000 0x1000 0 0 (-1) 0)).map (fun s => s.page_map)
      = some [(0x10000, 0x100000)] ∧
    then_find (do_mmap 10 user_vm 0x4000 0x1000 0 0 (-1) 0) 10 0x4000 = .ok none ∧
    ranges_in 10 (vm_after
      (then_mmap (do_mmap 10 fresh_vm 0x1000 0x1000 0 0 (-1) 0) 10 0x8000 0x1000))
      = some (.ok [(0x1000, 0x2000), (0x8000, 0x9000)]) ∧
    vm_return (then_mmap
      (then_mmap (do_mmap 10 fresh_vm 0x1000 0x1000 0 0 (-1) 0) 10 0x8000 0x1000)
      10 0x3000 0x6000) = some 0x3000 ∧
    ranges_in 10 (vm_after (then_mmap
      (then_mmap (do_mmap 10 fresh_vm 0x1000 0x1000 0 0 (-1) 0) 10 0x8000 0x1000)
      10 0x3000 0x6000))
      = some (.ok [(0x1000, 0x2000), (0x2000, 0x8000), (0x8000, 0x9000)]) := by
  refine ⟨by decide, by decide, by decide, by decide, by decide, by decide, by decide⟩


/-- C13 (counterexample). On a fresh `mm` (empty list, `free_area_cache = 0`,
`end_brk = 0`) the anonymous call `do_mmap(0, 8192)` returns 0, leaves the empty VMA
`[0, 0)` in the list, and `find_vma(mm, 0)` returns none: the address returned is
zero and no VMA contains it. -/
theorem mmap_round_trip_fails_on_fresh_mm :
    vm_return (do_mmap 10 fresh_vm 0 8192 0 0 (-1) 0) = some 0 ∧
    ranges_in 10 (vm_after (do_mmap 10 fresh_vm 0 8192 0 0 (-1) 0)) = some (.ok [(0, 0)]) ∧
    then_find (do_mmap 10 fresh_vm 0 8192 0 0 (-1) 0) 10 0 = .ok none := by
  refine ⟨by decide, by decide, by decide⟩

/-- C14 (the code at two failing inputs). The list is `[0x1000, 0x3000)`, built by
`do_mmap(0x1000, 0x2000)` on a fresh `mm`, and `find_vma` finds that VMA for `0x2000`
and for `0x1000`. First input, a trailing portion: `do_munmap(0x2000, 0x1000)`
returns 0 at the guard `vma->vm_start < addr` and leaves `[0x1000, 0x3000)` as it
is, so that `0x2000` is still inside the VMA, where the claim has the VMA shrunk to
`[0x1000, 0x2000)`. Second input, the whole VMA: `do_munmap(0x1000, 0x2000)` returns
0 and takes the branch `vm_end = addr`, not the `list_del` of the other branch: the
VMA stays in the list with the empty range `[0x1000, 0x1000)`, where the claim has
it removed from the list. -/
theorem do_munmap_misses_shrink_and_detach :
    ranges_in 10 (vm_after (do_mmap 10 fresh_vm 0x1000 0x2000 0 0 (-1) 0))
      = some (.ok [(0x1000, 0x3000)]) ∧
    ranges_sorted [(0x1000, 0x3000)] = true ∧
    then_find (do_mmap 10 fresh_vm 0x1000 0x2000 0 0 (-1) 0) 10 0x2000
      = .ok (some (0x1000, 0x3000)) ∧
    vm_return (then_munmap (do_mmap 10 fresh_vm 0x1000 0x2000 0 0 (-1) 0) 10 0x2000 0x1000)
      = some 0 ∧
    ranges_in 10 (vm_after
      (then_munmap (do_mmap 10 fresh_vm 0x1000 0x2000 0 0 (-1) 0) 10 0x2000 0x1000))
      = some (.ok [(0x1000, 0x3000)]) ∧
    then_find (then_munmap (do_mmap 10 fresh_vm 0x1000 0x2000 0 0 (-1) 0) 10 0x2000 0x1000)
      10 0x2000 = .ok (some (0x1000, 0x3000)) ∧
    vm_return (then_munmap (do_mmap 10 fresh_vm 0x1000 0x2000 0 0 (-1) 0) 10 0x1000 0x2000)
      = some 0 ∧
    ranges_in 10 (vm_after
      (then_munmap (do_mmap 10 fresh_vm 0x1000 0x2000 0 0 (-1) 0) 10 0x1000 0x2000))
      = some (.ok [(0x1000, 0x1000)]) := by
  refine ⟨by decide, by decide, by decide, by decide, by decide, by decide, by decide,
    by decide⟩

/-! ## Fork and the delivery gate: runs on concrete states -/

/-- C18 (the code at the failing input). The parent is the process at address 3 of
the demo state, with pid 3, gid 2 and sid 0. The process that `process_fork` returns
has the new pid 4 and the sid 0 of the parent, but its gid is 3, the pid of the
parent, and not 2, the gid of the parent. -/
theorem process_fork_gid_is_parent_pid :
    (fork_state.procs 3).map (fun q => (q.pid, q.gid, q.sid))
      = some (3, 2, 0) ∧
    (forked_process (process_fork fork_state 3 4 4 65536)).map
      (fun q => (q.pid, q.gid, q.sid)) = some (4, 3, 0) := by
  refine ⟨by decide, by decide⟩

/-- C19 (the code at the failing input). The parent is the process at address 3 of
the demo state and owns the thread at address 3. After `process_fork`, with the new
process record at address 4 and the new thread record at address 4, the child has no
thread (`thread` is null), the new thread has the child as its owner, and the field
`thread` of the parent points to the new thread and no longer to the thread at 3. -/
theorem process_fork_gives_thread_to_parent :
    (fork_state.procs 3).map (fun q => q.thread) = some (some 3) ∧
    (fork_state.threads 3).map (fun q => q.parent) = some (some 3) ∧
    (forked_process (process_fork fork_state 3 4 4 65536)).map (fun q => q.pid) = some 4 ∧
    (forked_process (process_fork fork_state 3 4 4 65536)).map (fun q => q.thread)
      = some none ∧
    (thread_after (process_fork fork_state 3 4 4 65536) 4).map (fun q => q.parent)
      = some (some 4) ∧
    (process_after (process_fork fork_state 3 4 4 65536) 3).map (fun q => q.thread)
      = some (some 4) := by
  refine ⟨by decide, by decide, by decide, by decide, by decide, by decide⟩

/-- C20 (the code at the failing input). SIGTERM is pending and blocked on the
current thread, which is not handling a signal, and the returning frame of a system
call with `eax = 5` lies right below the top of its kernel stack. `signal_handler`
tests `pending` alone, so it calls `handle_signal`, which stores `-EINTR` in `eax` of
the frame, sets `signaling` and overwrites the saved registers of the thread before
it finds that `next_signal` selects no signal. -/
theorem signal_handler_blocked_signal_clobbers :
    M SIGTERM &&& bnot32 (M SIGTERM) = 0 ∧
    next_signal (M SIGTERM) (M SIGTERM) = 0 ∧
    signal_fields_at blocked_state 2 = some (M SIGTERM, M SIGTERM, false, zero_regs) ∧
    syscall_regs.eax = 5 ∧
    (signal_handler 7 blocked_state 4096 syscall_regs).regs
      = { syscall_regs with eax := 4294967292 } ∧
    signal_fields_at (signal_handler 7 blocked_state 4096 syscall_regs).state 2
      = some (M SIGTERM, M SIGTERM, true, { syscall_regs with eax := 4294967292 }) := by
  refine ⟨by decide, by decide, by decide, by decide, by decide, by decide⟩


/-- C17. For every state in which the parent has a thread, and new records at
addresses `p` and `t` that are not in use (as `kcalloc` returns them),
`process_fork` returns `p`; the new thread at `t` has the saved registers of the
parent thread with `eax` replaced by 0 and every other field equal, and the record
of the parent thread, its saved registers included, is unchanged. -/
theorem process_fork_copies_registers (s : KState) (parent p t kstack pt : Nat)
    (par : process) (pth : thread)
    (hpar : s.procs parent = some par) (hthr : par.thread = some pt)
    (hpt : s.threads pt = some pth)
    (hp : s.procs p = none) (ht : s.threads t = none) :
    ∃ s1, process_fork s parent p t kstack = .ok (p, s1) ∧
      (s1.threads t).map (fun th => th.uregs) = some { pth.uregs with eax := 0 } ∧
      s1.threads pt = some pth := by
  have hne : parent ≠ p := by
    intro h
    rw [h, hp] at hpar
    exact Option.noConfusion hpar
  have hne2 : pt ≠ t := by
    intro h
    rw [h, ht] at hpt
    exact Option.noConfusion hpt
  unfold process_fork
  simp only [store_process, store_thread, if_neg hne, hpar, if_pos, hthr, if_neg hne2, hpt]
  refine ⟨_, rfl, ?_, ?_⟩
  · simp only [if_pos, Option.map_some']
  · simp only [if_neg hne2, hpt]

/-- C17 at a concrete input: the fork of the process at address 3 of the demo state,
whose thread has the registers of a system call with `eax = 5` saved. -/
theorem process_fork_copies_registers_witness :
    ∃ s1, process_fork fork_state 3 4 4 65536 = .ok (4, s1) ∧
      (s1.threads 4).map (fun th => th.uregs) = some { syscall_regs with eax := 0 } ∧
      s1.threads 3 = some fork_thread :=
  process_fork_copies_registers fork_state 3 4 4 65536 3
    { blank_process with pid := 3, gid := 2, parent := some 2, thread := some 3 }
    fork_thread (by decide) rfl (by decide) (by decide) (by decide)


/-! ## Traversals of a well-formed VMA list -/

theorem vma_chain_nil (s : VMState) (pos : lptr) :
    vma_chain s pos [] = true ↔ pos = lptr.head := by
  simp [vma_chain]

theorem vma_chain_cons (s : VMState) (pos : lptr) (a : Nat) (l : List Nat) :
    vma_chain s pos (a :: l) = true ↔
      pos = lptr.node a ∧ ∃ v, s.vmas a = some v ∧ vma_chain s v.next l = true := by
  have e : vma_chain s pos (a :: l) = (decide (pos = lptr.node a) &&
      match s.vmas a with
      | some v => vma_chain s v.next l
      | none => false) := rfl
  rw [e]
  cases h : s.vmas a with
  | none => simp
  | some v => simp

/-- The records of a chain keep their links, so the chain stays. -/
theorem vma_chain_congr (s s1 : VMState) :
    ∀ (l : List Nat) (pos : lptr), vma_chain s pos l = true →
      (∀ a ∈ l, ∀ v, s.vmas a = some v → ∃ w, s1.vmas a = some w ∧ w.next = v.next) →
      vma_chain s1 pos l = true := by
  intro l
  induction l with
  | nil => intro pos h _; rw [vma_chain_nil] at h ⊢; exact h
  | cons a t ih =>
    intro pos h hsame
    rw [vma_chain_cons] at h ⊢
    obtain ⟨hp, v, hv, ht⟩ := h
    obtain ⟨w, hw, hwn⟩ := hsame a (List.mem_cons_self a t) v hv
    refine ⟨hp, w, hw, ?_⟩
    rw [hwn]
    exact ih v.next ht (fun b hb => hsame b (List.mem_cons_of_mem a hb))

/-- `find_vma` on a well-formed list: the first record that contains `addr`. -/
theorem find_vma_from_chain (s : VMState) (addr : Nat) :
    ∀ (l : List Nat) (pos : lptr) (fuel : Nat), vma_chain s pos l = true →
      l.length < fuel →
      find_vma_from fuel s addr pos = .ok (l.find? (vma_contains s addr)) := by
  intro l
  induction l with
  | nil =>
    intro pos fuel h hf
    rw [vma_chain_nil] at h
    cases fuel with
    | zero => exact absurd hf (Nat.lt_irrefl 0)
    | succ n => rw [h]; rfl
  | cons a t ih =>
    intro pos fuel h hf
    rw [vma_chain_cons] at h
    obtain ⟨hp, v, hv, ht⟩ := h
    cases fuel with
    | zero => exact absurd hf (Nat.not_lt_zero _)
    | succ n =>
      rw [hp]
      unfold find_vma_from
      simp only [hv]
      have hc : vma_contains s addr a = decide (v.vm_start ≤ addr ∧ addr < v.vm_end) := by
        unfold vma_contains
        rw [hv]
      by_cases hin : v.vm_start ≤ addr ∧ addr < v.vm_end
      · rw [if_pos hin, List.find?_cons_of_pos]
        rw [hc]
        exact decide_eq_true hin
      · rw [if_neg hin, List.find?_cons_of_neg]
        · exact ih v.next n ht (Nat.lt_of_succ_lt_succ hf)
        · rw [hc]
          simpa using hin

theorem find_vma_chain (s : VMState) (addr fuel : Nat) (l : List Nat)
    (h : vma_chain s s.mm.mmap_next l = true) (hf : l.length < fuel) :
    find_vma fuel s addr = .ok (l.find? (vma_contains s addr)) :=
  find_vma_from_chain s addr l s.mm.mmap_next fuel h hf


/-! ## Sorted lists of ranges -/

theorem ranges_sorted_tail (r : Nat × Nat) (rest : List (Nat × Nat))
    (h : ranges_sorted (r :: rest) = true) : ranges_sorted rest = true := by
  cases rest with
  | nil => rfl
  | cons r2 t =>
    simp only [ranges_sorted, Bool.and_eq_true] at h
    exact h.2

/-- In a sorted list of ranges a range ends at or before the start of every later one. -/
theorem ranges_sorted_head (rest : List (Nat × Nat)) :
    ∀ r : Nat × Nat, ranges_sorted (r :: rest) = true →
      ∀ q ∈ rest, r.1 < q.1 ∧ r.2 ≤ q.1 := by
  induction rest with
  | nil => intro r _ q hq; cases hq
  | cons r2 t ih =>
    intro r h q hq
    have h0 := h
    simp only [ranges_sorted, Bool.and_eq_true, decide_eq_true_eq] at h
    obtain ⟨⟨⟨_, hlt⟩, hle⟩, hrest⟩ := h
    rcases List.mem_cons.mp hq with hq | hq
    · rw [hq]; exact ⟨hlt, hle⟩
    · obtain ⟨h1, _⟩ := ih r2 hrest q hq
      exact ⟨Nat.lt_trans hlt h1, Nat.le_trans hle (Nat.le_of_lt h1)⟩

theorem vma_contains_iff (s : VMState) (addr a : Nat) :
    vma_contains s addr a = true ↔
      ∃ v, s.vmas a = some v ∧ v.vm_start ≤ addr ∧ addr < v.vm_end := by
  unfold vma_contains
  cases h : s.vmas a with
  | none => simp
  | some v => simp

theorem range_at_of (s : VMState) (a : Nat) (v : vm_area_struct) (h : s.vmas a = some v) :
    range_at s a = (v.vm_start, v.vm_end) := by
  unfold range_at
  rw [h]

/-- In a sorted list the VMA that contains `addr` is the one that `find_vma` meets. -/
theorem find_in_sorted (s : VMState) (addr a : Nat) (v : vm_area_struct)
    (hv : s.vmas a = some v) (h1 : v.vm_start ≤ addr) (h2 : addr < v.vm_end) :
    ∀ l : List Nat, ranges_sorted (l.map (range_at s)) = true → a ∈ l →
      l.find? (vma_contains s addr) = some a := by
  intro l
  induction l with
  | nil => intro _ hmem; cases hmem
  | cons b t ih =>
    intro hs hmem
    by_cases hb : vma_contains s addr b = true
    · rw [List.find?_cons_of_pos _ hb]
      rcases List.mem_cons.mp hmem with hab | hat
      · rw [hab]
      · exfalso
        obtain ⟨vb, hvb, _, hb2⟩ := (vma_contains_iff s addr b).mp hb
        rw [List.map_cons] at hs
        have := (ranges_sorted_head _ _ hs (range_at s a) (List.mem_map_of_mem _ hat)).2
        rw [range_at_of s a v hv, range_at_of s b vb hvb] at this
        simp only at this
        omega
    · rw [List.find?_cons_of_neg _ hb]
      rcases List.mem_cons.mp hmem with hab | hat
      · exfalso
        apply hb
        rw [← hab]
        exact (vma_contains_iff s addr a).mpr ⟨v, hv, h1, h2⟩
      · rw [List.map_cons] at hs
        exact ih (ranges_sorted_tail _ _ hs) hat

/-! ## `do_munmap` -/

/-- What `do_munmap` does with a request `[addr, addr + len)` that ends at the end of
a VMA `V = [s, e)` of a well-formed, sorted list, `len` being page-aligned: for
`addr > s` it returns at the guard with the state as it was, and for `addr = s` it
stores `vm_end = addr` in `V` and leaves `V` in the list. -/
theorem do_munmap_effect (s : VMState) (l : List Nat) (a : Nat) (v : vm_area_struct)
    (addr len fuel : Nat)
    (hchain : vma_chain s s.mm.mmap_next l = true)
    (hsorted : ranges_sorted (l.map (range_at s)) = true)
    (hmem : a ∈ l) (hv : s.vmas a = some v)
    (hlen : len % PMM_FRAME_SIZE = 0)
    (h1 : v.vm_start ≤ addr) (h2 : addr < v.vm_end) (h3 : addr + len = v.vm_end)
    (hfuel : l.length < fuel) :
    (v.vm_start < addr → do_munmap fuel s addr len = .ok (0, s)) ∧
    (addr = v.vm_start →
      do_munmap fuel s addr len = .ok (0, store_vma s a { v with vm_end := addr })) := by
  have hfind := find_vma_chain s addr fuel l hchain hfuel
  rw [find_in_sorted s addr a v hv h1 h2 l hsorted hmem] at hfind
  unfold do_munmap
  simp only [hfind, hv]
  constructor
  · intro hlt
    rw [if_pos hlt]
  · intro heq
    have hnlt : ¬ (v.vm_start < addr) := by omega
    have hsize : (v.vm_end + 4294967296 - v.vm_start) % 4294967296 ≥ PAGE_ALIGN len := by
      unfold PAGE_ALIGN
      unfold PMM_FRAME_SIZE at hlen ⊢
      omega
    rw [if_neg hnlt, if_pos hsize]

/-! ## `do_brk` -/

theorem page_run_length (vaddr paddr n : Nat) : (page_run vaddr paddr n).length = n := by
  unfold page_run
  rw [List.length_map, List.length_range]

theorem PAGE_ALIGN_mod (x : Nat) : PAGE_ALIGN x % PMM_FRAME_SIZE = 0 := by
  unfold PAGE_ALIGN PMM_FRAME_SIZE
  omega

/-- `list_add` of a new record right after the head of an empty list. -/
theorem list_add_empty (s : VMState) (vma : Nat) (nv : vm_area_struct)
    (hhead : s.mm.mmap_next = lptr.head) (hnv : s.vmas vma = some nv) :
    ∃ s1, list_add s (lptr.node vma) lptr.head = .ok s1 ∧
      s1.vmas vma = some { nv with next := lptr.head, prev := lptr.head } ∧
      (∀ x, x ≠ vma → s1.vmas x = s.vmas x) ∧
      s1.mm.mmap_next = lptr.node vma := by
  unfold list_add
  simp only [lnext, hhead, set_prev, set_next, hnv, store_vma, if_true]
  refine ⟨_, rfl, ?_, ?_, rfl⟩
  · simp only [if_true]
  · intro x hx
    simp only [if_neg hx]

/-- `list_add` of a new record right after the last record of a list. -/
theorem list_add_last (s : VMState) (vma i : Nat) (nv vi : vm_area_struct)
    (hvi : s.vmas i = some vi) (hlast : vi.next = lptr.head)
    (hnv : s.vmas vma = some nv) (hne : i ≠ vma) :
    ∃ s1, list_add s (lptr.node vma) (lptr.node i) = .ok s1 ∧
      s1.vmas vma = some { nv with next := lptr.head, prev := lptr.node i } ∧
      s1.vmas i = some { vi with next := lptr.node vma } ∧
      (∀ x, x ≠ vma → x ≠ i → s1.vmas x = s.vmas x) ∧
      s1.mm.mmap_next = s.mm.mmap_next := by
  unfold list_add
  simp only [lnext, hvi, hlast, set_prev, set_next, hnv, store_vma, if_true, if_neg hne]
  refine ⟨_, rfl, ?_, ?_, ?_, rfl⟩
  · simp only [if_true, if_neg hne.symm]
  · simp only [if_true]
  · intro x hx hxi
    simp only [if_neg hx, if_neg hxi]

/-- The mapping loop of `do_mmap` over `n` whole pages ends and leaves the `mm` and
the VMA records as they are. -/
theorem map_fresh_pages_ok :
    ∀ (n fuel : Nat) (s : VMState) (vaddr : Nat), n < fuel →
      vaddr + PMM_FRAME_SIZE * n < 4294967296 →
      ∃ s1, map_fresh_pages fuel s vaddr (vaddr + PMM_FRAME_SIZE * n) = .ok s1 ∧
        s1.vmas = s.vmas ∧ s1.mm = s.mm := by
  intro n
  induction n with
  | zero =>
    intro fuel s vaddr hf _
    cases fuel with
    | zero => exact absurd hf (Nat.lt_irrefl 0)
    | succ f =>
      unfold map_fresh_pages
      rw [Nat.mul_zero, Nat.add_zero, if_neg (Nat.lt_irrefl vaddr)]
      exact ⟨s, rfl, rfl, rfl⟩
  | succ n ih =>
    intro fuel s vaddr hf hv
    cases fuel with
    | zero => exact absurd hf (Nat.not_lt_zero _)
    | succ f =>
      unfold map_fresh_pages
      have hlt : vaddr < vaddr + PMM_FRAME_SIZE * (n + 1) := by
        unfold PMM_FRAME_SIZE
        omega
      have hnext : (vaddr + PMM_FRAME_SIZE) % 4294967296 = vaddr + PMM_FRAME_SIZE := by
        unfold PMM_FRAME_SIZE at hv ⊢
        omega
      have hend : vaddr + PMM_FRAME_SIZE * (n + 1) =
          vaddr + PMM_FRAME_SIZE + PMM_FRAME_SIZE * n := by
        unfold PMM_FRAME_SIZE
        omega
      rw [if_pos hlt, hnext, hend]
      obtain ⟨s1, h1, h2, h3⟩ := ih f
        { s with
          page_map := (vaddr, s.next_frame % 4294967296) :: s.page_map
          next_frame := s.next_frame + PMM_FRAME_SIZE }
        (vaddr + PMM_FRAME_SIZE) (Nat.lt_of_succ_lt_succ hf) (by rw [← hend]; exact hv)
      exact ⟨s1, h1, h2, h3⟩


theorem PAGE_ALIGN_self (b : Nat) (hal : b % PMM_FRAME_SIZE = 0)
    (hlt : b + (PMM_FRAME_SIZE - 1) < 4294967296) : PAGE_ALIGN b = b := by
  unfold PAGE_ALIGN
  unfold PMM_FRAME_SIZE at hal hlt ⊢
  omega

theorem PAGE_ALIGN_pos (len : Nat) (hlen : 0 < len)
    (hlt : len + (PMM_FRAME_SIZE - 1) < 4294967296) :
    len ≤ PAGE_ALIGN len ∧ PAGE_ALIGN len ≤ len + (PMM_FRAME_SIZE - 1) := by
  unfold PAGE_ALIGN
  unfold PMM_FRAME_SIZE at hlt ⊢
  omega

/-- The last step of `get_unmapped_area`, which stores the range in the new record and
the cache in the `mm`, keeps the chain. -/
theorem vma_chain_set_range (s1 : VMState) (vma : Nat) (w : vm_area_struct)
    (x y c : Nat) (hw : s1.vmas vma = some w) (L : List Nat)
    (h : vma_chain s1 s1.mm.mmap_next L = true) :
    vma_chain
      { store_vma s1 vma { w with vm_start := x, vm_end := y } with
        mm := { (store_vma s1 vma { w with vm_start := x, vm_end := y }).mm with
          free_area_cache := c } }
      s1.mm.mmap_next L = true := by
  apply vma_chain_congr s1 _ L _ h
  intro a _ v hv
  by_cases ha : a = vma
  · rw [ha] at hv
    rw [hw] at hv
    cases hv
    refine ⟨{ w with vm_start := x, vm_end := y }, ?_, rfl⟩
    simp only [store_vma, ha, if_true]
  · refine ⟨v, ?_, rfl⟩
    simp only [store_vma, if_neg ha]
    exact hv

/-! ## Inserting into a well-formed VMA list -/

/-- A position is the start of at most one chain. -/
theorem vma_chain_functional (s : VMState) :
    ∀ (l1 l2 : List Nat) (pos : lptr), vma_chain s pos l1 = true →
      vma_chain s pos l2 = true → l1 = l2 := by
  intro l1
  induction l1 with
  | nil =>
    intro l2 pos h1 h2
    rw [vma_chain_nil] at h1
    cases l2 with
    | nil => rfl
    | cons b t2 =>
      rw [vma_chain_cons, h1] at h2
      exact lptr.noConfusion h2.1
  | cons a t1 ih =>
    intro l2 pos h1 h2
    rw [vma_chain_cons] at h1
    obtain ⟨hp, v, hv, hn⟩ := h1
    cases l2 with
    | nil =>
      rw [vma_chain_nil, hp] at h2
      exact lptr.noConfusion h2
    | cons b t2 =>
      rw [vma_chain_cons, hp] at h2
      obtain ⟨hp2, v2, hv2, hn2⟩ := h2
      have hab : a = b := lptr.node.inj hp2
      rw [← hab, hv] at hv2
      cases hv2
      rw [← hab, ih t2 v.next hn hn2]

/-- The part of a chain after a prefix is a chain. -/
theorem vma_chain_suffix (s : VMState) (l2 : List Nat) :
    ∀ (t : List Nat) (pos : lptr), vma_chain s pos (t ++ l2) = true →
      ∃ p, vma_chain s p l2 = true := by
  intro t
  induction t with
  | nil => intro pos h; exact ⟨pos, h⟩
  | cons a t1 ih =>
    intro pos h
    rw [List.cons_append, vma_chain_cons] at h
    obtain ⟨_, v, _, hn⟩ := h
    exact ih v.next hn

/-- A chain visits no record twice. -/
theorem vma_chain_nodup (s : VMState) :
    ∀ (l : List Nat) (pos : lptr), vma_chain s pos l = true → l.Nodup := by
  intro l
  induction l with
  | nil => intro _ _; exact List.nodup_nil
  | cons a t ih =>
    intro pos h
    rw [vma_chain_cons] at h
    obtain ⟨_, v, hv, hn⟩ := h
    rw [List.nodup_cons]
    refine ⟨?_, ih v.next hn⟩
    intro hmem
    obtain ⟨t1, t2, ht⟩ := List.append_of_mem hmem
    rw [ht] at hn
    obtain ⟨p, hp⟩ := vma_chain_suffix s (a :: t2) t1 v.next hn
    rw [vma_chain_cons] at hp
    obtain ⟨_, v2, hv2, hn2⟩ := hp
    rw [hv] at hv2
    cases hv2
    have := vma_chain_functional s _ _ v.next hn hn2
    have hlen := congrArg List.length this
    rw [List.length_append, List.length_cons] at hlen
    omega

/-- `list_add` of a new record right after a record of the list that has a successor. -/
theorem list_add_inner (s : VMState) (vma i j : Nat) (nv vi vj : vm_area_struct)
    (hvi : s.vmas i = some vi) (hnext : vi.next = lptr.node j)
    (hvj : s.vmas j = some vj) (hnv : s.vmas vma = some nv)
    (hiv : i ≠ vma) (hjv : j ≠ vma) (hij : i ≠ j) :
    ∃ s1, list_add s (lptr.node vma) (lptr.node i) = .ok s1 ∧
      s1.vmas vma = some { nv with next := lptr.node j, prev := lptr.node i } ∧
      s1.vmas i = some { vi with next := lptr.node vma } ∧
      s1.vmas j = some { vj with prev := lptr.node vma } ∧
      (∀ x, x ≠ vma → x ≠ i → x ≠ j → s1.vmas x = s.vmas x) ∧
      s1.mm.mmap_next = s.mm.mmap_next := by
  unfold list_add
  simp only [lnext, hvi, hnext, set_prev, set_next, hvj, hnv, store_vma, if_true,
    if_neg hiv, if_neg hjv, if_neg hjv.symm, if_neg hij]
  refine ⟨_, rfl, ?_, ?_, ?_, ?_, rfl⟩
  · simp only [if_true, if_neg hiv.symm]
  · simp only [if_true]
  · simp only [if_true, if_neg hij.symm, if_neg hjv]
  · intro x hx hxi hxj
    simp only [if_neg hx, if_neg hxi, if_neg hxj]


/-- `list_add` of a new record right after the record `i` of a list: the new record
takes over the link of `i`, `i` links to the new record, and every other record
keeps its link `next` and its range. -/
theorem list_add_after (s : VMState) (vma i : Nat) (nv vi : vm_area_struct)
    (l2 : List Nat) (hvi : s.vmas i = some vi) (hnv : s.vmas vma = some nv)
    (hiv : i ≠ vma) (hrest : vma_chain s vi.next l2 = true)
    (hil : i ∉ l2) (hvl : vma ∉ l2) :
    ∃ s1, list_add s (lptr.node vma) (lptr.node i) = .ok s1 ∧
      s1.vmas vma = some { nv with next := vi.next, prev := lptr.node i } ∧
      s1.vmas i = some { vi with next := lptr.node vma } ∧
      (∀ x, x ≠ vma → x ≠ i → ∀ v, s.vmas x = some v →
        ∃ w, s1.vmas x = some w ∧ w.next = v.next ∧ w.vm_start = v.vm_start ∧
          w.vm_end = v.vm_end) ∧
      s1.mm.mmap_next = s.mm.mmap_next := by
  cases l2 with
  | nil =>
    rw [vma_chain_nil] at hrest
    obtain ⟨s1, h1, h2, h3, h4, h5⟩ := list_add_last s vma i nv vi hvi hrest hnv hiv
    rw [hrest]
    refine ⟨s1, h1, h2, h3, ?_, h5⟩
    intro x hx hxi v hv
    exact ⟨v, by rw [h4 x hx hxi]; exact hv, rfl, rfl, rfl⟩
  | cons j t =>
    rw [vma_chain_cons] at hrest
    obtain ⟨hnext, vj, hvj, _⟩ := hrest
    have hij : i ≠ j := fun h => hil (h ▸ List.mem_cons_self _ _)
    have hjv : j ≠ vma := fun h => hvl (h ▸ List.mem_cons_self _ _)
    obtain ⟨s1, h1, h2, h3, h4, h5, h6⟩ :=
      list_add_inner s vma i j nv vi vj hvi hnext hvj hnv hiv hjv hij
    rw [hnext]
    refine ⟨s1, h1, h2, h3, ?_, h6⟩
    intro x hx hxi v hv
    by_cases hxj : x = j
    · rw [hxj] at hv ⊢
      rw [hvj] at hv
      cases hv
      exact ⟨_, h4, rfl, rfl, rfl⟩
    · exact ⟨v, by rw [h5 x hx hxi hxj]; exact hv, rfl, rfl, rfl⟩

/-- A new record linked in after the record `i` of a chain extends the chain by one,
right after `i`. -/
theorem vma_chain_insert (s s1 : VMState) (vma i : Nat) (w : vm_area_struct)
    (l2 : List Nat) (hw : s1.vmas vma = some w)
    (hi : ∀ v, s.vmas i = some v →
      s1.vmas i = some { v with next := lptr.node vma } ∧ w.next = v.next)
    (hl2 : ∀ x ∈ l2, ∀ v, s.vmas x = some v → ∃ w1, s1.vmas x = some w1 ∧ w1.next = v.next) :
    ∀ (t : List Nat) (pos : lptr), vma_chain s pos (t ++ i :: l2) = true →
      (∀ x ∈ t, ∀ v, s.vmas x = some v → ∃ w1, s1.vmas x = some w1 ∧ w1.next = v.next) →
      vma_chain s1 pos (t ++ i :: vma :: l2) = true := by
  intro t
  induction t with
  | nil =>
    intro pos h _
    rw [List.nil_append, vma_chain_cons] at h
    obtain ⟨hp, v, hv, hn⟩ := h
    obtain ⟨hi1, hi2⟩ := hi v hv
    rw [List.nil_append, vma_chain_cons]
    refine ⟨hp, _, hi1, ?_⟩
    rw [vma_chain_cons]
    refine ⟨rfl, w, hw, ?_⟩
    rw [hi2]
    exact vma_chain_congr s s1 l2 v.next hn hl2
  | cons a t1 ih =>
    intro pos h hsame
    rw [List.cons_append, vma_chain_cons] at h
    obtain ⟨hp, v, hv, hn⟩ := h
    obtain ⟨w1, hw1, hw1n⟩ := hsame a (List.mem_cons_self a t1) v hv
    rw [List.cons_append, vma_chain_cons]
    refine ⟨hp, w1, hw1, ?_⟩
    rw [hw1n]
    exact ih v.next hn (fun x hx => hsame x (List.mem_cons_of_mem a hx))

/-- The loop of `get_unmapped_area` when the VMAs up to `i` end at or below `addr`
and the ones after `i` start at or above `addr + len`: it walks to `i` and links the
new record in after it. -/
theorem place_vma_fits (s : VMState) (vma addr len i : Nat) (l2 : List Nat)
    (hsum : addr + len < 4294967296) (hlen : 0 < len)
    (habove : ∀ a ∈ l2, ∀ v, s.vmas a = some v → addr + len ≤ v.vm_start) :
    ∀ (t : List Nat) (pos : lptr) (fuel : Nat), vma_chain s pos (t ++ i :: l2) = true →
      (∀ a ∈ t ++ [i], ∀ v, s.vmas a = some v → v.vm_start ≤ v.vm_end ∧ v.vm_end ≤ addr) →
      t.length < fuel →
      place_vma fuel s vma addr len pos =
        match list_add s (lptr.node vma) (lptr.node i) with
        | .error e => .error e
        | .ok s1 => .ok (s1, addr) := by
  have hmod : (addr + len) % 4294967296 = addr + len := Nat.mod_eq_of_lt hsum
  intro t
  induction t with
  | nil =>
    intro pos fuel h hb hf
    rw [List.nil_append, vma_chain_cons] at h
    obtain ⟨hp, v, hv, hn⟩ := h
    obtain ⟨hb1, hb2⟩ := hb i (List.mem_singleton.mpr rfl) v hv
    cases fuel with
    | zero => exact absurd hf (Nat.lt_irrefl 0)
    | succ f =>
      rw [hp]
      unfold place_vma
      simp only [hv, hmod]
      have hc1 : ¬ (addr + len ≤ v.vm_start) := by omega
      rw [if_neg hc1, if_pos hb2]
      cases l2 with
      | nil =>
        rw [vma_chain_nil] at hn
        rw [if_pos hn]
      | cons j t2 =>
        rw [vma_chain_cons] at hn
        obtain ⟨hnj, vj, hvj, _⟩ := hn
        have hne : ¬ (v.next = lptr.head) := by
          rw [hnj]
          exact fun hh => lptr.noConfusion hh
        rw [if_neg hne, hnj]
        simp only [hvj]
        rw [if_pos (habove j (List.mem_cons_self j t2) vj hvj)]
  | cons a t1 ih =>
    intro pos fuel h hb hf
    rw [List.cons_append, vma_chain_cons] at h
    obtain ⟨hp, v, hv, hn⟩ := h
    obtain ⟨hb1, hb2⟩ := hb a (List.mem_cons_self a _) v hv
    have hfirst : ∃ b1 vb, v.next = lptr.node b1 ∧ s.vmas b1 = some vb ∧ b1 ∈ t1 ++ [i] := by
      cases t1 with
      | nil =>
        rw [List.nil_append, vma_chain_cons] at hn
        obtain ⟨h1, v1, hv1, _⟩ := hn
        exact ⟨i, v1, h1, hv1, List.mem_singleton.mpr rfl⟩
      | cons c t2 =>
        rw [List.cons_append, vma_chain_cons] at hn
        obtain ⟨h1, v1, hv1, _⟩ := hn
        exact ⟨c, v1, h1, hv1, List.mem_cons_self c _⟩
    obtain ⟨b1, vb, hnb, hvb, hbm⟩ := hfirst
    obtain ⟨hd1, hd2⟩ := hb b1 (List.mem_cons_of_mem a hbm) vb hvb
    cases fuel with
    | zero => exact absurd hf (Nat.not_lt_zero _)
    | succ f =>
      have hrec := ih v.next f hn (fun x hx => hb x (List.mem_cons_of_mem a hx))
        (Nat.lt_of_succ_lt_succ hf)
      rw [hp]
      unfold place_vma
      simp only [hv, hmod]
      have hc1 : ¬ (addr + len ≤ v.vm_start) := by omega
      have hne : ¬ (v.next = lptr.head) := by
        rw [hnb]
        exact fun hh => lptr.noConfusion hh
      rw [if_neg hc1, if_pos hb2, if_neg hne]
      rw [hnb] at hrec ⊢
      simp only [hvb]
      have hc2 : ¬ (addr + len ≤ vb.vm_start) := by omega
      have hc3 : ¬ (addr < vb.vm_start ∧
          (vb.vm_start + 4294967296 - v.vm_end) % 4294967296 ≥ len) := by
        intro hh
        omega
      rw [if_neg hc2, if_neg hc3]
      exact hrec


theorem vma_chain_record (s : VMState) :
    ∀ (l : List Nat) (pos : lptr), vma_chain s pos l = true →
      ∀ a ∈ l, ∃ v, s.vmas a = some v := by
  intro l
  induction l with
  | nil => intro _ _ a ha; cases ha
  | cons b t ih =>
    intro pos h a ha
    rw [vma_chain_cons] at h
    obtain ⟨_, v, hv, hn⟩ := h
    rcases List.mem_cons.mp ha with h1 | h1
    · rw [h1]; exact ⟨v, hv⟩
    · exact ih v.next hn a h1

/-- `get_unmapped_area(0, len)` when the range `[b, b + PAGE_ALIGN(len))` at the
placement base `b` fits after the VMAs `l1` and before the VMAs `l2` of the list:
the new VMA gets that range and is linked in between them. -/
theorem get_unmapped_area_fits (s : VMState) (l1 l2 : List Nat) (len fuel b : Nat)
    (hchain : vma_chain s s.mm.mmap_next (l1 ++ l2) = true)
    (hfresh : s.next_vma ∉ l1 ++ l2)
    (hb : max s.mm.free_area_cache s.mm.end_brk = b)
    (hb0 : 0 < b) (hbal : b % PMM_FRAME_SIZE = 0)
    (hbelow : ∀ a ∈ l1, ∀ v, s.vmas a = some v → v.vm_start ≤ v.vm_end ∧ v.vm_end ≤ b)
    (habove : ∀ a ∈ l2, ∀ v, s.vmas a = some v → b + PAGE_ALIGN len ≤ v.vm_start)
    (hfirst : l1 = [] → l2 = [])
    (hlen : 0 < len) (hovf : b + (len + (PMM_FRAME_SIZE - 1)) < 4294967296)
    (hfuel : l1.length ≤ fuel) :
    ∃ s1, get_unmapped_area fuel s 0 len = .ok (s1, s.next_vma) ∧
      vma_chain s1 s1.mm.mmap_next (l1 ++ s.next_vma :: l2) = true ∧
      (∃ w, s1.vmas s.next_vma = some w ∧ w.vm_start = b ∧
        w.vm_end = b + PAGE_ALIGN len ∧ w.vm_file = none) ∧
      (∀ a ∈ l1, ∀ w, s1.vmas a = some w → w.vm_end ≤ b) ∧
      (∀ a ∈ l2, ∀ w, s1.vmas a = some w → b + PAGE_ALIGN len ≤ w.vm_start) := by
  have hpa : PAGE_ALIGN b = b :=
    PAGE_ALIGN_self b hbal (by unfold PMM_FRAME_SIZE at hovf ⊢; omega)
  obtain ⟨hl1, hl2⟩ := PAGE_ALIGN_pos len hlen (by unfold PMM_FRAME_SIZE at hovf ⊢; omega)
  generalize hlen1 : PAGE_ALIGN len = len1 at hl1 hl2 habove ⊢
  have hsum : b + len1 < 4294967296 := by omega
  have hmod : (b + len1) % 4294967296 = b + len1 := Nat.mod_eq_of_lt hsum
  have hlen1pos : 0 < len1 := by omega
  have hbne : b ≠ 0 := Nat.pos_iff_ne_zero.mp hb0
  unfold get_unmapped_area
  simp only [true_or, if_true, show (store_vma s s.next_vma blank_vma).mm = s.mm from rfl,
    hb, hpa, ne_eq, not_true, if_false, hlen1, hmod]
  generalize hs0 : ({
    mm := s.mm
    vmas := (store_vma s s.next_vma blank_vma).vmas
    next_vma := s.next_vma + 1
    files := (store_vma s s.next_vma blank_vma).files
    page_map := (store_vma s s.next_vma blank_vma).page_map
    next_frame := (store_vma s s.next_vma blank_vma).next_frame } : VMState) = s0
  have h0v : s0.vmas s.next_vma = some blank_vma := by
    rw [← hs0]
    simp only [store_vma, if_true]
  have h0x : ∀ x, x ≠ s.next_vma → s0.vmas x = s.vmas x := by
    intro x hx
    rw [← hs0]
    simp only [store_vma, if_neg hx]
  have h0m : s0.mm.mmap_next = s.mm.mmap_next := by rw [← hs0]
  have hnemem : ∀ a ∈ l1 ++ l2, a ≠ s.next_vma := fun a ha h => hfresh (h ▸ ha)
  have hchain0 : vma_chain s0 s0.mm.mmap_next (l1 ++ l2) = true := by
    rw [h0m]
    apply vma_chain_congr s s0 _ _ hchain
    intro a ha v hv
    exact ⟨v, by rw [h0x a (hnemem a ha)]; exact hv, rfl⟩
  have hbelow0 : ∀ a ∈ l1, ∀ v, s0.vmas a = some v → v.vm_start ≤ v.vm_end ∧ v.vm_end ≤ b := by
    intro a ha v hv
    rw [h0x a (hnemem a (List.mem_append_left _ ha))] at hv
    exact hbelow a ha v hv
  have habove0 : ∀ a ∈ l2, ∀ v, s0.vmas a = some v → b + len1 ≤ v.vm_start := by
    intro a ha v hv
    rw [h0x a (hnemem a (List.mem_append_right _ ha))] at hv
    exact habove a ha v hv
  clear hs0
  rw [← h0m]
  rcases List.eq_nil_or_concat l1 with hl | ⟨t, i, hl⟩
  · have hl2nil := hfirst hl
    rw [hl, hl2nil] at hchain0 ⊢
    have hhead : s0.mm.mmap_next = lptr.head := (vma_chain_nil s0 _).mp hchain0
    obtain ⟨s1, hs1, hw, _, hmn⟩ := list_add_empty s0 s.next_vma blank_vma hhead h0v
    rw [if_pos hhead, hs1]
    simp only [hbne, not_false_eq_true, if_true, hw]
    refine ⟨_, rfl, ?_, ⟨_, if_pos rfl, rfl, hmod, rfl⟩, ?_, ?_⟩
    · have hc : vma_chain s1 s1.mm.mmap_next [s.next_vma] = true := by
        rw [hmn, vma_chain_cons]
        exact ⟨rfl, _, hw, rfl⟩
      exact vma_chain_set_range s1 s.next_vma _ _ _ _ hw _ hc
    · intro a ha
      cases ha
    · intro a ha
      cases ha
  · rw [List.concat_eq_append] at hl
    have hsplit : l1 ++ l2 = t ++ i :: l2 := by
      rw [hl, List.append_assoc, List.singleton_append]
    rw [hsplit] at hchain0 hnemem
    rw [hl] at hbelow0
    have hnd := vma_chain_nodup s0 _ _ hchain0
    have hil : i ∉ l2 := (List.nodup_cons.mp (List.nodup_append.mp hnd).2.1).1
    have hit : i ∉ t := fun h => (List.nodup_append.mp hnd).2.2 h (List.mem_cons_self i l2)
    obtain ⟨p, hp⟩ := vma_chain_suffix s0 (i :: l2) t _ hchain0
    rw [vma_chain_cons] at hp
    obtain ⟨_, vi, hvi, hrest⟩ := hp
    have hiv : i ≠ s.next_vma := hnemem i (by simp)
    have hvl : s.next_vma ∉ l2 := fun h => hnemem _ (by simp [h]) rfl
    obtain ⟨s1, hs1, hw, hi1, hx1, hmn⟩ :=
      list_add_after s0 s.next_vma i blank_vma vi l2 hvi h0v hiv hrest hil hvl
    have hnh : ¬ (s0.mm.mmap_next = lptr.head) := by
      intro hh
      rw [hh] at hchain0
      cases t with
      | nil =>
        rw [List.nil_append, vma_chain_cons] at hchain0
        exact lptr.noConfusion hchain0.1
      | cons c t2 =>
        rw [List.cons_append, vma_chain_cons] at hchain0
        exact lptr.noConfusion hchain0.1
    rw [if_neg hnh, place_vma_fits s0 s.next_vma b len1 i l2 hsum hlen1pos habove0 t _ fuel
      hchain0 hbelow0 (by rw [hl, List.length_append] at hfuel; simpa using hfuel), hs1]
    simp only [hbne, not_false_eq_true, if_true, hw]
    have hkeep : ∀ x, x ≠ s.next_vma → x ≠ i → ∀ w1, s1.vmas x = some w1 →
        (∃ v, s0.vmas x = some v) →
        ∃ v, s0.vmas x = some v ∧ w1.vm_start = v.vm_start ∧ w1.vm_end = v.vm_end := by
      intro x hx hxi w1 hw1 ⟨v, hv⟩
      obtain ⟨w2, hw2, _, h2, h3⟩ := hx1 x hx hxi v hv
      rw [hw1] at hw2
      cases hw2
      exact ⟨v, hv, h2, h3⟩
    refine ⟨_, rfl, ?_, ⟨_, if_pos rfl, rfl, hmod, rfl⟩, ?_, ?_⟩
    · have hc : vma_chain s1 s1.mm.mmap_next (l1 ++ s.next_vma :: l2) = true := by
        rw [hmn, hl, List.append_assoc, List.singleton_append]
        apply vma_chain_insert s0 s1 s.next_vma i _ l2 hw _ _ t _ hchain0
        · intro x hx v hv
          obtain ⟨w2, hw2, hn2, _, _⟩ :=
            hx1 x (hnemem x (by simp [hx])) (fun h => hit (h ▸ hx)) v hv
          exact ⟨w2, hw2, hn2⟩
        · intro v hv
          rw [hvi] at hv
          cases hv
          exact ⟨hi1, rfl⟩
        · intro x hx v hv
          obtain ⟨w2, hw2, hn2, _, _⟩ :=
            hx1 x (hnemem x (by simp [hx])) (fun h => hil (h ▸ hx)) v hv
          exact ⟨w2, hw2, hn2⟩
      exact vma_chain_set_range s1 s.next_vma _ _ _ _ hw _ hc
    · intro a ha w1 hw1
      rw [hl] at ha
      have hane : a ≠ s.next_vma := hnemem a (by
        rcases List.mem_append.mp ha with h | h
        · simp [h]
        · simp [List.mem_singleton.mp h])
      simp only [store_vma, if_neg hane] at hw1
      by_cases hai : a = i
      · rw [hai, hi1] at hw1
        cases hw1
        exact (hbelow0 i (by simp) vi hvi).2
      · obtain ⟨v, hv, _, h3⟩ := hkeep a hane hai w1 hw1
          (vma_chain_record s0 _ _ hchain0 a (by
            rcases List.mem_append.mp ha with h | h
            · simp [h]
            · simp [List.mem_singleton.mp h]))
        rw [h3]
        exact (hbelow0 a ha v hv).2
    · intro a ha w1 hw1
      have hane : a ≠ s.next_vma := hnemem a (by simp [ha])
      have hai : a ≠ i := fun h => hil (h ▸ ha)
      simp only [store_vma, if_neg hane] at hw1
      obtain ⟨v, hv, h2, _⟩ := hkeep a hane hai w1 hw1
        (vma_chain_record s0 _ _ hchain0 a (by simp [ha]))
      rw [h2]
      exact habove0 a ha v hv


/-! ## The round trip `do_mmap`, `do_munmap` -/

theorem vma_contains_false_of_end (s : VMState) (b a : Nat)
    (h : ∀ w, s.vmas a = some w → w.vm_end ≤ b) : vma_contains s b a = false := by
  cases hc : vma_contains s b a with
  | false => rfl
  | true =>
    obtain ⟨v, hv, _, h2⟩ := (vma_contains_iff s b a).mp hc
    have := h v hv
    omega

theorem vma_contains_false_of_start (s : VMState) (b a : Nat)
    (h : ∀ w, s.vmas a = some w → b < w.vm_start) : vma_contains s b a = false := by
  cases hc : vma_contains s b a with
  | false => rfl
  | true =>
    obtain ⟨v, hv, h1, _⟩ := (vma_contains_iff s b a).mp hc
    have := h v hv
    omega

theorem find?_eq_none_of_false (p : Nat → Bool) (l : List Nat)
    (h : ∀ a ∈ l, p a = false) : l.find? p = none := by
  rw [List.find?_eq_none]
  intro a ha
  rw [h a ha]
  exact Bool.false_ne_true

/-- C13 (amended). For every `mm` with a well-formed VMA list in which no VMA contains
the address 0, whose placement base `b = max(free_area_cache, end_brk)` is non-zero
and page-aligned, and every `len > 0` (with `b + len + PAGE_SIZE - 1` below `2^32`)
such that the range `[b, b + PAGE_ALIGN(len))` fits into the list, that is the VMAs
`l1` of the list before it end at or below `b`, the VMAs `l2` after it start at or
above its end, and there is a VMA before it unless the list is empty: the anonymous
call `do_mmap(0, len, prot, flags, -1, 0)` returns `b`, which is non-zero and
page-aligned; `find_vma(mm, b)` then returns a VMA; `do_munmap(mm, b, len)` returns
0; and after it `find_vma(mm, b)` returns none. -/
theorem mmap_munmap_round_trip (s : VMState) (l1 l2 : List Nat)
    (len prot flag fuel b : Nat)
    (hchain : vma_chain s s.mm.mmap_next (l1 ++ l2) = true)
    (hfresh : s.next_vma ∉ l1 ++ l2)
    (hb : max s.mm.free_area_cache s.mm.end_brk = b)
    (hb0 : 0 < b) (hbal : b % PMM_FRAME_SIZE = 0)
    (hbelow : ∀ a ∈ l1, ∀ v, s.vmas a = some v → v.vm_start ≤ v.vm_end ∧ v.vm_end ≤ b)
    (habove : ∀ a ∈ l2, ∀ v, s.vmas a = some v → b + PAGE_ALIGN len ≤ v.vm_start)
    (hfirst : l1 = [] → l2 = [])
    (hzero : ∀ a ∈ l1, vma_contains s 0 a = false)
    (hlen : 0 < len) (hovf : b + (len + (PMM_FRAME_SIZE - 1)) < 4294967296)
    (hfuel : (l1 ++ l2).length + 1 < fuel)
    (hpages : PAGE_ALIGN len / PMM_FRAME_SIZE < fuel) :
    ∃ s1 s2 a, do_mmap fuel s 0 len prot flag (-1) 0 = .ok (b, s1) ∧
      b ≠ 0 ∧ b % PMM_FRAME_SIZE = 0 ∧
      find_vma fuel s1 b = .ok (some a) ∧
      do_munmap fuel s1 b len = .ok (0, s2) ∧
      find_vma fuel s2 b = .ok none := by
  have hlens : (l1 ++ l2).length = l1.length + l2.length := List.length_append l1 l2
  obtain ⟨g, hg, hgc, ⟨w, hgw, hws, hwe, hwf⟩, hge, hgs⟩ :=
    get_unmapped_area_fits s l1 l2 len fuel b hchain hfresh hb hb0 hbal hbelow habove hfirst
      hlen hovf (by omega)
  obtain ⟨hl1, hl2⟩ := PAGE_ALIGN_pos len hlen (by unfold PMM_FRAME_SIZE at hovf ⊢; omega)
  have hal1 := PAGE_ALIGN_mod len
  generalize hlen1 : PAGE_ALIGN len = len1 at hl1 hl2 hal1 hpages hwe habove hgs
  have hsum : b + len1 < 4294967296 := by omega
  have hf0 : find_vma fuel s 0 = .ok none := by
    rw [find_vma_chain s 0 fuel _ hchain (by omega)]
    congr 1
    apply find?_eq_none_of_false
    intro a ha
    rcases List.mem_append.mp ha with h | h
    · exact hzero a h
    · apply vma_contains_false_of_start
      intro v hv
      have := habove a h v hv
      omega
  have hpg : b + len1 = b + PMM_FRAME_SIZE * (len1 / PMM_FRAME_SIZE) := by
    unfold PMM_FRAME_SIZE at hal1 ⊢
    omega
  obtain ⟨g2, hmap, hv2, hm2⟩ := map_fresh_pages_ok (len1 / PMM_FRAME_SIZE) fuel g b hpages
    (by rw [← hpg]; exact hsum)
  rw [← hpg] at hmap
  have hL : (l1 ++ s.next_vma :: l2).length < fuel := by
    rw [List.length_append, List.length_cons]
    omega
  have hskip : ∀ S : VMState, (∀ a ∈ l1, ∀ w1, S.vmas a = some w1 → w1.vm_end ≤ b) →
      (l1 ++ s.next_vma :: l2).find? (vma_contains S b) =
        (s.next_vma :: l2).find? (vma_contains S b) := by
    intro S hS
    rw [List.find?_append, find?_eq_none_of_false _ l1
      (fun a ha => vma_contains_false_of_end S b a (hS a ha))]
    rfl
  have hc2 : vma_chain g2 g2.mm.mmap_next (l1 ++ s.next_vma :: l2) = true := by
    rw [hm2]
    apply vma_chain_congr g g2 _ _ hgc
    intro a _ v hv
    exact ⟨v, by rw [hv2]; exact hv, rfl⟩
  have hg2w : g2.vmas s.next_vma = some w := by rw [hv2]; exact hgw
  have hfound : find_vma fuel g2 b = .ok (some s.next_vma) := by
    rw [find_vma_chain g2 b fuel _ hc2 hL, hskip g2 (by rw [hv2]; exact hge)]
    have : vma_contains g2 b s.next_vma = true := by
      rw [vma_contains_iff]
      exact ⟨w, hg2w, by omega, by omega⟩
    rw [List.find?_cons_of_pos _ this]
  refine ⟨g2, store_vma g2 s.next_vma { w with vm_end := b }, s.next_vma, ?_, ?_, hbal,
    hfound, ?_, ?_⟩
  · unfold do_mmap
    have hneg : ¬ ((-1 : Int) ≥ 0) := by decide
    simp only [ALIGN_DOWN, Nat.zero_div, Nat.zero_mul, hf0, hg, hgw, if_neg hneg, hws, hwe,
      hmap, ne_eq, not_true, if_false]
  · exact Nat.pos_iff_ne_zero.mp hb0
  · unfold do_munmap
    simp only [hfound, hg2w]
    have hnlt : ¬ (w.vm_start < b) := by omega
    have hsize : (w.vm_end + 4294967296 - w.vm_start) % 4294967296 ≥ PAGE_ALIGN len := by
      rw [hlen1]
      omega
    rw [if_neg hnlt, if_pos hsize]
  · have hc3 : vma_chain (store_vma g2 s.next_vma { w with vm_end := b })
        (store_vma g2 s.next_vma { w with vm_end := b }).mm.mmap_next
          (l1 ++ s.next_vma :: l2) = true := by
      apply vma_chain_congr g2 _ _ _ hc2
      intro a _ v hv
      by_cases ha : a = s.next_vma
      · rw [ha, hg2w] at hv
        cases hv
        refine ⟨{ w with vm_end := b }, ?_, rfl⟩
        simp only [store_vma, ha, if_true]
      · refine ⟨v, ?_, rfl⟩
        simp only [store_vma, if_neg ha]
        exact hv
    have hne : ∀ a ∈ l1 ++ l2, a ≠ s.next_vma := fun a ha h => hfresh (h ▸ ha)
    rw [find_vma_chain _ b fuel _ hc3 hL, hskip]
    · congr 1
      apply find?_eq_none_of_false
      intro a ha
      rcases List.mem_cons.mp ha with h | h
      · rw [h]
        apply vma_contains_false_of_end
        intro w1 hw1
        simp only [store_vma, if_true] at hw1
        cases hw1
        exact Nat.le_refl b
      · apply vma_contains_false_of_start
        intro w1 hw1
        simp only [store_vma, if_neg (hne a (List.mem_append_right _ h))] at hw1
        rw [hv2] at hw1
        have := hgs a h w1 hw1
        omega
    · intro a ha w1 hw1
      simp only [store_vma, if_neg (hne a (List.mem_append_left _ ha))] at hw1
      rw [hv2] at hw1
      exact hge a ha w1 hw1

/-- C13 (amended) at a concrete input: the `mm` with the VMAs `[0x8000, 0x10000)` and
`[0x20000, 0x21000)`, whose placement base `0x10000` lies in the gap between them,
with `len = 8192`. -/
theorem mmap_munmap_round_trip_witness :
    ∃ s1 s2 a, do_mmap 6 gap_vm 0 8192 3 0 (-1) 0 = .ok (65536, s1) ∧
      65536 ≠ 0 ∧ 65536 % PMM_FRAME_SIZE = 0 ∧
      find_vma 6 s1 65536 = .ok (some a) ∧
      do_munmap 6 s1 65536 8192 = .ok (0, s2) ∧
      find_vma 6 s2 65536 = .ok none :=
  mmap_munmap_round_trip gap_vm [0] [1] 8192 3 0 6 65536 (by decide) (by decide)
    (by decide) (by decide) (by decide) (by decide) (by decide) (by decide) (by decide)
    (by decide) (by decide) (by decide) (by decide)


/-! ## The assertions of `handle_signal` -/

/-- C21 (the code at two failing inputs). Both start from the demo state, where every
handler is DEFAULT and nothing is pending or blocked. First input, the one the claim
names: `do_kill(2, SIGTERM)` to the current process returns 0 and leaves SIGTERM
pending; `handle_signal` selects SIGTERM, which is not ignored and whose action is
DEFAULT, but SIGTERM is not in the coredump set, so the second assertion fails.
Second input: `do_kill(2, SIGUSR1)` leaves SIGUSR1 pending and
`do_sigaction(SIGUSR1, SIG_IGN)` then returns 0; `handle_signal` selects SIGUSR1,
which is now ignored, so the first assertion fails. -/
theorem handle_signal_assertions_fail :
    (demo_state.procs 2).map (fun p => p.sighand) = some blank_process.sighand ∧
    return_of (do_kill 1 demo_state 2 SIGTERM) = some 0 ∧
    pending_at (state_of (do_kill 1 demo_state 2 SIGTERM)) 2 = some (M SIGTERM) ∧
    selected_at (state_of (do_kill 1 demo_state 2 SIGTERM)) 2 = some SIGTERM ∧
    ignored_at (state_of (do_kill 1 demo_state 2 SIGTERM)) 2 SIGTERM = some false ∧
    handler_at (state_of (do_kill 1 demo_state 2 SIGTERM)) 2 SIGTERM = some SIG_DFL ∧
    sig_kernel_coredump SIGTERM = false ∧
    (then_deliver (do_kill 1 demo_state 2 SIGTERM) 7 zero_regs).map delivery.outcome
      = some outcome.assert_failed ∧
    return_of (then_sigaction (do_kill 1 demo_state 2 SIGUSR1) SIGUSR1
      (sigaction.mk SIG_IGN 0 0)) = some 0 ∧
    selected_at (state_of (then_sigaction (do_kill 1 demo_state 2 SIGUSR1) SIGUSR1
      (sigaction.mk SIG_IGN 0 0))) 2 = some SIGUSR1 ∧
    ignored_at (state_of (then_sigaction (do_kill 1 demo_state 2 SIGUSR1) SIGUSR1
      (sigaction.mk SIG_IGN 0 0))) 2 SIGUSR1 = some true ∧
    (then_deliver (then_sigaction (do_kill 1 demo_state 2 SIGUSR1) SIGUSR1
      (sigaction.mk SIG_IGN 0 0)) 7 zero_regs).map delivery.outcome
      = some outcome.assert_failed := by
  refine ⟨by decide, by decide, by decide, by decide, by decide, by decide, by decide,
    by decide, by decide, by decide, by decide, by decide⟩

end Mos
